import Mathlib

/-!
Verification development for the Exuberant Ctags Ada parser (src/parsers/ada.c).

The C file is shallowly embedded below.  Global parser state (current
line, offset, exception flag, EOF counter, the token arena) is threaded
as an explicit `AdaState` value; the mutable token tree is modelled as an
arena (`List (Option AdaTokenInfo)`) indexed by token ids, with
parent/prev/next/childHead/childTail links stored as ids, mirroring the C
pointer structure.  The `longjmp` escape is modelled by an `aborted` flag
that makes every operation a no-op once set.  All loops are
fuel-indexed; exhausting fuel sets a `fuelOut` flag which likewise stops
all further work (this is a model artefact, not a source behaviour; all
theorems either evaluate concrete runs where the flag stays false or
quantify over fuel).

External host interfaces (fileReadLine, getSourceLineNumber,
getInputFilePosition, makeTagEntry, option flags) are modelled from the
spec: input is a list of lines, the source line number is the count of
lines read, the file position is abstracted to that same counter, and
emitted tags are accumulated in a list.
-/

set_option maxRecDepth 10000
set_option maxHeartbeats 2000000

/-- The kinds of Ada entities, mirroring `enum eAdaKinds` in ada.c.
`SEPARATE` and `UNDEFINED` are the two sentinel values (-2 and -1 in C);
the remaining constructors are the 25 real kinds in table order. -/
inductive AdaKind where
  | SEPARATE
  | UNDEFINED
  | PACKAGE_SPEC
  | PACKAGE
  | TYPE_SPEC
  | TYPE
  | SUBTYPE_SPEC
  | SUBTYPE
  | RECORD_COMPONENT
  | ENUM_LITERAL
  | VARIABLE_SPEC
  | VARIABLE
  | FORMAL
  | CONSTANT
  | EXCEPTION
  | SUBPROGRAM_SPEC
  | SUBPROGRAM
  | TASK_SPEC
  | TASK
  | PROTECTED_SPEC
  | PROTECTED
  | ENTRY_SPEC
  | ENTRY
  | LABEL
  | IDENTIFIER
  | AUTOMATIC_VARIABLE
  | ANONYMOUS
  deriving DecidableEq, Repr, Inhabited

namespace AdaKind

/-- `kind > ADA_KIND_UNDEFINED && kind < ADA_KIND_COUNT`: true exactly for
the 25 real (non-sentinel) kinds. -/
def isReal (k : AdaKind) : Bool :=
  match k with
  | SEPARATE => false
  | UNDEFINED => false
  | _ => true

end AdaKind

open AdaKind in
/-- The `enabled` column of the static `AdaKinds[]` table. -/
def adaKindEnabled (k : AdaKind) : Bool :=
  match k with
  | PACKAGE_SPEC => true
  | PACKAGE => true
  | TYPE_SPEC => false
  | TYPE => true
  | SUBTYPE_SPEC => false
  | SUBTYPE => true
  | RECORD_COMPONENT => true
  | ENUM_LITERAL => true
  | VARIABLE_SPEC => false
  | VARIABLE => true
  | FORMAL => true
  | CONSTANT => true
  | EXCEPTION => true
  | SUBPROGRAM_SPEC => true
  | SUBPROGRAM => true
  | TASK_SPEC => true
  | TASK => true
  | PROTECTED_SPEC => true
  | PROTECTED => true
  | ENTRY_SPEC => false
  | ENTRY => true
  | LABEL => true
  | IDENTIFIER => true
  | AUTOMATIC_VARIABLE => false
  | ANONYMOUS => false
  | SEPARATE => false
  | UNDEFINED => false

open AdaKind in
/-- The `name` column of the static `AdaKinds[]` table (used for the
scope-kind field of emitted tags). -/
def adaKindName (k : AdaKind) : List Char :=
  match k with
  | PACKAGE_SPEC => "packspec".data
  | PACKAGE => "package".data
  | TYPE_SPEC => "typespec".data
  | TYPE => "type".data
  | SUBTYPE_SPEC => "subspec".data
  | SUBTYPE => "subtype".data
  | RECORD_COMPONENT => "component".data
  | ENUM_LITERAL => "literal".data
  | VARIABLE_SPEC => "varspec".data
  | VARIABLE => "variable".data
  | FORMAL => "formal".data
  | CONSTANT => "constant".data
  | EXCEPTION => "exception".data
  | SUBPROGRAM_SPEC => "subprogspec".data
  | SUBPROGRAM => "subprogram".data
  | TASK_SPEC => "taskspec".data
  | TASK => "task".data
  | PROTECTED_SPEC => "protectspec".data
  | PROTECTED => "protected".data
  | ENTRY_SPEC => "entryspec".data
  | ENTRY => "entry".data
  | LABEL => "label".data
  | IDENTIFIER => "identifier".data
  | AUTOMATIC_VARIABLE => "autovar".data
  | ANONYMOUS => "annon".data
  | SEPARATE => [] -- sentinel, no table entry
  | UNDEFINED => [] -- sentinel, no table entry

/-- `enum eAdaKeywords` from ada.c. -/
inductive AdaKeyword where
  | ACCEPT | BEGIN | BODY | CASE | CONSTANT | DECLARE | DO | ELSE | ELSIF
  | END | ENTRY | EXCEPTION | FOR | FUNCTION | GENERIC | IF | IN | IS
  | LOOP | NEW | OR | PACKAGE | PRAGMA | PRIVATE | PROCEDURE | PROTECTED
  | RECORD | RENAMES | SELECT | SEPARATE | SUBTYPE | TASK | THEN | TYPE
  | UNTIL | USE | WHEN | WHILE | WITH
  deriving DecidableEq, Repr

open AdaKeyword in
/-- The static `AdaKeywords[]` string table. -/
def adaKeywords (k : AdaKeyword) : List Char :=
  match k with
  | ACCEPT => "accept".data
  | BEGIN => "begin".data
  | BODY => "body".data
  | CASE => "case".data
  | CONSTANT => "constant".data
  | DECLARE => "declare".data
  | DO => "do".data
  | ELSE => "else".data
  | ELSIF => "elsif".data
  | END => "end".data
  | ENTRY => "entry".data
  | EXCEPTION => "exception".data
  | FOR => "for".data
  | FUNCTION => "function".data
  | GENERIC => "generic".data
  | IF => "if".data
  | IN => "in".data
  | IS => "is".data
  | LOOP => "loop".data
  | NEW => "new".data
  | OR => "or".data
  | PACKAGE => "package".data
  | PRAGMA => "pragma".data
  | PRIVATE => "private".data
  | PROCEDURE => "procedure".data
  | PROTECTED => "protected".data
  | RECORD => "record".data
  | RENAMES => "renames".data
  | SELECT => "select".data
  | SEPARATE => "separate".data
  | SUBTYPE => "subtype".data
  | TASK => "task".data
  | THEN => "then".data
  | TYPE => "type".data
  | UNTIL => "until".data
  | USE => "use".data
  | WHEN => "when".data
  | WHILE => "while".data
  | WITH => "with".data

/-- `enum eAdaParseMode`. -/
inductive AdaParseMode where
  | ADA_ROOT | ADA_DECLARATIONS | ADA_CODE | ADA_EXCEPTIONS | ADA_GENERIC
  deriving DecidableEq, Repr

/-! ### C character classification and string primitives (ASCII) -/

/-- C `isspace` on the ASCII range. -/
def cIsSpace (c : Char) : Bool :=
  c = ' ' || c = '\t' || c = '\n' || c = '\x0b' || c = '\x0c' || c = '\r'

/-- C `isalnum` on the ASCII range. -/
def cIsAlnum (c : Char) : Bool :=
  ('a' ≤ c && c ≤ 'z') || ('A' ≤ c && c ≤ 'Z') || ('0' ≤ c && c ≤ '9')

/-- C `tolower` on the ASCII range. -/
def cToLower (c : Char) : Char :=
  if 'A' ≤ c && c ≤ 'Z' then Char.ofNat (c.toNat + 32) else c

/-- Read character `i` of a C string modelled as a char list; positions at
or beyond the end read the NUL terminator. -/
def charAt (l : List Char) (i : Int) : Char :=
  if 0 ≤ i then l.getD i.toNat '\x00' else '\x00'

/-- C `strncasecmp(a, b, n) == 0`.  Comparison walks at most `n`
characters and stops early at a common NUL (both strings padded with the
terminator beyond their end). -/
def strncaseEq (a b : List Char) (n : Nat) : Bool :=
  match n with
  | 0 => true
  | n + 1 =>
    let ca := charAt a 0
    let cb := charAt b 0
    if cToLower ca ≠ cToLower cb then false
    else if ca = '\x00' then true
    else strncaseEq (a.drop 1) (b.drop 1) n

/-- The tail of a C string starting at offset `i` (pointer arithmetic
`&buf[i]`). -/
def strFrom (l : List Char) (i : Int) : List Char :=
  l.drop i.toNat

/-! ### Token arena -/

/-- One token of the entity tree, mirroring `struct sAdaTokenInfo`
together with the `tagEntryInfo` fields the parser uses.  Pointers are
modelled as arena ids (`Option Nat`).  `nameStatic` is ownership
instrumentation: it is true exactly while `token->name` aliases the
static keyword string `AdaKeywords[ADA_KEYWORD_DECLARE]` rather than an
owned heap copy. -/
structure AdaTokenInfo where
  kind : AdaKind
  isSpec : Bool
  isPrivate : Bool
  name : Option (List Char)
  nameStatic : Bool
  tagName : Option (List Char)
  tagKind : Option AdaKind
  lineNumber : Nat
  filePosition : Nat
  isFileScope : Bool
  scopeKind : Option (List Char)
  scopeName : Option (List Char)
  parent : Option Nat
  prev : Option Nat
  next : Option Nat
  childHead : Option Nat
  childTail : Option Nat
  numTokens : Int
  deriving DecidableEq, Repr

instance : Inhabited AdaTokenInfo :=
  ⟨⟨AdaKind.UNDEFINED, false, false, none, false, none, none, 0, 0, false,
    none, none, none, none, none, none, none, 0⟩⟩

/-- One record handed to `makeTagEntry` (the external sink). -/
structure TagRecord where
  name : List Char
  kind : Option AdaKind
  lineNumber : Nat
  filePosition : Nat
  isFileScope : Bool
  scopeKind : Option (List Char)
  scopeName : Option (List Char)
  deriving DecidableEq, Repr

/-- The policy surface consumed from the host (`Option.include.*`). -/
structure AdaOpts where
  fileScope : Bool
  qualifiedTags : Bool
  deriving DecidableEq, Repr

/-- The global parser state of ada.c, threaded explicitly. -/
structure AdaState where
  input : List (List Char)
  srcLine : Nat
  filePosCtr : Nat
  line : Option (List Char)
  lineLen : Int
  pos : Int
  exception : Bool
  eofCount : Nat
  aborted : Bool
  fuelOut : Bool
  matchLineNum : Nat
  matchFilePos : Nat
  tokens : List (Option AdaTokenInfo)
  deriving DecidableEq, Repr

namespace AdaState

/-- `aborted` models the `longjmp` escape and `fuelOut` the model's fuel
exhaustion; in either case no further work happens. -/
def halted (s : AdaState) : Bool := s.aborted || s.fuelOut

/-- Arena lookup. -/
def tok? (s : AdaState) (i : Nat) : Option AdaTokenInfo :=
  (s.tokens.getD i none)

/-- Arena update at id `i`. -/
def setTok (s : AdaState) (i : Nat) (t : AdaTokenInfo) : AdaState :=
  { s with tokens := s.tokens.set i (some t) }

/-- Update a token in place via `f`; no-op when the id is dead. -/
def modTok (s : AdaState) (i : Nat) (f : AdaTokenInfo → AdaTokenInfo) : AdaState :=
  match s.tok? i with
  | some t => s.setTok i (f t)
  | none => s

/-- Remove a token from the arena (the `eFree(token)` of the C code). -/
def delTok (s : AdaState) (i : Nat) : AdaState :=
  { s with tokens := s.tokens.set i none }

/-- Allocate a fresh arena slot holding `t`; returns its id. -/
def alloc (s : AdaState) (t : AdaTokenInfo) : Nat × AdaState :=
  (s.tokens.length, { s with tokens := s.tokens ++ [some t] })

/-- The current line, or `[]` when `line == NULL`. -/
def curLine (s : AdaState) : List Char := s.line.getD []

end AdaState

/-! ### Entity tree operations (`appendAdaToken`, `freeAdaToken`, ...) -/

/-- `appendAdaToken(parent, token)`: tail-insert `token` into `parent`'s
doubly-linked child list and set its parent back-reference.  A `none`
parent or token is a no-op, as in C. -/
def appendAdaToken (s : AdaState) (parent : Option Nat) (token : Option Nat) : AdaState :=
  match parent, token with
  | some p, some t =>
    match s.tok? p, s.tok? t with
    | some ptok, some ttok =>
      let tail := ptok.childTail
      let s := s.setTok t
        { ttok with parent := some p, prev := tail, next := none }
      let s :=
        match tail with
        | some tl => s.modTok tl (fun x => { x with next := some t })
        | none => s
      let s := s.setTok p
        { (s.tok? p).getD ptok with
            numTokens := ptok.numTokens + 1
            childTail := some t
            childHead := if ptok.childHead = none then some t else ptok.childHead }
      s
    | _, _ => s
  | _, _ => s

/-- `initAdaTokenList(&token->children)` applied to the token at `i`. -/
def initAdaTokenList (s : AdaState) (i : Nat) : AdaState :=
  s.modTok i (fun t => { t with childHead := none, childTail := none, numTokens := 0 })

mutual

/-- `freeAdaToken(list, token)`: free the owned name, recursively free
the children, unlink from the sibling list maintained by `listOwner`
(which corresponds to the `adaTokenList *list` argument: the children
list of `listOwner`, or `none` for a NULL list), and delete the token.
`fuel` bounds the recursion. -/
def freeAdaToken (fuel : Nat) (s : AdaState) (listOwner : Option Nat)
    (token : Option Nat) : AdaState :=
  match fuel with
  | 0 => { s with fuelOut := true }
  | fuel + 1 =>
    match token with
    | none => s
    | some t =>
      match s.tok? t with
      | none => s
      | some ttok =>
        -- free the owned name
        let s := s.setTok t { ttok with name := none, nameStatic := false }
        -- before we delete this token, clean up its children
        let s := freeAdaTokenList fuel s (some t)
        let ttok := (s.tok? t).getD ttok
        -- unlink from the sibling list
        let s :=
          match ttok.prev with
          | some pv => s.modTok pv (fun x => { x with next := ttok.next })
          | none =>
            match listOwner with
            | some lo => s.modTok lo (fun x => { x with childHead := ttok.next })
            | none => s
        let s :=
          match ttok.next with
          | some nx => s.modTok nx (fun x => { x with prev := ttok.prev })
          | none =>
            match listOwner with
            | some lo => s.modTok lo (fun x => { x with childTail := ttok.prev })
            | none => s
        let s :=
          match listOwner with
          | some lo => s.modTok lo (fun x => { x with numTokens := x.numTokens - 1 })
          | none => s
        s.delTok t

/-- `freeAdaTokenList(list)`: free tokens from the head of `owner`'s
child list until it is empty. -/
def freeAdaTokenList (fuel : Nat) (s : AdaState) (owner : Option Nat) : AdaState :=
  match fuel with
  | 0 => { s with fuelOut := true }
  | fuel + 1 =>
    match owner with
    | none => s
    | some o =>
      match s.tok? o with
      | none => s
      | some otok =>
        match otok.childHead with
        | none => s
        | some h =>
          let s := freeAdaToken fuel s (some o) (some h)
          freeAdaTokenList fuel s (some o)

end

/-- `appendAdaTokenList(parent, children)`: splice every node of
`src`'s child list onto `parent` in order, then zero out `src`'s list. -/
def appendAdaTokenListLoop (fuel : Nat) (s : AdaState) (parent : Nat) (src : Nat) : AdaState :=
  match fuel with
  | 0 => { s with fuelOut := true }
  | fuel + 1 =>
    match s.tok? src with
    | none => s
    | some stok =>
      match stok.childHead with
      | none => s
      | some h =>
        let tmp := match s.tok? h with
                   | some htok => htok.next
                   | none => none
        let s := appendAdaToken s (some parent) (some h)
        let s := s.modTok src (fun x => { x with childHead := tmp })
        appendAdaTokenListLoop fuel s parent src

/-- `appendAdaTokenList(parent, children)`. -/
def appendAdaTokenList (s : AdaState) (parent : Option Nat) (src : Nat) : AdaState :=
  match parent with
  | none => s
  | some p =>
    let s := appendAdaTokenListLoop (s.tokens.length + 1) s p src
    initAdaTokenList s src

/-- The file-scope rule of `newAdaToken`: a token is file-scoped unless
its parent is the root (`UNDEFINED`), a `SEPARATE` placeholder, or a
non-private package/subprogram/protected/task specification — evaluated
against the parent's state at this moment. -/
def adaFileScope (s : AdaState) (parent : Option Nat) : Bool :=
  match parent with
  | some p =>
    match s.tok? p with
    | some ptok =>
      if ptok.isPrivate = false &&
         (ptok.kind = AdaKind.UNDEFINED ||
          ptok.kind = AdaKind.SEPARATE ||
          (ptok.isSpec = true &&
           (ptok.kind = AdaKind.PACKAGE ||
            ptok.kind = AdaKind.SUBPROGRAM ||
            ptok.kind = AdaKind.PROTECTED ||
            ptok.kind = AdaKind.TASK)))
      then false else true
    | none => true
  | none => true

/-- `newAdaToken(name, len, kind, isSpec, parent)`: allocate a token,
copying `len` characters of the name (a NULL or empty name yields a NULL
name), compute the file-scope flag from the parent's kind/spec/privacy
at this moment, default the tag fields from the current read position,
and append to the parent.  Returns the new id. -/
def newAdaToken (s : AdaState) (name : Option (List Char)) (len : Int)
    (kind : AdaKind) (isSpec : Bool) (parent : Option Nat) : Nat × AdaState :=
  let tmpName : Option (List Char) :=
    match name with
    | some cs => if len ≠ 0 then some (cs.take len.toNat) else none
    | none => none
  let fileScope : Bool := adaFileScope s parent
  let tok : AdaTokenInfo :=
    { kind := kind
      isSpec := isSpec
      isPrivate := false
      name := tmpName
      nameStatic := false
      tagName := tmpName
      tagKind := if kind.isReal then some kind else none
      lineNumber := s.srcLine
      filePosition := s.filePosCtr
      isFileScope := fileScope
      scopeKind := none
      scopeName := none
      parent := parent
      prev := none
      next := none
      childHead := none
      childTail := none
      numTokens := 0 }
  let (i, s) := s.alloc tok
  let s := appendAdaToken s parent (some i)
  (i, s)

/-! ### Lexical cursor primitives -/

/-- The host's `fileReadLine()`: pop one line of input, advancing the
source line number and file position (modelled abstractly as counters).
At end of input it persistently returns `none`. -/
def fileReadLine (s : AdaState) : Option (List Char) × AdaState :=
  match s.input with
  | [] => (none, s)
  | l :: rest =>
    (some l, { s with input := rest, srcLine := s.srcLine + 1,
                      filePosCtr := s.filePosCtr + 1 })

/-- The body of `readNewLine`'s `while(TRUE)` loop.  Each iteration
consumes one input line, so `s.input.length + 1` fuel always suffices. -/
def readNewLineLoop : Nat → AdaState → AdaState
  | 0, s => { s with fuelOut := true }
  | fuel + 1, s =>
    let (l, s) := fileReadLine s
    let s := { s with line := l, pos := 0 }
    match l with
    | none =>
      let s := { s with lineLen := 0, exception := true, eofCount := s.eofCount + 1 }
      if 1000 ≤ s.eofCount then { s with aborted := true } else s
    | some cs =>
      let s := { s with lineLen := (cs.length : Int) }
      if 0 < cs.length then s else readNewLineLoop fuel s

/-- `readNewLine()`: fetch the next non-empty line; on end of input set
the EOF exception, bump `eofCount`, and `longjmp` (here: set `aborted`)
once the counter reaches 1000. -/
def readNewLine (s : AdaState) : AdaState :=
  if s.halted then s else readNewLineLoop (s.input.length + 1) s

/-- `movePos(amount)`. -/
def movePos (s : AdaState) (amount : Int) : AdaState :=
  if s.halted then s else
  let s := { s with pos := s.pos + amount }
  if s.exception ≠ true && s.lineLen ≤ s.pos then readNewLine s else s

/-- The `isAdaComment(buf, pos, len)` macro. -/
def isAdaComment (buf : List Char) (p : Int) (len : Int) : Bool :=
  (p = 0 || (!cIsAlnum (charAt buf (p - 1)) && charAt buf (p - 1) ≠ '_')) &&
  p < len &&
  strncaseEq (strFrom buf p) "--".data 2

/-- The C file's `cmp(buf, len, match)` (named `cmpC` here because `cmp`
is taken by the ambient library): case-insensitive match of `match` at the
start of `buf`, requiring end-of-text or a separator (whitespace,
`(`, `)`, `:`, `;`) to follow.  A `NULL` match is always true, a `NULL`
buffer never matches. -/
def cmpC (buf : Option (List Char)) (len : Int) (mtch : Option (List Char)) : Bool :=
  match mtch with
  | none => true
  | some m =>
    match buf with
    | none => false
    | some b =>
      let matchLen : Int := (m.length : Int)
      strncaseEq b m m.length &&
      (matchLen = len ||
       (matchLen < len &&
        (cIsSpace (charAt b matchLen) || charAt b matchLen = '(' ||
         charAt b matchLen = ')' || charAt b matchLen = ':' ||
         charAt b matchLen = ';')))

/-- `adaCmp(match)`: `cmp` against the text at the cursor; on success
record the match position and consume the matched word. -/
def adaCmp (s : AdaState) (mtch : Option (List Char)) : Bool × AdaState :=
  if s.halted then (false, s) else
  match s.line with
  | none => (false, { s with exception := true })
  | some l =>
    let status := cmpC (some (strFrom l s.pos)) (s.lineLen - s.pos) mtch
    match mtch with
    | some m =>
      if status then
        let s := { s with matchLineNum := s.srcLine, matchFilePos := s.filePosCtr }
        (true, movePos s (m.length : Int))
      else (false, s)
    | none => (status, s)

/-- `adaKeywordCmp(keyword)`. -/
def adaKeywordCmp (s : AdaState) (kw : AdaKeyword) : Bool × AdaState :=
  if s.halted then (false, s) else
  match s.line with
  | none => (false, { s with exception := true })
  | some l =>
    let status := cmpC (some (strFrom l s.pos)) (s.lineLen - s.pos) (some (adaKeywords kw))
    if status then
      let s := { s with matchLineNum := s.srcLine, matchFilePos := s.filePosCtr }
      (true, movePos s ((adaKeywords kw).length : Int))
    else (false, s)

/-- The recurring `while(exception != EXCEPTION_EOF &&
isAdaComment(line, pos, lineLen)) readNewLine();` loop.  Each iteration
consumes input, so `s.input.length + 1` fuel suffices. -/
def skipCommentLoop : Nat → AdaState → AdaState
  | 0, s => { s with fuelOut := true }
  | fuel + 1, s =>
    if s.halted then s
    else if s.exception ≠ true && isAdaComment s.curLine s.pos s.lineLen then
      skipCommentLoop fuel (readNewLine s)
    else s

/-- Comment-skipping prologue shared by the scanning primitives. -/
def skipComments (s : AdaState) : AdaState :=
  skipCommentLoop (s.input.length + 1) s

/-- Main loop of `skipUntilWhiteSpace` (raw `pos++` moves that stop at a
line boundary). -/
def skipUntilWhiteSpaceLoop : Nat → AdaState → AdaState
  | 0, s => { s with fuelOut := true }
  | fuel + 1, s =>
    if s.halted then s
    else if s.exception ≠ true && !cIsSpace (charAt s.curLine s.pos) then
      let s := { s with pos := s.pos + 1 }
      if s.lineLen ≤ s.pos then
        let (l, s) := fileReadLine s
        let s := { s with line := l, pos := 0 }
        match l with
        | none => { s with lineLen := 0, exception := true }
        | some cs => { s with lineLen := (cs.length : Int) }
      else
        skipUntilWhiteSpaceLoop fuel (skipComments s)
    else s

/-- `skipUntilWhiteSpace()`. -/
def skipUntilWhiteSpace (fuel : Nat) (s : AdaState) : AdaState :=
  if s.halted then s else skipUntilWhiteSpaceLoop fuel (skipComments s)

/-- Main loop of `skipWhiteSpace`. -/
def skipWhiteSpaceLoop : Nat → AdaState → AdaState
  | 0, s => { s with fuelOut := true }
  | fuel + 1, s =>
    if s.halted then s
    else if s.exception ≠ true && cIsSpace (charAt s.curLine s.pos) then
      let s := movePos s 1
      skipWhiteSpaceLoop fuel (skipComments s)
    else s

/-- `skipWhiteSpace()`. -/
def skipWhiteSpace (fuel : Nat) (s : AdaState) : AdaState :=
  if s.halted then s else skipWhiteSpaceLoop fuel (skipComments s)

/-- Main loop of `skipPast`. -/
def skipPastLoop (mtch : List Char) : Nat → AdaState → AdaState
  | 0, s => { s with fuelOut := true }
  | fuel + 1, s =>
    if s.halted then s
    else if s.exception = true then s
    else
      let (st, s) := adaCmp s (some mtch)
      if st then s
      else skipPastLoop mtch fuel (skipComments (movePos s 1))

/-- `skipPast(past)`. -/
def skipPast (fuel : Nat) (mtch : List Char) (s : AdaState) : AdaState :=
  if s.halted then s else skipPastLoop mtch fuel (skipComments s)

/-- Main loop of `skipPastKeyword`. -/
def skipPastKeywordLoop (kw : AdaKeyword) : Nat → AdaState → AdaState
  | 0, s => { s with fuelOut := true }
  | fuel + 1, s =>
    if s.halted then s
    else if s.exception = true then s
    else
      let (st, s) := adaKeywordCmp s kw
      if st then s
      else skipPastKeywordLoop kw fuel (skipComments (movePos s 1))

/-- `skipPastKeyword(keyword)`. -/
def skipPastKeyword (fuel : Nat) (kw : AdaKeyword) (s : AdaState) : AdaState :=
  if s.halted then s else skipPastKeywordLoop kw fuel (skipComments s)

/-- Main loop of `skipPastWord` (word characters end at whitespace,
`(`, `)`, `:`, `;`). -/
def skipPastWordLoop : Nat → AdaState → AdaState
  | 0, s => { s with fuelOut := true }
  | fuel + 1, s =>
    if s.halted then s
    else if s.exception ≠ true && !cIsSpace (charAt s.curLine s.pos) &&
            charAt s.curLine s.pos ≠ '(' && charAt s.curLine s.pos ≠ ')' &&
            charAt s.curLine s.pos ≠ ':' && charAt s.curLine s.pos ≠ ';' then
      let s := { s with pos := s.pos + 1 }
      if s.lineLen ≤ s.pos then
        let (l, s) := fileReadLine s
        let s := { s with line := l, pos := 0 }
        match l with
        | none => { s with lineLen := 0, exception := true }
        | some cs => { s with lineLen := (cs.length : Int) }
      else
        skipPastWordLoop fuel (skipComments s)
    else s

/-- `skipPastWord()`. -/
def skipPastWord (fuel : Nat) (s : AdaState) : AdaState :=
  if s.halted then s else skipPastWordLoop fuel (skipComments s)

/-- The idiom `for(i = 1; (pos + i) < lineLen && !stop(line[pos + i]);
i++);` used to measure the length of the tag under the cursor. -/
def scanLenAux (l : List Char) (pos lineLen : Int) (stop : Char → Bool) :
    Nat → Int → Int
  | 0, i => i
  | fuel + 1, i =>
    if pos + i < lineLen && !stop (charAt l (pos + i)) then
      scanLenAux l pos lineLen stop fuel (i + 1)
    else i

/-- Tag-length scan starting at `i = 1`. -/
def scanLen (l : List Char) (pos lineLen : Int) (stop : Char → Bool) : Int :=
  scanLenAux l pos lineLen stop ((lineLen - pos).toNat + 1) 1

/-- Stop set of the block/subprogram/type name scans:
whitespace, `(` or `;`. -/
def stopNameChar (c : Char) : Bool := cIsSpace c || c = '(' || c = ';'

/-! ### Variable-list sub-parser (`adaParseVariables`) -/

/-- Local state of `adaParseVariables`: the declaration buffer assembled
across line refills (lines are joined by the NUL terminator, exactly as
the C code reuses the `\0` left in `buf`), the scan positions, the
parenthesis depth (the reused C variable `i`), and the per-line file
position table. -/
structure VarScan where
  varEndPos : Int
  tokenStart : Int
  parenDepth : Int
  bufPos : Int
  bufLen : Int
  buf : List Char
  filePosIndex : Nat
  filePosTable : List Nat
  kind : AdaKind
  deriving Repr

/-- First pass of `adaParseVariables`: scan the buffer (refilling across
lines) until a top-level `;`, `:=`, `=>` or unmatched `)`, recording the
last top-level `:` and reclassifying kind `variable` as `constant` or
`exception` from the first bare word after that `:`. -/
def adaParseVariablesScan : Nat → VarScan → AdaState → VarScan × AdaState
  | 0, v, s => (v, { s with fuelOut := true })
  | fuel + 1, v, s =>
    if s.halted then (v, s)
    else if s.exception = true then (v, s)
    else
      let c := charAt v.buf v.bufPos
      -- the if/else chain of the scan loop; `none` result means `break`
      let step : Option VarScan :=
        if isAdaComment v.buf v.bufPos v.bufLen then
          some { v with
                   bufPos := v.bufLen - 1
                   tokenStart := if v.tokenStart ≠ -2 then -1 else v.tokenStart }
        else if c = '(' then
          some { v with parenDepth := v.parenDepth + 1 }
        else if c = ')' then
          if v.parenDepth = 0 then none
          else some { v with parenDepth := v.parenDepth - 1 }
        else if c = ';' ||
                (v.bufPos + 1 < v.bufLen &&
                 (strncaseEq (strFrom v.buf v.bufPos) ":=".data 2 ||
                  strncaseEq (strFrom v.buf v.bufPos) "=>".data 2)) then
          none
        else if c = ':' && (v.bufLen ≤ v.bufPos + 1 || charAt v.buf (v.bufPos + 1) ≠ '=') then
          some { v with varEndPos := v.bufPos }
        else if v.kind = AdaKind.VARIABLE && v.varEndPos ≠ -1 &&
                !cIsSpace c && v.tokenStart = -1 then
          some { v with tokenStart := v.bufPos }
        else if v.kind = AdaKind.VARIABLE && v.varEndPos ≠ -1 && 0 ≤ v.tokenStart &&
                (v.bufLen ≤ v.bufPos + 1 || cIsSpace (charAt v.buf (v.bufPos + 1)) ||
                 charAt v.buf (v.bufPos + 1) = ';') then
          let v :=
            if cmpC (some (strFrom v.buf v.tokenStart)) (v.bufLen - v.tokenStart)
                 (some (adaKeywords AdaKeyword.CONSTANT)) then
              { v with kind := AdaKind.CONSTANT }
            else if cmpC (some (strFrom v.buf v.tokenStart)) (v.bufLen - v.tokenStart)
                 (some (adaKeywords AdaKeyword.EXCEPTION)) then
              { v with kind := AdaKind.EXCEPTION }
            else v
          some { v with tokenStart := -2 }
        else
          some v
      match step with
      | none => (v, s)
      | some v =>
        let v := { v with bufPos := v.bufPos + 1 }
        if s.exception ≠ true && v.bufLen ≤ v.bufPos then
          let s := readNewLine s
          let v := { v with
                       filePosIndex := v.filePosIndex + 1
                       filePosTable := v.filePosTable ++ [s.filePosCtr]
                       bufLen := v.bufLen + 1 + s.lineLen
                       bufPos := v.bufPos + 1
                       buf := v.buf ++ '\x00' :: s.curLine }
          adaParseVariablesScan fuel v s
        else
          adaParseVariablesScan fuel v s

/-- The inner `for(; i < varEndPos && buf[i] != '\0'; i++);` that jumps
over a buffered comment line during the second pass. -/
def skipToNul (buf : List Char) (varEndPos : Int) : Nat → Int → Int
  | 0, i => i
  | fuel + 1, i =>
    if i < varEndPos && charAt buf i ≠ '\x00' then
      skipToNul buf varEndPos fuel (i + 1)
    else i

/-- Second pass of `adaParseVariables`: walk the buffer up to the
delimiter, splitting on whitespace / commas / line joins, creating one
token per name (skipping `in`/`out` via `cmp` with the buffer-absolute
length `varEndPos`, as the C code does) and stamping each token with the
line of the buffered line it appeared on.  Returns the last token
created, the final `tokenStart`, `filePosIndex` and loop index `i`. -/
def adaParseVariablesEmit (parent : Option Nat) (kind : AdaKind)
    (buf : List Char) (varEndPos : Int) (lineNum : Nat) (filePosTable : List Nat) :
    Nat → Int → Int → Nat → Option Nat → AdaState →
    (Option Nat × Int × Nat × Int × AdaState)
  | 0, i, tokenStart, filePosIndex, token, s =>
    (token, tokenStart, filePosIndex, i, { s with fuelOut := true })
  | fuel + 1, i, tokenStart, filePosIndex, token, s =>
    if s.halted then (token, tokenStart, filePosIndex, i, s)
    else if i < varEndPos then
      let c := charAt buf i
      if isAdaComment buf i varEndPos then
        let i := skipToNul buf varEndPos (varEndPos.toNat + 1) i
        let filePosIndex :=
          if charAt buf i = '\x00' then filePosIndex + 1 else filePosIndex
        adaParseVariablesEmit parent kind buf varEndPos lineNum filePosTable
          fuel (i + 1) tokenStart filePosIndex token s
      else
        let (tokenStart, token, s) :=
          if tokenStart ≠ -1 && (cIsSpace c || c = ',' || c = '\x00') then
            if !cmpC (some (strFrom buf tokenStart)) varEndPos (some "in".data) &&
               !cmpC (some (strFrom buf tokenStart)) varEndPos (some "out".data) then
              let (tid, s) := newAdaToken s (some (strFrom buf tokenStart))
                                (i - tokenStart) kind false parent
              let s := s.modTok tid (fun t =>
                { t with lineNumber := lineNum + filePosIndex
                         filePosition := filePosTable.getD filePosIndex 0 })
              ((-1 : Int), some tid, s)
            else ((-1 : Int), token, s)
          else if tokenStart = -1 && !(cIsSpace c || c = ',' || c = '\x00') then
            (i, token, s)
          else (tokenStart, token, s)
        let filePosIndex :=
          if charAt buf i = '\x00' then filePosIndex + 1 else filePosIndex
        adaParseVariablesEmit parent kind buf varEndPos lineNum filePosTable
          fuel (i + 1) tokenStart filePosIndex token s
    else (token, tokenStart, filePosIndex, i, s)

/-- `adaParseVariables(parent, kind)`: recognize
`name {, name} : [qualifier] type-or-expr`, creating one sibling token
per name. -/
def adaParseVariables (fuel : Nat) (s : AdaState) (parent : Option Nat)
    (kind : AdaKind) : Option Nat × AdaState :=
  if s.halted then (none, s) else
  let s := skipWhiteSpace fuel s
  let s := skipComments s
  let lineNum := s.srcLine
  let v : VarScan :=
    { varEndPos := -1
      tokenStart := -1
      parenDepth := 0
      bufPos := 0
      bufLen := s.lineLen - s.pos
      buf := strFrom s.curLine s.pos
      filePosIndex := 0
      filePosTable := [s.filePosCtr]
      kind := kind }
  let (v, s) := adaParseVariablesScan fuel v s
  -- special case: enumeration value lists terminate on their `)`
  let v :=
    if v.kind = AdaKind.ENUM_LITERAL && charAt v.buf v.bufPos = ')' &&
       v.varEndPos = -1 then
      { v with varEndPos := v.bufPos }
    else v
  let (token, s) :=
    if v.varEndPos ≠ -1 then
      let (token, tokenStart, filePosIndex, i, s) :=
        adaParseVariablesEmit parent v.kind v.buf v.varEndPos lineNum
          v.filePosTable (v.varEndPos.toNat + 1) 0 0 0 none s
      -- if token start was started then store the last token
      if tokenStart ≠ -1 then
        let (tid, s) := newAdaToken s (some (strFrom v.buf tokenStart))
                          (i - tokenStart) v.kind false parent
        let s := s.modTok tid (fun t =>
          { t with lineNumber := lineNum + filePosIndex
                   filePosition := v.filePosTable.getD filePosIndex 0 })
        (some tid, s)
      else (token, s)
    else (none, s)
  let s := movePos s ((s.lineLen - (v.bufLen - v.bufPos)) - s.pos)
  (token, s)

/-- `adaParseLoopVar(parent)`: capture the automatic loop variable of a
`for` loop and skip to its `loop` keyword. -/
def adaParseLoopVar (fuel : Nat) (s : AdaState) (parent : Nat) : Option Nat × AdaState :=
  if s.halted then (none, s) else
  let s := skipWhiteSpace fuel s
  let i := scanLen s.curLine s.pos s.lineLen cIsSpace
  let (tid, s) := newAdaToken s (some (strFrom s.curLine s.pos)) i
                    AdaKind.AUTOMATIC_VARIABLE false (some parent)
  let s := movePos s i
  let s := skipPastKeyword fuel AdaKeyword.LOOP s
  (some tid, s)

/-! ### Block / subprogram / type parsers and the mode dispatcher -/

/-- Which branch ended a block/subprogram parse.  This is proof
instrumentation only: the token and state computed do not depend on it. -/
inductive ExitVia where
  | viaIs | viaSeparate | viaNew | viaRenames | viaDo | viaSemi | viaEof
  | viaFail | viaFuel | viaHalt | viaNone
  deriving DecidableEq, Repr

/-- The `while(exception != EXCEPTION_EOF && line[pos] != ')') {
movePos(1); adaParseVariables(parent, kind); }` loops that gather
discriminants and parameter lists.  Returns the last
`adaParseVariables` result (the C `tmpToken`). -/
def parenVarLoop : Nat → AdaState → Option Nat → AdaKind → Option Nat →
    Option Nat × AdaState
  | 0, s, _, _, last => (last, { s with fuelOut := true })
  | fuel + 1, s, parent, kind, last =>
    if s.halted then (last, s)
    else if s.exception ≠ true && charAt s.curLine s.pos ≠ ')' then
      let s := movePos s 1
      let (t, s) := adaParseVariables fuel s parent kind
      parenVarLoop fuel s parent kind t
    else (last, s)

/-- Fuel that always suffices for freeing a subtree of the arena. -/
def freeFuel (s : AdaState) : Nat := 3 * s.tokens.length + 3

/-- `adaParseType(parent, kind)`. -/
def adaParseTypeRecordLoop : Nat → Nat → AdaState → AdaState
  | 0, _, s => { s with fuelOut := true }
  | fuel + 1, tid, s =>
    if s.halted then s
    else if s.exception = true then s
    else
      let s := skipWhiteSpace fuel s
      let (e, s) := adaKeywordCmp s AdaKeyword.END
      if e then
        let s := skipWhiteSpace fuel s
        let (r, s) := adaKeywordCmp s AdaKeyword.RECORD
        if r then s
        else adaParseTypeRecordLoop fuel tid (skipPast fuel ";".data s)
      else
        let (c, s) := adaKeywordCmp s AdaKeyword.CASE
        if c then
          adaParseTypeRecordLoop fuel tid (skipPastKeyword fuel AdaKeyword.IS s)
        else
          let (w, s) := adaKeywordCmp s AdaKeyword.WHEN
          if w then
            adaParseTypeRecordLoop fuel tid (skipPast fuel "=>".data s)
          else
            let (_, s) := adaParseVariables fuel s (some tid) AdaKind.RECORD_COMPONENT
            adaParseTypeRecordLoop fuel tid (skipPast fuel ";".data s)

/-- `adaParseType(parent, kind)`: capture the type name, an optional
discriminant list, then an enumeration literal list or `record ... end
record` body after `is`; with no `is`, mark the token a spec. -/
def adaParseType (fuel : Nat) (s : AdaState) (parent : Nat) (kind : AdaKind) :
    Option Nat × AdaState :=
  if s.halted then (none, s) else
  let s := skipWhiteSpace fuel s
  let i := scanLen s.curLine s.pos s.lineLen stopNameChar
  let (tid, s) := newAdaToken s (some (strFrom s.curLine s.pos)) i kind false (some parent)
  let s := movePos s i
  let s := skipWhiteSpace fuel s
  let s :=
    if s.exception ≠ true && charAt s.curLine s.pos = '(' then
      let (_, s) := parenVarLoop fuel s (some tid) AdaKind.AUTOMATIC_VARIABLE none
      let s := movePos s 1
      skipWhiteSpace fuel s
    else s
  let (isw, s) := adaKeywordCmp s AdaKeyword.IS
  let s :=
    if isw then
      let s := skipWhiteSpace fuel s
      if s.exception ≠ true && charAt s.curLine s.pos = '(' then
        let s := movePos s 1
        let (_, s) := adaParseVariables fuel s (some tid) AdaKind.ENUM_LITERAL
        s
      else
        let (r, s) := adaKeywordCmp s AdaKeyword.RECORD
        if r then adaParseTypeRecordLoop fuel tid s else s
    else
      s.modTok tid (fun t => { t with isSpec := true })
  let s := skipPast fuel ";".data s
  (some tid, s)

/-- The loop/block identifier lookahead of the `ADA_CODE` fallback: scan
for `<word>:` not followed by `=`; `some i` is the name length at the
`:`, `none` means no identifier. -/
def identScan (l : List Char) (pos lineLen : Int) : Nat → Int → Option Int
  | 0, _ => none
  | fuel + 1, i =>
    if pos + i < lineLen then
      let c := charAt l (pos + i)
      if !cIsAlnum c && c ≠ '_' && c ≠ ':' then none
      else if c = ':' && charAt l (pos + i + 1) ≠ '=' then some i
      else identScan l pos lineLen fuel (i + 1)
    else none

/-- The `for(i = 1; (pos+i) < lineLen && strncasecmp(&line[pos+i], ">>",
2) != 0; i++);` scan of the label branch. -/
def labelScan (l : List Char) (pos lineLen : Int) : Nat → Int → Int
  | 0, i => i
  | fuel + 1, i =>
    if pos + i < lineLen && !strncaseEq (strFrom l (pos + i)) ">>".data 2 then
      labelScan l pos lineLen fuel (i + 1)
    else i

/-- The `if(token != NULL) appendAdaTokenList(token, ...)` epilogue of
the `ADA_ROOT` switch case. -/
def rootAppendGenerics (s : AdaState) (genId : Nat) (t : Option Nat) : AdaState :=
  match t with
  | some tid => appendAdaTokenList s (some tid) genId
  | none => s

/-- The epilogue of the `ADA_DECLARATIONS` switch case: pending generic
formals are attached only to package/subprogram/task/protected tokens. -/
def declAppendGenerics (s : AdaState) (genId : Nat) (t : Option Nat) : AdaState :=
  match t with
  | some tid =>
    match s.tok? tid with
    | some tok =>
      if tok.kind = AdaKind.PACKAGE || tok.kind = AdaKind.SUBPROGRAM ||
         tok.kind = AdaKind.TASK || tok.kind = AdaKind.PROTECTED then
        appendAdaTokenList s (some tid) genId
      else s
    | none => s
  | none => s

/-- Request descriptor selecting which of the six mutually recursive
parse routines of the C source a call to `adaParseAux` executes.  The
routines are merged into one fuel-recursive function; named wrappers
below recover the source-level entry points. -/
inductive ParseCall where
  | parse (mode : AdaParseMode) (parent : Nat)
  | parseLoop (mode : AdaParseMode) (parent genId : Nat) (token : Option Nat)
  | block (parent : Nat) (kind : AdaKind)
  | blockLoop (parent tid : Nat)
  | subprogram (parent : Nat) (kind : AdaKind)
  | subprogramLoop (parent tid : Nat)
  deriving Repr

/-- The six mutually recursive routines `adaParse`, the dispatcher loop
inside it, `adaParseBlock` and its `is`-search loop, and
`adaParseSubprogram` and its loop, merged into a single function
structurally recursive on the fuel.  Each `ParseCall` arm is the body of
the corresponding C function; recursive calls pass the request of the
callee. -/
def adaParseAux : Nat → ParseCall → AdaState → Option Nat × ExitVia × AdaState
  | 0, c, s =>
    (match c with
     | ParseCall.parseLoop _ _ _ token => token
     | ParseCall.blockLoop _ tid => some tid
     | ParseCall.subprogramLoop _ tid => some tid
     | _ => none,
     ExitVia.viaFuel, { s with fuelOut := true })
  | fuel + 1, c, s =>
    match c with

    | ParseCall.parse mode parent =>
      let (genId, s) := s.alloc default
      let (tok, _, s) := adaParseAux fuel (ParseCall.parseLoop mode parent genId none) s
      let s := freeAdaTokenList (freeFuel s) s (some genId)
      let s := s.delTok genId
      (tok, ExitVia.viaNone, s)

    | ParseCall.parseLoop mode parent genId token =>
      if s.halted then (token, ExitVia.viaNone, s)
      else if s.exception = true then (token, ExitVia.viaNone, s)
      else
        let s := skipWhiteSpace fuel s
        if s.exception = true then (token, ExitVia.viaNone, s)
        else if isAdaComment s.curLine s.pos s.lineLen then
          adaParseAux fuel (ParseCall.parseLoop mode parent genId token) (readNewLine s)
        else
          let (b1, s) := adaKeywordCmp s AdaKeyword.PRAGMA
          let (b2, s) := if b1 then (true, s) else adaKeywordCmp s AdaKeyword.WITH
          let (b3, s) := if b2 then (true, s) else adaKeywordCmp s AdaKeyword.USE
          if b3 then
            adaParseAux fuel (ParseCall.parseLoop mode parent genId token) (skipPast fuel ";".data s)
          else
            match mode with
            | AdaParseMode.ADA_ROOT =>
              let (p, s) := adaKeywordCmp s AdaKeyword.PACKAGE
              if p then
                let (t, _, s) := adaParseAux fuel (ParseCall.block parent AdaKind.PACKAGE) s
                adaParseAux fuel (ParseCall.parseLoop mode parent genId t) (rootAppendGenerics s genId t)
              else
              let (p1, s) := adaKeywordCmp s AdaKeyword.PROCEDURE
              let (p2, s) := if p1 then (true, s) else adaKeywordCmp s AdaKeyword.FUNCTION
              if p2 then
                let (t, _, s) := adaParseAux fuel (ParseCall.subprogram parent AdaKind.SUBPROGRAM) s
                adaParseAux fuel (ParseCall.parseLoop mode parent genId t) (rootAppendGenerics s genId t)
              else
              let (tk, s) := adaKeywordCmp s AdaKeyword.TASK
              if tk then
                let (t, _, s) := adaParseAux fuel (ParseCall.block parent AdaKind.TASK) s
                adaParseAux fuel (ParseCall.parseLoop mode parent genId t) (rootAppendGenerics s genId t)
              else
              let (pr, s) := adaKeywordCmp s AdaKeyword.PROTECTED
              if pr then
                let (t, _, s) := adaParseAux fuel (ParseCall.block parent AdaKind.PROTECTED) s
                adaParseAux fuel (ParseCall.parseLoop mode parent genId t) (rootAppendGenerics s genId t)
              else
              let (g, s) := adaKeywordCmp s AdaKeyword.GENERIC
              if g then
                adaParseAux fuel (ParseCall.parseLoop AdaParseMode.ADA_GENERIC parent genId token) s
              else
              let (sep, s) := adaKeywordCmp s AdaKeyword.SEPARATE
              if sep then
                let s := skipWhiteSpace fuel s
                if s.exception ≠ true && charAt s.curLine s.pos = '(' then
                  let s := movePos s 1
                  let s := skipWhiteSpace fuel s
                  let i := scanLen s.curLine s.pos s.lineLen
                             (fun c => c = ')' || cIsSpace c)
                  let (sid, s) := newAdaToken s (some (strFrom s.curLine s.pos)) i
                                    AdaKind.SEPARATE false (some parent)
                  -- this false top-level token becomes the parent from here on
                  let s := skipPast fuel ")".data s
                  adaParseAux fuel (ParseCall.parseLoop mode sid genId none) (rootAppendGenerics s genId none)
                else
                  let s := skipPast fuel ";".data s
                  adaParseAux fuel (ParseCall.parseLoop mode parent genId token) (rootAppendGenerics s genId token)
              else
                let s := skipPast fuel ";".data s
                adaParseAux fuel (ParseCall.parseLoop mode parent genId none) (rootAppendGenerics s genId none)
            | AdaParseMode.ADA_GENERIC =>
              let (p, s) := adaKeywordCmp s AdaKeyword.PACKAGE
              if p then
                let (t, _, s) := adaParseAux fuel (ParseCall.block parent AdaKind.PACKAGE) s
                let s := rootAppendGenerics s genId t
                adaParseAux fuel
                  (ParseCall.parseLoop (if t ≠ none then AdaParseMode.ADA_ROOT else mode) parent genId t) s
              else
              let (p1, s) := adaKeywordCmp s AdaKeyword.PROCEDURE
              let (p2, s) := if p1 then (true, s) else adaKeywordCmp s AdaKeyword.FUNCTION
              if p2 then
                let (t, _, s) := adaParseAux fuel (ParseCall.subprogram parent AdaKind.SUBPROGRAM) s
                let s := rootAppendGenerics s genId t
                adaParseAux fuel
                  (ParseCall.parseLoop (if t ≠ none then AdaParseMode.ADA_ROOT else mode) parent genId t) s
              else
              let (tk, s) := adaKeywordCmp s AdaKeyword.TASK
              if tk then
                let (t, _, s) := adaParseAux fuel (ParseCall.block parent AdaKind.TASK) s
                let s := rootAppendGenerics s genId t
                adaParseAux fuel
                  (ParseCall.parseLoop (if t ≠ none then AdaParseMode.ADA_ROOT else mode) parent genId t) s
              else
              let (pr, s) := adaKeywordCmp s AdaKeyword.PROTECTED
              if pr then
                let (t, _, s) := adaParseAux fuel (ParseCall.block parent AdaKind.PROTECTED) s
                let s := rootAppendGenerics s genId t
                adaParseAux fuel
                  (ParseCall.parseLoop (if t ≠ none then AdaParseMode.ADA_ROOT else mode) parent genId t) s
              else
              let (ty, s) := adaKeywordCmp s AdaKeyword.TYPE
              if ty then
                let s := skipWhiteSpace fuel s
                let i := scanLen s.curLine s.pos s.lineLen stopNameChar
                let (fid, s) := newAdaToken s (some (strFrom s.curLine s.pos)) i
                                  AdaKind.FORMAL false none
                let s := appendAdaToken s (some genId) (some fid)
                let s := skipPast fuel ";".data s
                let s := rootAppendGenerics s genId token
                adaParseAux fuel
                  (ParseCall.parseLoop (if token ≠ none then AdaParseMode.ADA_ROOT else mode) parent genId token) s
              else
              let (w, s) := adaKeywordCmp s AdaKeyword.WITH
              if w then
                let s := skipWhiteSpace fuel s
                let s := skipUntilWhiteSpace fuel s
                let s := skipWhiteSpace fuel s
                let i := scanLen s.curLine s.pos s.lineLen stopNameChar
                let (fid, s) := newAdaToken s (some (strFrom s.curLine s.pos)) i
                                  AdaKind.FORMAL false none
                let s := appendAdaToken s (some genId) (some fid)
                let s := movePos s i
                let s :=
                  if s.exception ≠ true && charAt s.curLine s.pos = '(' then
                    let ptail := match s.tok? genId with
                                 | some g => g.childTail
                                 | none => none
                    let (_, s) := parenVarLoop fuel s ptail AdaKind.AUTOMATIC_VARIABLE none
                    movePos s 1
                  else s
                let s := skipPast fuel ";".data s
                let s := rootAppendGenerics s genId token
                adaParseAux fuel
                  (ParseCall.parseLoop (if token ≠ none then AdaParseMode.ADA_ROOT else mode) parent genId token) s
              else
                let s := skipPast fuel ";".data s
                let s := rootAppendGenerics s genId none
                adaParseAux fuel (ParseCall.parseLoop mode parent genId none) s
            | AdaParseMode.ADA_DECLARATIONS =>
              let (p, s) := adaKeywordCmp s AdaKeyword.PACKAGE
              if p then
                let (t, _, s) := adaParseAux fuel (ParseCall.block parent AdaKind.PACKAGE) s
                adaParseAux fuel (ParseCall.parseLoop mode parent genId t) (declAppendGenerics s genId t)
              else
              let (p1, s) := adaKeywordCmp s AdaKeyword.PROCEDURE
              let (p2, s) := if p1 then (true, s) else adaKeywordCmp s AdaKeyword.FUNCTION
              if p2 then
                let (t, _, s) := adaParseAux fuel (ParseCall.subprogram parent AdaKind.SUBPROGRAM) s
                adaParseAux fuel (ParseCall.parseLoop mode parent genId t) (declAppendGenerics s genId t)
              else
              let (tk, s) := adaKeywordCmp s AdaKeyword.TASK
              if tk then
                let (t, _, s) := adaParseAux fuel (ParseCall.block parent AdaKind.TASK) s
                adaParseAux fuel (ParseCall.parseLoop mode parent genId t) (declAppendGenerics s genId t)
              else
              let (pr, s) := adaKeywordCmp s AdaKeyword.PROTECTED
              if pr then
                let (t, _, s) := adaParseAux fuel (ParseCall.block parent AdaKind.PROTECTED) s
                adaParseAux fuel (ParseCall.parseLoop mode parent genId t) (declAppendGenerics s genId t)
              else
              let (g, s) := adaKeywordCmp s AdaKeyword.GENERIC
              if g then
                adaParseAux fuel (ParseCall.parseLoop AdaParseMode.ADA_GENERIC parent genId token) s
              else
              let (ty, s) := adaKeywordCmp s AdaKeyword.TYPE
              if ty then
                let (t, s) := adaParseType fuel s parent AdaKind.TYPE
                adaParseAux fuel (ParseCall.parseLoop mode parent genId t) (declAppendGenerics s genId t)
              else
              let (st, s) := adaKeywordCmp s AdaKeyword.SUBTYPE
              if st then
                let (t, s) := adaParseType fuel s parent AdaKind.SUBTYPE
                adaParseAux fuel (ParseCall.parseLoop mode parent genId t) (declAppendGenerics s genId t)
              else
              let (bg, s) := adaKeywordCmp s AdaKeyword.BEGIN
              if bg then
                adaParseAux fuel (ParseCall.parseLoop AdaParseMode.ADA_CODE parent genId token) s
              else
              let (f, s) := adaKeywordCmp s AdaKeyword.FOR
              if f then
                let s := skipPastKeyword fuel AdaKeyword.USE s
                let s := skipWhiteSpace fuel s
                let (r, s) := adaKeywordCmp s AdaKeyword.RECORD
                let s := if r then skipPastKeyword fuel AdaKeyword.RECORD s else s
                let s := skipPast fuel ";".data s
                adaParseAux fuel (ParseCall.parseLoop mode parent genId token) (declAppendGenerics s genId token)
              else
              let (e, s) := adaKeywordCmp s AdaKeyword.END
              if e then
                let s := skipWhiteSpace fuel s
                let pname := match s.tok? parent with
                             | some ptok => ptok.name
                             | none => none
                let (m, s) := adaCmp s pname
                if m then
                  let s := skipPast fuel ";".data s
                  (token, ExitVia.viaNone, s)
                else
                  let s := skipPast fuel ";".data s
                  adaParseAux fuel (ParseCall.parseLoop mode parent genId none) (declAppendGenerics s genId none)
              else
              let (en, s) := adaKeywordCmp s AdaKeyword.ENTRY
              if en then
                let (t, _, s) := adaParseAux fuel (ParseCall.subprogram parent AdaKind.ENTRY) s
                adaParseAux fuel (ParseCall.parseLoop mode parent genId t) (declAppendGenerics s genId t)
              else
              let (pv, s) := adaKeywordCmp s AdaKeyword.PRIVATE
              if pv then
                let s := s.modTok parent (fun t => { t with isPrivate := true })
                let s := skipWhiteSpace fuel s
                adaParseAux fuel (ParseCall.parseLoop mode parent genId token) (declAppendGenerics s genId token)
              else
                let (t, s) := adaParseVariables fuel s (some parent) AdaKind.VARIABLE
                let s := skipPast fuel ";".data s
                adaParseAux fuel (ParseCall.parseLoop mode parent genId t) (declAppendGenerics s genId t)
            | AdaParseMode.ADA_CODE =>
              let (d, s) := adaKeywordCmp s AdaKeyword.DECLARE
              if d then
                let (aid, s) := newAdaToken s none 0 AdaKind.ANONYMOUS false (some parent)
                let s := s.modTok aid (fun t =>
                  { t with lineNumber := s.matchLineNum, filePosition := s.matchFilePos })
                let (_, _, s) := adaParseAux fuel (ParseCall.parse AdaParseMode.ADA_DECLARATIONS aid) s
                adaParseAux fuel (ParseCall.parseLoop mode parent genId (some aid)) s
              else
              let (bg, s) := adaKeywordCmp s AdaKeyword.BEGIN
              if bg then
                let (aid, s) := newAdaToken s none 0 AdaKind.ANONYMOUS false (some parent)
                let s := s.modTok aid (fun t =>
                  { t with lineNumber := s.matchLineNum, filePosition := s.matchFilePos })
                let (_, _, s) := adaParseAux fuel (ParseCall.parse AdaParseMode.ADA_CODE aid) s
                adaParseAux fuel (ParseCall.parseLoop mode parent genId (some aid)) s
              else
              let (ex, s) := adaKeywordCmp s AdaKeyword.EXCEPTION
              if ex then
                adaParseAux fuel (ParseCall.parseLoop AdaParseMode.ADA_EXCEPTIONS parent genId token) s
              else
              let (e, s) := adaKeywordCmp s AdaKeyword.END
              if e then
                let s := skipWhiteSpace fuel s
                let pname := match s.tok? parent with
                             | some ptok => ptok.name
                             | none => none
                let (m, s) := adaCmp s pname
                if m then
                  let s := skipPast fuel ";".data s
                  (token, ExitVia.viaNone, s)
                else
                  let (lp, s) := adaKeywordCmp s AdaKeyword.LOOP
                  if lp then
                    let s := skipWhiteSpace fuel s
                    let (m2, s) := adaCmp s pname
                    if m2 then
                      let s := skipPast fuel ";".data s
                      (token, ExitVia.viaNone, s)
                    else
                      adaParseAux fuel (ParseCall.parseLoop mode parent genId token) s
                  else
                    let s := skipPast fuel ";".data s
                    adaParseAux fuel (ParseCall.parseLoop mode parent genId token) s
              else
              let (ac, s) := adaKeywordCmp s AdaKeyword.ACCEPT
              if ac then
                let (_, _, s) := adaParseAux fuel (ParseCall.subprogram parent AdaKind.ENTRY) s
                adaParseAux fuel (ParseCall.parseLoop mode parent genId token) s
              else
              let (f, s) := adaKeywordCmp s AdaKeyword.FOR
              if f then
                let (aid, s) := newAdaToken s (some (adaKeywords AdaKeyword.LOOP))
                                  ((adaKeywords AdaKeyword.LOOP).length : Int)
                                  AdaKind.ANONYMOUS false (some parent)
                let (_, s) := adaParseLoopVar fuel s aid
                let (_, _, s) := adaParseAux fuel (ParseCall.parse AdaParseMode.ADA_CODE aid) s
                adaParseAux fuel (ParseCall.parseLoop mode parent genId (some aid)) s
              else
              let (wh, s) := adaKeywordCmp s AdaKeyword.WHILE
              if wh then
                let (aid, s) := newAdaToken s (some (adaKeywords AdaKeyword.LOOP))
                                  ((adaKeywords AdaKeyword.LOOP).length : Int)
                                  AdaKind.ANONYMOUS false (some parent)
                let s := skipPastKeyword fuel AdaKeyword.LOOP s
                let s := skipWhiteSpace fuel s
                let (_, _, s) := adaParseAux fuel (ParseCall.parse AdaParseMode.ADA_CODE aid) s
                adaParseAux fuel (ParseCall.parseLoop mode parent genId (some aid)) s
              else
              let (lp, s) := adaKeywordCmp s AdaKeyword.LOOP
              if lp then
                let (aid, s) := newAdaToken s (some (adaKeywords AdaKeyword.LOOP))
                                  ((adaKeywords AdaKeyword.LOOP).length : Int)
                                  AdaKind.ANONYMOUS false (some parent)
                let s := s.modTok aid (fun t =>
                  { t with lineNumber := s.matchLineNum, filePosition := s.matchFilePos })
                let s := skipWhiteSpace fuel s
                let (_, _, s) := adaParseAux fuel (ParseCall.parse AdaParseMode.ADA_CODE aid) s
                adaParseAux fuel (ParseCall.parseLoop mode parent genId (some aid)) s
              else
              if s.line ≠ none && strncaseEq (strFrom s.curLine s.pos) "<<".data 2 then
                let s := movePos s 2
                let i := labelScan s.curLine s.pos s.lineLen ((s.lineLen - s.pos).toNat + 1) 1
                if s.pos + i < s.lineLen then
                  let (_, s) := newAdaToken s (some (strFrom s.curLine s.pos)) i
                                  AdaKind.LABEL false (some parent)
                  let s := skipPast fuel ">>".data s
                  adaParseAux fuel (ParseCall.parseLoop mode parent genId none) s
                else
                  adaParseAux fuel (ParseCall.parseLoop mode parent genId token) s
              else
              let (s1, s) := adaKeywordCmp s AdaKeyword.SELECT
              let (s2, s) := if s1 then (true, s) else adaKeywordCmp s AdaKeyword.OR
              let (s3, s) := if s2 then (true, s) else adaKeywordCmp s AdaKeyword.ELSE
              if s3 then
                adaParseAux fuel (ParseCall.parseLoop mode parent genId token) (skipWhiteSpace fuel s)
              else
              let (i1, s) := adaKeywordCmp s AdaKeyword.IF
              let (i2, s) := if i1 then (true, s) else adaKeywordCmp s AdaKeyword.ELSIF
              if i2 then
                adaParseAux fuel (ParseCall.parseLoop mode parent genId token)
                  (skipPastKeyword fuel AdaKeyword.THEN s)
              else
              let (cs, s) := adaKeywordCmp s AdaKeyword.CASE
              if cs then
                adaParseAux fuel (ParseCall.parseLoop mode parent genId token)
                  (skipPastKeyword fuel AdaKeyword.IS s)
              else
              let (wn, s) := adaKeywordCmp s AdaKeyword.WHEN
              if wn then
                adaParseAux fuel (ParseCall.parseLoop mode parent genId token) (skipPast fuel "=>".data s)
              else
                -- bounded lookahead for an `identifier:` pattern
                match identScan s.curLine s.pos s.lineLen ((s.lineLen - s.pos).toNat + 1) 1 with
                | some i =>
                  let (iid, s) := newAdaToken s (some (strFrom s.curLine s.pos)) i
                                    AdaKind.IDENTIFIER false (some parent)
                  let s := movePos s (i + 1)
                  let s := skipWhiteSpace fuel s
                  let (d, s) := adaKeywordCmp s AdaKeyword.DECLARE
                  if d then
                    let (_, _, s) := adaParseAux fuel (ParseCall.parse AdaParseMode.ADA_DECLARATIONS iid) s
                    adaParseAux fuel (ParseCall.parseLoop mode parent genId (some iid)) s
                  else
                  let (bg, s) := adaKeywordCmp s AdaKeyword.BEGIN
                  if bg then
                    let (_, _, s) := adaParseAux fuel (ParseCall.parse AdaParseMode.ADA_CODE iid) s
                    adaParseAux fuel (ParseCall.parseLoop mode parent genId (some iid)) s
                  else
                  let (f, s) := adaKeywordCmp s AdaKeyword.FOR
                  if f then
                    let (_, s) := adaParseLoopVar fuel s iid
                    let (_, _, s) := adaParseAux fuel (ParseCall.parse AdaParseMode.ADA_CODE iid) s
                    adaParseAux fuel (ParseCall.parseLoop mode parent genId (some iid)) s
                  else
                  let (wh, s) := adaKeywordCmp s AdaKeyword.WHILE
                  if wh then
                    let s := skipPastKeyword fuel AdaKeyword.LOOP s
                    let s := skipWhiteSpace fuel s
                    let (_, _, s) := adaParseAux fuel (ParseCall.parse AdaParseMode.ADA_CODE iid) s
                    adaParseAux fuel (ParseCall.parseLoop mode parent genId (some iid)) s
                  else
                  let (lp, s) := adaKeywordCmp s AdaKeyword.LOOP
                  if lp then
                    let s := skipWhiteSpace fuel s
                    let (_, _, s) := adaParseAux fuel (ParseCall.parse AdaParseMode.ADA_CODE iid) s
                    adaParseAux fuel (ParseCall.parseLoop mode parent genId (some iid)) s
                  else
                    let s := freeAdaToken (freeFuel s) s (some parent) (some iid)
                    adaParseAux fuel (ParseCall.parseLoop mode parent genId none) s
                | none =>
                  let s := skipPast fuel ";".data s
                  adaParseAux fuel (ParseCall.parseLoop mode parent genId none) s
            | AdaParseMode.ADA_EXCEPTIONS =>
              let (pg, s) := adaKeywordCmp s AdaKeyword.PRAGMA
              if pg then
                adaParseAux fuel (ParseCall.parseLoop mode parent genId token) (skipPast fuel ";".data s)
              else
              let (wn, s) := adaKeywordCmp s AdaKeyword.WHEN
              if wn then
                let s := skipWhiteSpace fuel s
                let (t, s) := adaParseVariables fuel s (some parent)
                                AdaKind.AUTOMATIC_VARIABLE
                adaParseAux fuel (ParseCall.parseLoop mode parent genId t) s
              else
              let (e, s) := adaKeywordCmp s AdaKeyword.END
              if e then
                let s := skipWhiteSpace fuel s
                let pname := match s.tok? parent with
                             | some ptok => ptok.name
                             | none => none
                let (m, s) := adaCmp s pname
                if m then
                  let s := skipPast fuel ";".data s
                  (token, ExitVia.viaNone, s)
                else
                  let s := skipPast fuel ";".data s
                  adaParseAux fuel (ParseCall.parseLoop mode parent genId token) s
              else
                adaParseAux fuel (ParseCall.parseLoop mode parent genId token) (skipPast fuel ";".data s)

    | ParseCall.block parent kind =>
      if s.halted then (none, ExitVia.viaHalt, s) else
      let s := skipWhiteSpace fuel s
      let (b, s) := adaKeywordCmp s AdaKeyword.BODY
      let (fail, isSpec, s) :=
        if b then (false, false, s)
        else
          let (t, s) := adaKeywordCmp s AdaKeyword.TYPE
          if t && !(kind = AdaKind.PROTECTED || kind = AdaKind.TASK) then
            (true, true, s)
          else (false, true, s)
      if fail then (none, ExitVia.viaFail, s) else
      let s := skipWhiteSpace fuel s
      let i := scanLen s.curLine s.pos s.lineLen stopNameChar
      let (tid, s) := newAdaToken s (some (strFrom s.curLine s.pos)) i kind isSpec
                        (some parent)
      let s := movePos s i
      let s := skipWhiteSpace fuel s
      let s :=
        if s.exception ≠ true && charAt s.curLine s.pos = '(' then
          let (_, s) := parenVarLoop fuel s (some tid) AdaKind.AUTOMATIC_VARIABLE none
          movePos s 1
        else s
      adaParseAux fuel (ParseCall.blockLoop parent tid) s

    | ParseCall.blockLoop parent tid =>
      if s.halted then (some tid, ExitVia.viaHalt, s) else
      let s := skipWhiteSpace fuel s
      let (isw, s) := adaKeywordCmp s AdaKeyword.IS
      if isw then
        let s := skipWhiteSpace fuel s
        let (sep, s) := adaKeywordCmp s AdaKeyword.SEPARATE
        if sep then
          let s := freeAdaToken (freeFuel s) s (some parent) (some tid)
          let s := skipPast fuel ";".data s
          (none, ExitVia.viaSeparate, s)
        else
          let (nw, s) := adaKeywordCmp s AdaKeyword.NEW
          if nw then
            let s := skipPast fuel ";".data s
            (some tid, ExitVia.viaNew, s)
          else
            let (_, _, s) := adaParseAux fuel (ParseCall.parse AdaParseMode.ADA_DECLARATIONS tid) s
            (some tid, ExitVia.viaIs, s)
      else
        let (rn, s) := adaKeywordCmp s AdaKeyword.RENAMES
        if rn then
          let s := skipPast fuel ";".data s
          (some tid, ExitVia.viaRenames, s)
        else
          let (sc, s) := adaCmp s (some ";".data)
          if sc then
            let s := s.modTok tid (fun t => { t with isSpec := true })
            (some tid, ExitVia.viaSemi, s)
          else
            let s := skipUntilWhiteSpace fuel s
            if s.exception = true then
              let s := freeAdaToken (freeFuel s) s (some parent) (some tid)
              (none, ExitVia.viaEof, s)
            else
              adaParseAux fuel (ParseCall.blockLoop parent tid) s

    | ParseCall.subprogram parent kind =>
      if s.halted then (none, ExitVia.viaHalt, s) else
      let s := skipWhiteSpace fuel s
      let i := scanLen s.curLine s.pos s.lineLen stopNameChar
      let (tid, s) := newAdaToken s (some (strFrom s.curLine s.pos)) i kind false
                        (some parent)
      let s := movePos s i
      let s := skipWhiteSpace fuel s
      let s :=
        if s.exception ≠ true && charAt s.curLine s.pos = '(' then
          let (tmpToken, s) := parenVarLoop fuel s (some tid)
                                 AdaKind.AUTOMATIC_VARIABLE none
          let s := movePos s 1
          if kind = AdaKind.ENTRY && tmpToken = none then
            let s := skipWhiteSpace fuel s
            if s.exception ≠ true && charAt s.curLine s.pos = '(' then
              let (_, s) := parenVarLoop fuel s (some tid)
                              AdaKind.AUTOMATIC_VARIABLE none
              movePos s 1
            else s
          else s
        else s
      adaParseAux fuel (ParseCall.subprogramLoop parent tid) s

    | ParseCall.subprogramLoop parent tid =>
      if s.halted then (some tid, ExitVia.viaHalt, s) else
      if s.exception = true then (some tid, ExitVia.viaEof, s) else
      let s := skipWhiteSpace fuel s
      let (isw, s) := adaKeywordCmp s AdaKeyword.IS
      if isw then
        let s := skipWhiteSpace fuel s
        let (sep, s) := adaKeywordCmp s AdaKeyword.SEPARATE
        if sep then
          let s := freeAdaToken (freeFuel s) s (some parent) (some tid)
          let s := skipPast fuel ";".data s
          (none, ExitVia.viaSeparate, s)
        else
          let (nw, s) := adaKeywordCmp s AdaKeyword.NEW
          if nw then
            let s := skipPast fuel ";".data s
            (some tid, ExitVia.viaNew, s)
          else
            let (_, _, s) := adaParseAux fuel (ParseCall.parse AdaParseMode.ADA_DECLARATIONS tid) s
            (some tid, ExitVia.viaIs, s)
      else
        let (rn, s) := adaKeywordCmp s AdaKeyword.RENAMES
        if rn then
          let s := skipPast fuel ";".data s
          (some tid, ExitVia.viaRenames, s)
        else
          let (dw, s) := adaKeywordCmp s AdaKeyword.DO
          if dw then
            let (_, _, s) := adaParseAux fuel (ParseCall.parse AdaParseMode.ADA_CODE tid) s
            (some tid, ExitVia.viaDo, s)
          else
            let (sc, s) := adaCmp s (some ";".data)
            if sc then
              let s := s.modTok tid (fun t => { t with isSpec := true })
              (some tid, ExitVia.viaSemi, s)
            else
              let s := movePos s 1
              let s := skipPastWord fuel s
              adaParseAux fuel (ParseCall.subprogramLoop parent tid) s


/-- `adaParse(mode, parent)`: allocate the `genericParamsRoot` holder,
run the dispatcher loop, then free any pending formals. -/
def adaParse (fuel : Nat) (mode : AdaParseMode) (parent : Nat) (s : AdaState) :
    Option Nat × AdaState :=
  let r := adaParseAux fuel (ParseCall.parse mode parent) s
  (r.1, r.2.2)

/-- One iteration of the dispatcher's `while(exception ==
EXCEPTION_NONE)` loop; `token`, `mode` and `parent` are the C locals
carried across iterations. -/
def adaParseLoop (fuel : Nat) (mode : AdaParseMode) (parent genId : Nat)
    (token : Option Nat) (s : AdaState) : Option Nat × AdaState :=
  let r := adaParseAux fuel (ParseCall.parseLoop mode parent genId token) s
  (r.1, r.2.2)

/-- `adaParseBlock(parent, kind)` for packages, tasks and protected
units. -/
def adaParseBlock (fuel parent : Nat) (kind : AdaKind) (s : AdaState) :
    Option Nat × ExitVia × AdaState :=
  adaParseAux fuel (ParseCall.block parent kind) s

/-- The `while(token != NULL)` search of `adaParseBlock` for `is`,
`renames` or `;`. -/
def adaParseBlockLoop (fuel parent tid : Nat) (s : AdaState) :
    Option Nat × ExitVia × AdaState :=
  adaParseAux fuel (ParseCall.blockLoop parent tid) s

/-- `adaParseSubprogram(parent, kind)` for procedures, functions,
entries and accepts. -/
def adaParseSubprogram (fuel parent : Nat) (kind : AdaKind) (s : AdaState) :
    Option Nat × ExitVia × AdaState :=
  adaParseAux fuel (ParseCall.subprogram parent kind) s

/-- The `while(exception != EXCEPTION_EOF && token != NULL)` search of
`adaParseSubprogram` for `is`, `renames`, `do` or `;`. -/
def adaParseSubprogramLoop (fuel parent tid : Nat) (s : AdaState) :
    Option Nat × ExitVia × AdaState :=
  adaParseAux fuel (ParseCall.subprogramLoop parent tid) s

/-- Definitional unfolding of `adaParseAux` at fuel `0`. -/
theorem adaParseAux_zero (c : ParseCall) (s : AdaState) :
    adaParseAux 0 c s =
      (match c with
       | ParseCall.parseLoop _ _ _ token => token
       | ParseCall.blockLoop _ tid => some tid
       | ParseCall.subprogramLoop _ tid => some tid
       | _ => none,
       ExitVia.viaFuel, { s with fuelOut := true }) := rfl

/-- Definitional unfolding of the `blockLoop` arm of `adaParseAux` at a
successor fuel. -/
theorem adaParseAux_blockLoop (fuel parent tid : Nat) (s : AdaState) :
    adaParseAux (fuel + 1) (ParseCall.blockLoop parent tid) s =
      (if s.halted then (some tid, ExitVia.viaHalt, s) else
       let s := skipWhiteSpace fuel s
       let (isw, s) := adaKeywordCmp s AdaKeyword.IS
       if isw then
         let s := skipWhiteSpace fuel s
         let (sep, s) := adaKeywordCmp s AdaKeyword.SEPARATE
         if sep then
           let s := freeAdaToken (freeFuel s) s (some parent) (some tid)
           let s := skipPast fuel ";".data s
           (none, ExitVia.viaSeparate, s)
         else
           let (nw, s) := adaKeywordCmp s AdaKeyword.NEW
           if nw then
             let s := skipPast fuel ";".data s
             (some tid, ExitVia.viaNew, s)
           else
             let (_, _, s) := adaParseAux fuel
               (ParseCall.parse AdaParseMode.ADA_DECLARATIONS tid) s
             (some tid, ExitVia.viaIs, s)
       else
         let (rn, s) := adaKeywordCmp s AdaKeyword.RENAMES
         if rn then
           let s := skipPast fuel ";".data s
           (some tid, ExitVia.viaRenames, s)
         else
           let (sc, s) := adaCmp s (some ";".data)
           if sc then
             let s := s.modTok tid (fun t => { t with isSpec := true })
             (some tid, ExitVia.viaSemi, s)
           else
             let s := skipUntilWhiteSpace fuel s
             if s.exception = true then
               let s := freeAdaToken (freeFuel s) s (some parent) (some tid)
               (none, ExitVia.viaEof, s)
             else
               adaParseAux fuel (ParseCall.blockLoop parent tid) s) := rfl

/-- Definitional unfolding of the `subprogramLoop` arm of `adaParseAux`
at a successor fuel. -/
theorem adaParseAux_subprogramLoop (fuel parent tid : Nat) (s : AdaState) :
    adaParseAux (fuel + 1) (ParseCall.subprogramLoop parent tid) s =
      (if s.halted then (some tid, ExitVia.viaHalt, s) else
       if s.exception = true then (some tid, ExitVia.viaEof, s) else
       let s := skipWhiteSpace fuel s
       let (isw, s) := adaKeywordCmp s AdaKeyword.IS
       if isw then
         let s := skipWhiteSpace fuel s
         let (sep, s) := adaKeywordCmp s AdaKeyword.SEPARATE
         if sep then
           let s := freeAdaToken (freeFuel s) s (some parent) (some tid)
           let s := skipPast fuel ";".data s
           (none, ExitVia.viaSeparate, s)
         else
           let (nw, s) := adaKeywordCmp s AdaKeyword.NEW
           if nw then
             let s := skipPast fuel ";".data s
             (some tid, ExitVia.viaNew, s)
           else
             let (_, _, s) := adaParseAux fuel
               (ParseCall.parse AdaParseMode.ADA_DECLARATIONS tid) s
             (some tid, ExitVia.viaIs, s)
       else
         let (rn, s) := adaKeywordCmp s AdaKeyword.RENAMES
         if rn then
           let s := skipPast fuel ";".data s
           (some tid, ExitVia.viaRenames, s)
         else
           let (dw, s) := adaKeywordCmp s AdaKeyword.DO
           if dw then
             let (_, _, s) := adaParseAux fuel
               (ParseCall.parse AdaParseMode.ADA_CODE tid) s
             (some tid, ExitVia.viaDo, s)
           else
             let (sc, s) := adaCmp s (some ";".data)
             if sc then
               let s := s.modTok tid (fun t => { t with isSpec := true })
               (some tid, ExitVia.viaSemi, s)
             else
               let s := movePos s 1
               let s := skipPastWord fuel s
               adaParseAux fuel (ParseCall.subprogramLoop parent tid) s) := rfl

/-! ### Scope/emission pass (`storeAdaTags`) and driver (`findAdaTags`) -/

/-- `makeSpec(&kind)`: shift a kind to its paired "-spec" variant;
kinds without a pairing become `UNDEFINED`. -/
def makeSpec (kind : AdaKind) : AdaKind :=
  match kind with
  | AdaKind.PACKAGE => AdaKind.PACKAGE_SPEC
  | AdaKind.TYPE => AdaKind.TYPE_SPEC
  | AdaKind.SUBTYPE => AdaKind.SUBTYPE_SPEC
  | AdaKind.VARIABLE => AdaKind.VARIABLE_SPEC
  | AdaKind.SUBPROGRAM => AdaKind.SUBPROGRAM_SPEC
  | AdaKind.TASK => AdaKind.TASK_SPEC
  | AdaKind.PROTECTED => AdaKind.PROTECTED_SPEC
  | AdaKind.ENTRY => AdaKind.ENTRY_SPEC
  | _ => AdaKind.UNDEFINED

/-- The record handed to `makeTagEntry` for a token in its current
state. -/
def mkTagRecord (t : AdaTokenInfo) : TagRecord :=
  { name := t.tagName.getD []
    kind := t.tagKind
    lineNumber := t.lineNumber
    filePosition := t.filePosition
    isFileScope := t.isFileScope
    scopeKind := t.scopeKind
    scopeName := t.scopeName }

/-- The kinds excluded from qualified-tag duplication. -/
def limitedScopeKind (k : AdaKind) : Bool :=
  k = AdaKind.RECORD_COMPONENT || k = AdaKind.ENUM_LITERAL ||
  k = AdaKind.FORMAL || k = AdaKind.LABEL || k = AdaKind.IDENTIFIER ||
  k = AdaKind.AUTOMATIC_VARIABLE || k = AdaKind.ANONYMOUS

/-- The emission guard of `storeAdaTags`: real kind, enabled by policy,
named, anonymous only with children, and file-scope policy. -/
def storeEmitOk (opts : AdaOpts) (tok : AdaTokenInfo) : Bool :=
  tok.kind.isReal && adaKindEnabled tok.kind && tok.name ≠ none &&
  ((tok.kind = AdaKind.ANONYMOUS && tok.childHead ≠ none) ||
   tok.kind ≠ AdaKind.ANONYMOUS) &&
  (opts.fileScope = true ||
   (opts.fileScope = false && tok.isFileScope = false))

/-- The spec transition at the head of `storeAdaTags`:
`if(token->isSpec) { makeSpec(&token->kind); if(kind != UNDEFINED)
tag.kind = &AdaKinds[kind]; }`. -/
def specTransition (tok : AdaTokenInfo) : AdaTokenInfo :=
  if tok.isSpec = true then
    let k := makeSpec tok.kind
    { tok with kind := k
               tagKind := if k ≠ AdaKind.UNDEFINED then some k else tok.tagKind }
  else tok

/-- The scope fill of `storeAdaTags`, reading the parent from the arena
of `s`. -/
def scopeFill (s : AdaState) (tok : AdaTokenInfo) : AdaTokenInfo :=
  match tok.parent with
  | some p =>
    match s.tok? p with
    | some ptok =>
      if ptok.kind.isReal then
        { tok with scopeKind := some (adaKindName ptok.kind)
                   scopeName := ptok.name }
      else if ptok.kind = AdaKind.SEPARATE then
        { tok with scopeKind := some (adaKeywords AdaKeyword.SEPARATE)
                   scopeName := ptok.name }
      else tok
    | none => tok
  | none => tok

/-- An anonymous declare block with no name gets the static keyword
string as its name (the `nameStatic` flag tracks the aliasing). -/
def anonName (tok : AdaTokenInfo) : AdaTokenInfo :=
  if tok.kind = AdaKind.ANONYMOUS && tok.name = none then
    { tok with name := some (adaKeywords AdaKeyword.DECLARE)
               nameStatic := true
               tagName := some (adaKeywords AdaKeyword.DECLARE) }
  else tok

/-- The final reset of `storeAdaTags`: clear the static declare name so
the deallocator never sees it. -/
def clearDeclareName (tok : AdaTokenInfo) : AdaTokenInfo :=
  if tok.kind = AdaKind.ANONYMOUS &&
     (match tok.name with
      | some nm => strncaseEq nm (adaKeywords AdaKeyword.DECLARE)
                     (adaKeywords AdaKeyword.DECLARE).length
      | none => false) then
    { tok with name := none, nameStatic := false, tagName := none }
  else tok

mutual

/-- `storeAdaTags(token, parentScope)`: post-order emission walk.  Does
the spec kind-shift, fills the scope fields from the parent, gives
anonymous declare blocks the static `declare` name, emits the token (and
its qualified duplicate), recurses into the children, and finally clears
the static name again.  Returns the updated state and the records
emitted, in emission order. -/
def storeAdaTags : Nat → AdaOpts → Nat → Option (List Char) → AdaState →
    AdaState × List TagRecord
  | 0, _, _, _, s => ({ s with fuelOut := true }, [])
  | fuel + 1, opts, id, parentScope, s =>
    match s.tok? id with
    | none => (s, [])
    | some _ =>
      -- do a spec transition if necessary
      let s := s.modTok id specTransition
      -- fill in the scope data
      let s := s.modTok id (scopeFill s)
      -- an anonymous declare block gets the static keyword as its name
      let s := s.modTok id anonName
      let tok := (s.tok? id).getD default
      let tr :=
        if storeEmitOk opts tok then
          let e1 := mkTagRecord tok
          if opts.qualifiedTags = true && !limitedScopeKind tok.kind then
            match parentScope with
            | some ps =>
              let cs := ps ++ '.' :: tok.name.getD []
              let s := s.modTok id (fun t => { t with tagName := some cs })
              ([e1, mkTagRecord ((s.tok? id).getD tok)], some cs, s)
            | none => ([e1], tok.name, s)
          else ([e1], none, s)
        else ([], (none : Option (List Char)), s)
      let entries := tr.1
      let currentScope := tr.2.1
      let s := tr.2.2
      -- now make the child tags
      let r := storeAdaTagsChildren fuel opts ((s.tok? id).getD tok).childHead
                 currentScope s
      -- clear out the declare name before the token data is freed
      let s := r.1.modTok id clearDeclareName
      (s, entries ++ r.2)

/-- The `tmp = token->children.head; while(tmp != NULL) { storeAdaTags(tmp,
currentScope); tmp = tmp->next; }` walk (also used by `findAdaTags` on
the root's children). -/
def storeAdaTagsChildren : Nat → AdaOpts → Option Nat → Option (List Char) →
    AdaState → AdaState × List TagRecord
  | 0, _, _, _, s => ({ s with fuelOut := true }, [])
  | fuel + 1, opts, cur, scope, s =>
    match cur with
    | none => (s, [])
    | some c =>
      let r := storeAdaTags fuel opts c scope s
      let next := match r.1.tok? c with
                  | some ct => ct.next
                  | none => none
      let r2 := storeAdaTagsChildren fuel opts next scope r.1
      (r2.1, r.2 ++ r2.2)

end

/-- The initial global state of `findAdaTags`, with the stack `root`
token allocated at arena id 0. -/
def initAdaState (input : List (List Char)) : AdaState :=
  { input := input
    srcLine := 0
    filePosCtr := 0
    line := none
    lineLen := 0
    pos := 0
    exception := false
    eofCount := 0
    aborted := false
    fuelOut := false
    matchLineNum := 0
    matchFilePos := 0
    tokens := [some default] }

/-- `while(exception != EXCEPTION_EOF && adaParse(ADA_ROOT, &root) !=
NULL);` -/
def findAdaTagsLoop : Nat → AdaState → AdaState
  | 0, s => { s with fuelOut := true }
  | fuel + 1, s =>
    if s.halted then s
    else if s.exception = true then s
    else
      let (t, s) := adaParse fuel AdaParseMode.ADA_ROOT 0 s
      if t ≠ none then findAdaTagsLoop fuel s else s

/-- `findAdaTags()` up to (but not including) the final tree
deallocation: initialize, read the first line, tokenize the file, then
store the tags of the root's children.  When the parse was force-aborted
by the EOF guard, the store phase still runs on whatever tree was
committed. -/
def findAdaTagsCore (fuel : Nat) (opts : AdaOpts) (input : List (List Char)) :
    AdaState × List TagRecord :=
  let s := initAdaState input
  let s := readNewLine s
  if s.exception = true then (s, [])
  else
    let s := findAdaTagsLoop fuel s
    let rootHead := match s.tok? 0 with
                    | some r => r.childHead
                    | none => none
    storeAdaTagsChildren fuel opts rootHead none s

/-- Full `findAdaTags()`: emission followed by `freeAdaTokenList(&root.children)`. -/
def findAdaTags (fuel : Nat) (opts : AdaOpts) (input : List (List Char)) :
    AdaState × List TagRecord :=
  let (s, tags) := findAdaTagsCore fuel opts input
  (freeAdaTokenList (freeFuel s) s (some 0), tags)

/-- The tag records produced for a list of input lines. -/
def adaTags (fuel : Nat) (opts : AdaOpts) (input : List String) : List TagRecord :=
  (findAdaTags fuel opts (input.map String.data)).2

instance : Inhabited TagRecord :=
  ⟨⟨[], none, 0, 0, false, none, none⟩⟩

/-! ### Basic arena lemmas -/

namespace AdaState

theorem tokens_setTok_length (s : AdaState) (i : Nat) (t : AdaTokenInfo) :
    (s.setTok i t).tokens.length = s.tokens.length := by
  simp [setTok]

theorem tok?_setTok_self (s : AdaState) (i : Nat) (t : AdaTokenInfo)
    (h : i < s.tokens.length) : (s.setTok i t).tok? i = some t := by
  simp [setTok, tok?, List.getD, List.getElem?_set_self' , h]

theorem tok?_setTok_ne (s : AdaState) (i j : Nat) (t : AdaTokenInfo)
    (h : j ≠ i) : (s.setTok i t).tok? j = s.tok? j := by
  simp [setTok, tok?, List.getD, List.getElem?_set_ne (by omega : i ≠ j)]

theorem tok?_lt_length (s : AdaState) (i : Nat) (t : AdaTokenInfo)
    (h : s.tok? i = some t) : i < s.tokens.length := by
  by_contra hc
  simp [tok?, List.getD, List.getElem?_eq_none (by omega : s.tokens.length ≤ i)] at h

theorem tok?_modTok_self (s : AdaState) (i : Nat) (f : AdaTokenInfo → AdaTokenInfo)
    (t : AdaTokenInfo) (h : s.tok? i = some t) :
    (s.modTok i f).tok? i = some (f t) := by
  simp only [modTok, h]
  exact tok?_setTok_self s i (f t) (tok?_lt_length s i t h)

theorem modTok_of_dead (s : AdaState) (i : Nat) (f : AdaTokenInfo → AdaTokenInfo)
    (h : s.tok? i = none) : s.modTok i f = s := by
  simp [modTok, h]

theorem tok?_modTok_ne (s : AdaState) (i j : Nat) (f : AdaTokenInfo → AdaTokenInfo)
    (h : j ≠ i) : (s.modTok i f).tok? j = s.tok? j := by
  unfold modTok
  cases hx : s.tok? i with
  | none => rfl
  | some t => exact tok?_setTok_ne s i j (f t) h

theorem tokens_modTok_length (s : AdaState) (i : Nat) (f : AdaTokenInfo → AdaTokenInfo) :
    (s.modTok i f).tokens.length = s.tokens.length := by
  unfold modTok
  cases hx : s.tok? i with
  | none => rfl
  | some t => exact tokens_setTok_length s i (f t)

theorem tok?_delTok_self (s : AdaState) (i : Nat) : (s.delTok i).tok? i = none := by
  by_cases h : i < s.tokens.length
  · simp [delTok, tok?, List.getD, List.getElem?_set_self', h]
  · simp [delTok, tok?, List.getD, List.set_eq_of_length_le (by omega : s.tokens.length ≤ i),
      List.getElem?_eq_none (by omega : s.tokens.length ≤ i)]

theorem tok?_delTok_ne (s : AdaState) (i j : Nat) (h : j ≠ i) :
    (s.delTok i).tok? j = s.tok? j := by
  simp [delTok, tok?, List.getD, List.getElem?_set_ne (by omega : i ≠ j)]

theorem tokens_delTok_length (s : AdaState) (i : Nat) :
    (s.delTok i).tokens.length = s.tokens.length := by
  simp [delTok]

end AdaState

/-! ### Exit-branch lemmas for the block and subprogram parsers -/

/-- Reading back a token after setting its `isSpec` flag yields
`isSpec = true`. -/
theorem isSpec_of_modTok_setSpec (s : AdaState) (tid : Nat) (tok : AdaTokenInfo)
    (h : (s.modTok tid (fun t => { t with isSpec := true })).tok? tid = some tok) :
    tok.isSpec = true := by
  cases hx : s.tok? tid with
  | none => rw [AdaState.modTok_of_dead _ _ _ hx, hx] at h; cases h
  | some x => rw [AdaState.tok?_modTok_self _ _ _ _ hx] at h; cases h; rfl

/-- If the block search loop ends at a bare `;`, the returned token is
the block's token and its `isSpec` flag is set. -/
theorem adaParseBlockLoop_semi :
    ∀ (fuel parent tid : Nat) (s : AdaState) (t : Option Nat) (s' : AdaState),
    adaParseBlockLoop fuel parent tid s = (t, ExitVia.viaSemi, s') →
    t = some tid ∧ ∀ tok, s'.tok? tid = some tok → tok.isSpec = true := by
  intro fuel
  induction fuel with
  | zero =>
    intro parent tid s t s' h
    simp [adaParseBlockLoop, adaParseAux_zero] at h
  | succ fuel ih =>
    intro parent tid s t s' h
    simp only [adaParseBlockLoop, adaParseAux_blockLoop] at h
    split at h
    · simp at h
    · split at h
      · split at h
        · simp at h
        · split at h
          · simp at h
          · simp at h
      · split at h
        · simp at h
        · split at h
          · simp only [Prod.mk.injEq] at h
            obtain ⟨h1, -, h3⟩ := h
            subst h3
            exact ⟨h1.symm, fun tok htok => isSpec_of_modTok_setSpec _ _ _ htok⟩
          · split at h
            · simp at h
            · exact ih parent tid _ t s' h

/-! ### The scanning primitives never touch the token arena -/

theorem tokens_fileReadLine (s : AdaState) : (fileReadLine s).2.tokens = s.tokens := by
  unfold fileReadLine
  cases s.input <;> rfl

theorem tokens_readNewLineLoop :
    ∀ (fuel : Nat) (s : AdaState), (readNewLineLoop fuel s).tokens = s.tokens := by
  intro fuel
  induction fuel with
  | zero => intro s; rfl
  | succ fuel ih =>
    intro s
    simp only [readNewLineLoop]
    cases hl : s.input with
    | nil => simp [fileReadLine, hl]; split <;> rfl
    | cons a rest =>
      simp only [fileReadLine, hl]
      split
      · rfl
      · rw [ih]

theorem tokens_readNewLine (s : AdaState) : (readNewLine s).tokens = s.tokens := by
  unfold readNewLine
  split
  · rfl
  · exact tokens_readNewLineLoop _ s

theorem tokens_movePos (s : AdaState) (n : Int) : (movePos s n).tokens = s.tokens := by
  unfold movePos
  split
  · rfl
  · dsimp only
    split
    · rw [tokens_readNewLine]
    · rfl

theorem tokens_adaCmp (s : AdaState) (m : Option (List Char)) :
    (adaCmp s m).2.tokens = s.tokens := by
  unfold adaCmp
  split
  · rfl
  · split
    · rfl
    · split
      · dsimp only
        split
        · rw [tokens_movePos]
        · rfl
      · rfl

theorem tokens_adaKeywordCmp (s : AdaState) (k : AdaKeyword) :
    (adaKeywordCmp s k).2.tokens = s.tokens := by
  unfold adaKeywordCmp
  split
  · rfl
  · split
    · rfl
    · dsimp only
      split
      · rw [tokens_movePos]
      · rfl

theorem tokens_skipCommentLoop :
    ∀ (fuel : Nat) (s : AdaState), (skipCommentLoop fuel s).tokens = s.tokens := by
  intro fuel
  induction fuel with
  | zero => intro s; rfl
  | succ fuel ih =>
    intro s
    simp only [skipCommentLoop]
    split
    · rfl
    · split
      · rw [ih, tokens_readNewLine]
      · rfl

theorem tokens_skipComments (s : AdaState) : (skipComments s).tokens = s.tokens :=
  tokens_skipCommentLoop _ s

theorem tokens_skipWhiteSpaceLoop :
    ∀ (fuel : Nat) (s : AdaState), (skipWhiteSpaceLoop fuel s).tokens = s.tokens := by
  intro fuel
  induction fuel with
  | zero => intro s; rfl
  | succ fuel ih =>
    intro s
    simp only [skipWhiteSpaceLoop]
    split
    · rfl
    · split
      · rw [ih, tokens_skipComments, tokens_movePos]
      · rfl

theorem tokens_skipWhiteSpace (fuel : Nat) (s : AdaState) :
    (skipWhiteSpace fuel s).tokens = s.tokens := by
  unfold skipWhiteSpace
  split
  · rfl
  · rw [tokens_skipWhiteSpaceLoop, tokens_skipComments]

theorem tokens_skipUntilWhiteSpaceLoop :
    ∀ (fuel : Nat) (s : AdaState), (skipUntilWhiteSpaceLoop fuel s).tokens = s.tokens := by
  intro fuel
  induction fuel with
  | zero => intro s; rfl
  | succ fuel ih =>
    intro s
    simp only [skipUntilWhiteSpaceLoop]
    split
    · rfl
    · split
      · split
        · have := tokens_fileReadLine { s with pos := s.pos + 1 }
          split <;> simp_all
        · rw [ih, tokens_skipComments]
      · rfl

theorem tokens_skipUntilWhiteSpace (fuel : Nat) (s : AdaState) :
    (skipUntilWhiteSpace fuel s).tokens = s.tokens := by
  unfold skipUntilWhiteSpace
  split
  · rfl
  · rw [tokens_skipUntilWhiteSpaceLoop, tokens_skipComments]

theorem tokens_skipPastLoop (m : List Char) :
    ∀ (fuel : Nat) (s : AdaState), (skipPastLoop m fuel s).tokens = s.tokens := by
  intro fuel
  induction fuel with
  | zero => intro s; rfl
  | succ fuel ih =>
    intro s
    simp only [skipPastLoop]
    split
    · rfl
    · split
      · rfl
      · split
        · exact tokens_adaCmp _ _
        · rw [ih, tokens_skipComments, tokens_movePos, tokens_adaCmp]

theorem tokens_skipPast (fuel : Nat) (m : List Char) (s : AdaState) :
    (skipPast fuel m s).tokens = s.tokens := by
  unfold skipPast
  split
  · rfl
  · rw [tokens_skipPastLoop, tokens_skipComments]

theorem tokens_skipPastKeywordLoop (k : AdaKeyword) :
    ∀ (fuel : Nat) (s : AdaState), (skipPastKeywordLoop k fuel s).tokens = s.tokens := by
  intro fuel
  induction fuel with
  | zero => intro s; rfl
  | succ fuel ih =>
    intro s
    simp only [skipPastKeywordLoop]
    split
    · rfl
    · split
      · rfl
      · split
        · exact tokens_adaKeywordCmp _ _
        · rw [ih, tokens_skipComments, tokens_movePos, tokens_adaKeywordCmp]

theorem tokens_skipPastKeyword (fuel : Nat) (k : AdaKeyword) (s : AdaState) :
    (skipPastKeyword fuel k s).tokens = s.tokens := by
  unfold skipPastKeyword
  split
  · rfl
  · rw [tokens_skipPastKeywordLoop, tokens_skipComments]

theorem tokens_skipPastWordLoop :
    ∀ (fuel : Nat) (s : AdaState), (skipPastWordLoop fuel s).tokens = s.tokens := by
  intro fuel
  induction fuel with
  | zero => intro s; rfl
  | succ fuel ih =>
    intro s
    simp only [skipPastWordLoop]
    split
    · rfl
    · split
      · split
        · have := tokens_fileReadLine { s with pos := s.pos + 1 }
          split <;> simp_all
        · rw [ih, tokens_skipComments]
      · rfl

theorem tokens_skipPastWord (fuel : Nat) (s : AdaState) :
    (skipPastWord fuel s).tokens = s.tokens := by
  unfold skipPastWord
  split
  · rfl
  · rw [tokens_skipPastWordLoop, tokens_skipComments]

/-- After `freeAdaToken` on a token id (with any positive fuel), that
arena slot is dead. -/
theorem freeAdaToken_tok?_self (fuel : Nat) (s : AdaState) (lo : Option Nat) (t : Nat) :
    (freeAdaToken (fuel + 1) s lo (some t)).tok? t = none := by
  simp only [freeAdaToken]
  cases hx : s.tok? t with
  | none => exact hx
  | some ttok =>
    dsimp only
    exact AdaState.tok?_delTok_self _ _

/-- Two states with the same arena agree on lookups. -/
theorem tok?_congr {s1 s2 : AdaState} (h : s1.tokens = s2.tokens) (i : Nat) :
    s1.tok? i = s2.tok? i := by
  simp [AdaState.tok?, h]

/-- A `freeFuel` value is always positive. -/
theorem freeFuel_succ (s : AdaState) : freeFuel s = (3 * s.tokens.length + 2) + 1 := by
  simp [freeFuel]

/-- If the block search loop hits end-of-input, the block token is freed
and `NULL` returned. -/
theorem adaParseBlockLoop_eof :
    ∀ (fuel parent tid : Nat) (s : AdaState) (t : Option Nat) (s' : AdaState),
    adaParseBlockLoop fuel parent tid s = (t, ExitVia.viaEof, s') →
    t = none ∧ s'.tok? tid = none := by
  intro fuel
  induction fuel with
  | zero =>
    intro parent tid s t s' h
    simp [adaParseBlockLoop, adaParseAux_zero] at h
  | succ fuel ih =>
    intro parent tid s t s' h
    simp only [adaParseBlockLoop, adaParseAux_blockLoop] at h
    split at h
    · simp at h
    · split at h
      · split at h
        · simp at h
        · split at h
          · simp at h
          · simp at h
      · split at h
        · simp at h
        · split at h
          · simp at h
          · split at h
            · simp only [Prod.mk.injEq] at h
              obtain ⟨h1, -, h3⟩ := h
              subst h3
              exact ⟨h1.symm, by rw [freeFuel_succ]; exact freeAdaToken_tok?_self _ _ _ _⟩
            · exact ih parent tid _ t s' h

/-- If the block search loop hits `is separate`, the block token is
freed and `NULL` returned. -/
theorem adaParseBlockLoop_separate :
    ∀ (fuel parent tid : Nat) (s : AdaState) (t : Option Nat) (s' : AdaState),
    adaParseBlockLoop fuel parent tid s = (t, ExitVia.viaSeparate, s') →
    t = none ∧ s'.tok? tid = none := by
  intro fuel
  induction fuel with
  | zero =>
    intro parent tid s t s' h
    simp [adaParseBlockLoop, adaParseAux_zero] at h
  | succ fuel ih =>
    intro parent tid s t s' h
    simp only [adaParseBlockLoop, adaParseAux_blockLoop] at h
    split at h
    · simp at h
    · split at h
      · split at h
        · simp only [Prod.mk.injEq] at h
          obtain ⟨h1, -, h3⟩ := h
          subst h3
          refine ⟨h1.symm, ?_⟩
          rw [tok?_congr (tokens_skipPast _ _ _) tid, freeFuel_succ]
          exact freeAdaToken_tok?_self _ _ _ _
        · split at h
          · simp at h
          · simp at h
      · split at h
        · simp at h
        · split at h
          · simp at h
          · split at h
            · simp at h
            · exact ih parent tid _ t s' h

/-- If the subprogram search loop ends at a bare `;`, the returned token
is the subprogram's token and its `isSpec` flag is set. -/
theorem adaParseSubprogramLoop_semi :
    ∀ (fuel parent tid : Nat) (s : AdaState) (t : Option Nat) (s' : AdaState),
    adaParseSubprogramLoop fuel parent tid s = (t, ExitVia.viaSemi, s') →
    t = some tid ∧ ∀ tok, s'.tok? tid = some tok → tok.isSpec = true := by
  intro fuel
  induction fuel with
  | zero =>
    intro parent tid s t s' h
    simp [adaParseSubprogramLoop, adaParseAux_zero] at h
  | succ fuel ih =>
    intro parent tid s t s' h
    simp only [adaParseSubprogramLoop, adaParseAux_subprogramLoop] at h
    split at h
    · simp at h
    · split at h
      · simp at h
      · split at h
        · split at h
          · simp at h
          · split at h
            · simp at h
            · simp at h
        · split at h
          · simp at h
          · split at h
            · simp at h
            · split at h
              · simp only [Prod.mk.injEq] at h
                obtain ⟨h1, -, h3⟩ := h
                subst h3
                exact ⟨h1.symm, fun tok htok => isSpec_of_modTok_setSpec _ _ _ htok⟩
              · exact ih parent tid _ t s' h

/-- If the subprogram search loop hits end-of-input, the subprogram's
token is returned as-is and the arena is untouched (the node is not
freed, unlike the block parser). -/
theorem adaParseSubprogramLoop_eof :
    ∀ (fuel parent tid : Nat) (s : AdaState) (t : Option Nat) (s' : AdaState),
    adaParseSubprogramLoop fuel parent tid s = (t, ExitVia.viaEof, s') →
    t = some tid ∧ s'.tokens = s.tokens := by
  intro fuel
  induction fuel with
  | zero =>
    intro parent tid s t s' h
    simp [adaParseSubprogramLoop, adaParseAux_zero] at h
  | succ fuel ih =>
    intro parent tid s t s' h
    simp only [adaParseSubprogramLoop, adaParseAux_subprogramLoop] at h
    split at h
    · simp at h
    · split at h
      · simp only [Prod.mk.injEq] at h
        obtain ⟨h1, -, h3⟩ := h
        subst h3
        exact ⟨h1.symm, rfl⟩
      · split at h
        · split at h
          · simp at h
          · split at h
            · simp at h
            · simp at h
        · split at h
          · simp at h
          · split at h
            · simp at h
            · split at h
              · simp at h
              · obtain ⟨h1, h2⟩ := ih parent tid _ t s' h
                refine ⟨h1, ?_⟩
                rw [h2, tokens_skipPastWord, tokens_movePos, tokens_adaCmp,
                    tokens_adaKeywordCmp, tokens_adaKeywordCmp, tokens_adaKeywordCmp,
                    tokens_skipWhiteSpace]

/-- If the subprogram search loop hits `is separate`, the token is freed
and `NULL` returned. -/
theorem adaParseSubprogramLoop_separate :
    ∀ (fuel parent tid : Nat) (s : AdaState) (t : Option Nat) (s' : AdaState),
    adaParseSubprogramLoop fuel parent tid s = (t, ExitVia.viaSeparate, s') →
    t = none ∧ s'.tok? tid = none := by
  intro fuel
  induction fuel with
  | zero =>
    intro parent tid s t s' h
    simp [adaParseSubprogramLoop, adaParseAux_zero] at h
  | succ fuel ih =>
    intro parent tid s t s' h
    simp only [adaParseSubprogramLoop, adaParseAux_subprogramLoop] at h
    split at h
    · simp at h
    · split at h
      · simp at h
      · split at h
        · split at h
          · simp only [Prod.mk.injEq] at h
            obtain ⟨h1, -, h3⟩ := h
            subst h3
            refine ⟨h1.symm, ?_⟩
            rw [tok?_congr (tokens_skipPast _ _ _) tid, freeFuel_succ]
            exact freeAdaToken_tok?_self _ _ _ _
          · split at h
            · simp at h
            · simp at h
        · split at h
          · simp at h
          · split at h
            · simp at h
            · split at h
              · simp at h
              · exact ih parent tid _ t s' h

/-! ### Emission-pass lemmas -/

/-- `scopeFill` only changes the scope fields. -/
theorem scopeFill_fields (s : AdaState) (tok : AdaTokenInfo) :
    (scopeFill s tok).kind = tok.kind ∧ (scopeFill s tok).tagKind = tok.tagKind ∧
    (scopeFill s tok).name = tok.name ∧ (scopeFill s tok).isSpec = tok.isSpec ∧
    (scopeFill s tok).childHead = tok.childHead ∧
    (scopeFill s tok).isFileScope = tok.isFileScope ∧
    (scopeFill s tok).nameStatic = tok.nameStatic ∧
    (scopeFill s tok).tagName = tok.tagName := by
  unfold scopeFill
  rcases h1 : tok.parent with - | p
  · simp
  · rcases h2 : s.tok? p with - | ptok
    · simp [h2]
    · by_cases h3 : ptok.kind.isReal = true
      · simp [h2, h3]
      · by_cases h4 : ptok.kind = AdaKind.SEPARATE
        · simp [h2, h3, h4, AdaKind.isReal]
        · simp [h2, h3, h4]

/-- A token of kind `ANONYMOUS` never passes the emission guard: the
`annon` kind is disabled in the `AdaKinds` table. -/
theorem storeEmitOk_anonymous (opts : AdaOpts) (tok : AdaTokenInfo)
    (hk : tok.kind = AdaKind.ANONYMOUS) : storeEmitOk opts tok = false := by
  simp [storeEmitOk, hk, adaKindEnabled]

/-- Walking an empty child list emits nothing. -/
theorem storeAdaTagsChildren_none (fuel : Nat) (opts : AdaOpts)
    (scope : Option (List Char)) (s : AdaState) :
    (storeAdaTagsChildren fuel opts none scope s).2 = [] := by
  cases fuel <;> simp [storeAdaTagsChildren]

/-- An anonymous block token with no children produces no tag records at
all: its own emission is guarded out and there are no children to
recurse into. -/
theorem storeAdaTags_anon_childless (fuel : Nat) (opts : AdaOpts) (id : Nat)
    (ps : Option (List Char)) (s : AdaState) (tok : AdaTokenInfo)
    (h : s.tok? id = some tok) (hk : tok.kind = AdaKind.ANONYMOUS)
    (hspec : tok.isSpec = false) (hch : tok.childHead = none) :
    (storeAdaTags (fuel + 1) opts id ps s).2 = [] := by
  have h1 : (s.modTok id specTransition).tok? id = some (specTransition tok) :=
    AdaState.tok?_modTok_self _ _ _ _ h
  have e1 : specTransition tok = tok := by simp [specTransition, hspec]
  rw [e1] at h1
  have h2 : ((s.modTok id specTransition).modTok id
      (scopeFill (s.modTok id specTransition))).tok? id =
      some (scopeFill (s.modTok id specTransition) tok) :=
    AdaState.tok?_modTok_self _ _ _ _ h1
  obtain ⟨sfK, -, -, -, sfCh, -, -, -⟩ :=
    scopeFill_fields (s.modTok id specTransition) tok
  have h3 := AdaState.tok?_modTok_self _ _ anonName _ h2
  have hek : (anonName (scopeFill (s.modTok id specTransition) tok)).kind =
      AdaKind.ANONYMOUS := by
    unfold anonName
    split
    · simpa [sfK] using hk
    · simpa [sfK] using hk
  have hech : (anonName (scopeFill (s.modTok id specTransition) tok)).childHead =
      none := by
    unfold anonName
    split
    · simpa [sfCh] using hch
    · simpa [sfCh] using hch
  simp only [storeAdaTags, h, h3, Option.getD_some,
    storeEmitOk_anonymous opts _ hek, Bool.false_eq_true, if_false, hech]
  rcases hX : storeAdaTagsChildren fuel opts none none
      (((s.modTok id specTransition).modTok id
        (scopeFill (s.modTok id specTransition))).modTok id anonName) with ⟨s4, ce⟩
  have hce : ce = [] := by
    have := storeAdaTagsChildren_none fuel opts none
      (((s.modTok id specTransition).modTok id
        (scopeFill (s.modTok id specTransition))).modTok id anonName)
    rw [hX] at this
    exact this
  simp [hX, hce]

/-- A spec-marked package/subprogram/task/protected token is emitted
first in its own subtree, with its kind shifted by `makeSpec`. -/
theorem storeAdaTags_spec_head (fuel : Nat) (opts : AdaOpts) (id : Nat)
    (ps : Option (List Char)) (s : AdaState) (tok : AdaTokenInfo) (nm : List Char)
    (h : s.tok? id = some tok) (hspec : tok.isSpec = true)
    (hk : tok.kind = AdaKind.PACKAGE ∨ tok.kind = AdaKind.SUBPROGRAM ∨
          tok.kind = AdaKind.TASK ∨ tok.kind = AdaKind.PROTECTED)
    (hnm : tok.name = some nm) (hfs : opts.fileScope = true) :
    ∃ r rest, (storeAdaTags (fuel + 1) opts id ps s).2 = r :: rest ∧
      r.kind = some (makeSpec tok.kind) := by
  have hknd : makeSpec tok.kind ≠ AdaKind.UNDEFINED := by
    rcases hk with hx | hx | hx | hx <;> simp [makeSpec, hx]
  have hanon : makeSpec tok.kind ≠ AdaKind.ANONYMOUS := by
    rcases hk with hx | hx | hx | hx <;> simp [makeSpec, hx]
  have hreal : (makeSpec tok.kind).isReal = true := by
    rcases hk with hx | hx | hx | hx <;> simp [makeSpec, hx, AdaKind.isReal]
  have henab : adaKindEnabled (makeSpec tok.kind) = true := by
    rcases hk with hx | hx | hx | hx <;> simp [makeSpec, hx, adaKindEnabled]
  have h1 : (s.modTok id specTransition).tok? id = some (specTransition tok) :=
    AdaState.tok?_modTok_self _ _ _ _ h
  have e1k : (specTransition tok).kind = makeSpec tok.kind := by
    simp [specTransition, hspec]
  have e1tk : (specTransition tok).tagKind = some (makeSpec tok.kind) := by
    simp [specTransition, hspec, hknd]
  have e1n : (specTransition tok).name = tok.name := by
    simp [specTransition, hspec]
  have h2 : ((s.modTok id specTransition).modTok id
      (scopeFill (s.modTok id specTransition))).tok? id =
      some (scopeFill (s.modTok id specTransition) (specTransition tok)) :=
    AdaState.tok?_modTok_self _ _ _ _ h1
  obtain ⟨sfK, sfTK, sfN, -, -, -, -, -⟩ :=
    scopeFill_fields (s.modTok id specTransition) (specTransition tok)
  have h3 := AdaState.tok?_modTok_self _ _ anonName _ h2
  set tok2 := scopeFill (s.modTok id specTransition) (specTransition tok) with htok2
  have e3 : anonName tok2 = tok2 := by
    unfold anonName
    rw [if_neg]
    simp only [Bool.and_eq_true, decide_eq_true_eq, not_and]
    intro hcontra
    rw [sfK, e1k] at hcontra
    exact absurd hcontra hanon
  rw [e3] at h3
  have hemit : storeEmitOk opts tok2 = true := by
    unfold storeEmitOk
    rw [sfK, sfN, e1k, e1n, hnm, hfs]
    simp [hreal, henab, hanon]
  have htk2 : tok2.tagKind = some (makeSpec tok.kind) := by rw [sfTK, e1tk]
  simp only [storeAdaTags, h, h3, Option.getD_some, hemit, if_true]
  by_cases hq : (decide (opts.qualifiedTags = true) && !limitedScopeKind tok2.kind) = true
  · rw [if_pos hq]
    cases ps with
    | none =>
      refine ⟨_, _, rfl, ?_⟩
      simp [h3, mkTagRecord, htk2]
    | some psv =>
      refine ⟨_, _, rfl, ?_⟩
      simp [h3, mkTagRecord, htk2]
  · rw [if_neg hq]
    refine ⟨_, _, rfl, ?_⟩
    simp [h3, mkTagRecord, htk2]

/-! ### End-of-input guard lemmas -/

/-- At exhausted input, `readNewLine` raises the persistent EOF
exception, counts the signal, and aborts (the `longjmp`) exactly when
the counter reaches 1000. -/
theorem readNewLine_exhausted (s : AdaState) (hab : s.aborted = false)
    (hfo : s.fuelOut = false) (hin : s.input = []) :
    (readNewLine s).eofCount = s.eofCount + 1 ∧
    (readNewLine s).exception = true ∧
    (readNewLine s).aborted = decide (1000 ≤ s.eofCount + 1) ∧
    (readNewLine s).tokens = s.tokens := by
  unfold readNewLine
  rw [if_neg (by simp [AdaState.halted, hab, hfo])]
  rw [hin]
  simp only [List.length_nil, Nat.zero_add, readNewLineLoop, fileReadLine, hin]
  by_cases hc : 1000 ≤ s.eofCount + 1
  · simp [hc]
  · simp [hc, hab]

/-- Once the abort flag is set, the top-level tokenize loop stops
immediately with the state untouched. -/
theorem findAdaTagsLoop_aborted (fuel : Nat) (s : AdaState)
    (hab : s.aborted = true) :
    findAdaTagsLoop (fuel + 1) s = s := by
  have hh : s.halted = true := by simp [AdaState.halted, hab]
  rw [findAdaTagsLoop, if_pos hh]

/-- Once the abort flag is set, the block-parser search loop likewise
returns immediately with the state untouched. -/
theorem adaParseBlockLoop_aborted (fuel parent tid : Nat) (s : AdaState)
    (hab : s.aborted = true) :
    adaParseBlockLoop (fuel + 1) parent tid s = (some tid, ExitVia.viaHalt, s) := by
  have hh : s.halted = true := by simp [AdaState.halted, hab]
  simp only [adaParseBlockLoop, adaParseAux_blockLoop]
  rw [if_pos hh]

/-- Setting the abort flag does not change arena lookups. -/
theorem tok?_withAb (x : AdaState) (i : Nat) :
    ({ x with aborted := true } : AdaState).tok? i = x.tok? i := rfl

/-- Token updates commute with setting the abort flag. -/
theorem modTok_withAb (x : AdaState) (i : Nat) (f : AdaTokenInfo → AdaTokenInfo) :
    ({ x with aborted := true } : AdaState).modTok i f =
    { x.modTok i f with aborted := true } := by
  unfold AdaState.modTok AdaState.setTok
  rw [tok?_withAb]
  cases hx : x.tok? i
  · rfl
  · rfl

/-- The scope fill reads only the arena, so the abort flag is
irrelevant to it. -/
theorem scopeFill_withAb (x : AdaState) :
    scopeFill { x with aborted := true } = scopeFill x := rfl

/-- The emission pass is insensitive to the abort flag: a force-aborted
parse still emits exactly the records of the tree it committed. -/
theorem store_aborted_transparent (fuel : Nat) :
    (∀ (opts : AdaOpts) (id : Nat) (ps : Option (List Char)) (s : AdaState),
      storeAdaTags fuel opts id ps { s with aborted := true } =
        ({ (storeAdaTags fuel opts id ps s).1 with aborted := true },
         (storeAdaTags fuel opts id ps s).2)) ∧
    (∀ (opts : AdaOpts) (cur : Option Nat) (scope : Option (List Char)) (s : AdaState),
      storeAdaTagsChildren fuel opts cur scope { s with aborted := true } =
        ({ (storeAdaTagsChildren fuel opts cur scope s).1 with aborted := true },
         (storeAdaTagsChildren fuel opts cur scope s).2)) := by
  induction fuel with
  | zero => exact ⟨fun _ _ _ _ => rfl, fun _ _ _ _ => rfl⟩
  | succ fuel ih =>
    obtain ⟨ihT, ihC⟩ := ih
    constructor
    · intro opts id ps s
      simp only [storeAdaTags, tok?_withAb]
      cases h : s.tok? id with
      | none => rfl
      | some tk =>
        simp only [h]
        simp only [modTok_withAb, scopeFill_withAb, tok?_withAb]
        split
        · split
          · cases ps with
            | none =>
              simp only [modTok_withAb, tok?_withAb, ihC]
            | some psv =>
              simp only [modTok_withAb, tok?_withAb, ihC]
          · simp only [modTok_withAb, tok?_withAb, ihC]
        · simp only [modTok_withAb, tok?_withAb, ihC]
    · intro opts cur scope s
      simp only [storeAdaTagsChildren]
      cases cur with
      | none => rfl
      | some c =>
        simp only [ihT, tok?_withAb, ihC]

/-- Once the abort flag is set, the subprogram search loop likewise
returns immediately with the state untouched. -/
theorem adaParseSubprogramLoop_aborted (fuel parent tid : Nat) (s : AdaState)
    (hab : s.aborted = true) :
    adaParseSubprogramLoop (fuel + 1) parent tid s =
      (some tid, ExitVia.viaHalt, s) := by
  have hh : s.halted = true := by simp [AdaState.halted, hab]
  simp only [adaParseSubprogramLoop, adaParseAux_subprogramLoop]
  rw [if_pos hh]

/-! ### File-scope lemmas -/

/-- The projected file-scope flag at an arena slot. -/
def fsAt (s : AdaState) (j : Nat) : Option Bool :=
  (s.tok? j).map (fun t => t.isFileScope)

theorem fsAt_setTok (s : AdaState) (i j : Nat) (x y : AdaTokenInfo)
    (hi : s.tok? i = some y) (hfs : x.isFileScope = y.isFileScope) :
    fsAt (s.setTok i x) j = fsAt s j := by
  by_cases hij : j = i
  · subst hij
    rw [fsAt, fsAt, AdaState.tok?_setTok_self s j x (AdaState.tok?_lt_length s j y hi), hi]
    simp [hfs]
  · rw [fsAt, fsAt, AdaState.tok?_setTok_ne s i j x hij]

theorem fsAt_modTok (s : AdaState) (i j : Nat) (f : AdaTokenInfo → AdaTokenInfo)
    (hf : ∀ t, (f t).isFileScope = t.isFileScope) :
    fsAt (s.modTok i f) j = fsAt s j := by
  unfold AdaState.modTok
  cases hx : s.tok? i with
  | none => rfl
  | some y => exact fsAt_setTok s i j (f y) y hx (hf y)

/-- A slot stays live across `setTok`. -/
theorem tok?_isSome_setTok (s : AdaState) (i k : Nat) (x : AdaTokenInfo)
    (h : ∃ y, s.tok? k = some y) : ∃ y, (s.setTok i x).tok? k = some y := by
  obtain ⟨y, hy⟩ := h
  by_cases hik : k = i
  · subst hik
    exact ⟨x, AdaState.tok?_setTok_self s k x (AdaState.tok?_lt_length s k y hy)⟩
  · exact ⟨y, by rw [AdaState.tok?_setTok_ne s i k x hik, hy]⟩

/-- A slot stays live across `modTok`. -/
theorem tok?_isSome_modTok (s : AdaState) (i k : Nat) (f : AdaTokenInfo → AdaTokenInfo)
    (h : ∃ y, s.tok? k = some y) : ∃ y, (s.modTok i f).tok? k = some y := by
  obtain ⟨y, hy⟩ := h
  by_cases hik : k = i
  · subst hik
    exact ⟨f y, AdaState.tok?_modTok_self s k f y hy⟩
  · exact ⟨y, by rw [AdaState.tok?_modTok_ne s i k f hik, hy]⟩

/-- `appendAdaToken` never changes any token's file-scope flag. -/
theorem fsAt_appendAdaToken (s : AdaState) (pa t : Option Nat) (j : Nat) :
    fsAt (appendAdaToken s pa t) j = fsAt s j := by
  unfold appendAdaToken
  cases pa with
  | none => rfl
  | some p =>
    cases t with
    | none => rfl
    | some ti =>
      dsimp only
      cases hp : s.tok? p with
      | none => simp [hp]
      | some ptok =>
        cases ht : s.tok? ti with
        | none => simp [hp, ht]
        | some ttok =>
          simp only [hp, ht]
          cases hct : ptok.childTail with
          | none =>
            have hlive : ∃ y, (s.setTok ti
                { ttok with parent := some p
                            prev := (none : Option Nat)
                            next := (none : Option Nat) }).tok? p = some y :=
              tok?_isSome_setTok s ti p _ ⟨ptok, hp⟩
            obtain ⟨y, hy⟩ := hlive
            rw [fsAt_setTok _ p j _ y hy (by rw [hy]; rfl),
              fsAt_setTok s ti j _ ttok ht (by rfl)]
          | some tl =>
            have hlive : ∃ y, ((s.setTok ti
                { ttok with parent := some p
                            prev := some tl
                            next := (none : Option Nat) }).modTok tl
                  (fun x => { x with next := some ti })).tok? p = some y :=
              tok?_isSome_modTok _ tl p _ (tok?_isSome_setTok s ti p _ ⟨ptok, hp⟩)
            obtain ⟨y, hy⟩ := hlive
            rw [fsAt_setTok _ p j _ y hy (by rw [hy]; rfl),
              fsAt_modTok _ tl j _ (by intro z; rfl),
              fsAt_setTok s ti j _ ttok ht (by rfl)]

/-- Marking a parent private (the `private` branch of the dispatcher)
changes no token's file-scope flag. -/
theorem fsAt_setPrivate (s : AdaState) (p j : Nat) :
    fsAt (s.modTok p (fun t => { t with isPrivate := true })) j = fsAt s j :=
  fsAt_modTok s p j _ (fun _ => rfl)

/-- `newAdaToken` leaves the file-scope flag of every pre-existing token
unchanged. -/
theorem fsAt_newAdaToken_old (s : AdaState) (name : Option (List Char))
    (len : Int) (kind : AdaKind) (isSpec : Bool) (parent : Option Nat)
    (j : Nat) (hj : j < s.tokens.length) :
    fsAt (newAdaToken s name len kind isSpec parent).2 j = fsAt s j := by
  unfold newAdaToken AdaState.alloc
  dsimp only
  rw [fsAt_appendAdaToken]
  unfold fsAt AdaState.tok?
  simp [List.getD, List.getElem?_append, hj]

/-- The token created by `newAdaToken` carries exactly the file-scope
flag computed by `adaFileScope` from the parent's state at creation
time. -/
theorem newAdaToken_isFileScope (s : AdaState) (name : Option (List Char))
    (len : Int) (kind : AdaKind) (isSpec : Bool) (parent : Option Nat) :
    fsAt (newAdaToken s name len kind isSpec parent).2
        (newAdaToken s name len kind isSpec parent).1 =
      some (adaFileScope s parent) := by
  unfold newAdaToken AdaState.alloc
  dsimp only
  rw [fsAt_appendAdaToken]
  unfold fsAt AdaState.tok?
  simp [List.getElem?_concat_length]
/-! ### Further emission-pass helper lemmas -/

/-- Emission on an id with no live token produces no records. -/
theorem storeAdaTags_dead (fuel : Nat) (opts : AdaOpts) (id : Nat)
    (ps : Option (List Char)) (s : AdaState) (h : s.tok? id = none) :
    (storeAdaTags fuel opts id ps s).2 = [] := by
  cases fuel with
  | zero => rfl
  | succ fuel => simp [storeAdaTags, h]

/-- A token whose parent has kind `SEPARATE` is scoped with the
`separate` keyword as its scope kind and the parent's name as its scope
name. -/
theorem scopeFill_separate (s : AdaState) (tok : AdaTokenInfo) (p : Nat)
    (ptok : AdaTokenInfo) (hp : tok.parent = some p) (h : s.tok? p = some ptok)
    (hk : ptok.kind = AdaKind.SEPARATE) :
    (scopeFill s tok).scopeKind = some (adaKeywords AdaKeyword.SEPARATE) ∧
    (scopeFill s tok).scopeName = ptok.name := by
  unfold scopeFill
  simp [hp, h, hk, AdaKind.isReal]

/-- `scopeFill` does not move the sibling link. -/
theorem scopeFill_next (s : AdaState) (tok : AdaTokenInfo) :
    (scopeFill s tok).next = tok.next := by
  unfold scopeFill
  rcases h1 : tok.parent with - | p
  · simp
  · rcases h2 : s.tok? p with - | ptok
    · simp [h2]
    · by_cases h3 : ptok.kind.isReal = true
      · simp [h2, h3]
      · by_cases h4 : ptok.kind = AdaKind.SEPARATE
        · simp [h2, h3, h4, AdaKind.isReal]
        · simp [h2, h3, h4]

/-- After the parent is marked private, a token created under it is
file-scoped. -/
theorem adaFileScope_private (s : AdaState) (p : Nat) (ptok : AdaTokenInfo)
    (h : s.tok? p = some ptok) :
    adaFileScope (s.modTok p (fun t => { t with isPrivate := true })) (some p) =
      true := by
  unfold adaFileScope
  dsimp only
  rw [AdaState.tok?_modTok_self _ _ _ _ h]
  simp

/-- Under a non-private package specification, a created token is not
file-scoped. -/
theorem adaFileScope_packageSpec (s : AdaState) (p : Nat) (ptok : AdaTokenInfo)
    (h : s.tok? p = some ptok) (hpr : ptok.isPrivate = false)
    (hsp : ptok.isSpec = true) (hk : ptok.kind = AdaKind.PACKAGE) :
    adaFileScope s (some p) = false := by
  unfold adaFileScope
  dsimp only
  rw [h]
  simp [hpr, hsp, hk]

/-- The spec transition does nothing on a non-spec token. -/
theorem specTransition_id (tok : AdaTokenInfo) (h : tok.isSpec = false) :
    specTransition tok = tok := by
  simp [specTransition, h]

/-- Only anonymous tokens can receive the static declare name. -/
theorem anonName_id (tok : AdaTokenInfo) (h : tok.kind ≠ AdaKind.ANONYMOUS) :
    anonName tok = tok := by
  unfold anonName
  rw [if_neg]
  simp only [Bool.and_eq_true, decide_eq_true_eq, not_and]
  intro hcontra
  exact absurd hcontra h

/-- Only anonymous tokens have their declare name cleared. -/
theorem clearDeclareName_id (tok : AdaTokenInfo)
    (h : tok.kind ≠ AdaKind.ANONYMOUS) : clearDeclareName tok = tok := by
  unfold clearDeclareName
  rw [if_neg]
  simp only [Bool.and_eq_true, decide_eq_true_eq, not_and]
  intro hcontra
  exact absurd hcontra h

/-- Walking an empty child list leaves the arena unchanged. -/
theorem storeAdaTagsChildren_none_tok? (fuel : Nat) (opts : AdaOpts)
    (scope : Option (List Char)) (s : AdaState) (j : Nat) :
    (storeAdaTagsChildren fuel opts none scope s).1.tok? j = s.tok? j := by
  cases fuel <;> rfl

/-- Emitting a leaf variable token produces exactly its own record, and
the token (with scope filled) stays live at its id. -/
theorem storeAdaTags_leaf_var (fuel : Nat) (opts : AdaOpts) (cid : Nat)
    (s : AdaState) (ctok : AdaTokenInfo)
    (hc : s.tok? cid = some ctok) (hck : ctok.kind = AdaKind.VARIABLE)
    (hcs : ctok.isSpec = false)
    (hcn : ctok.name ≠ none) (hcch : ctok.childHead = none)
    (hfs : opts.fileScope = true) :
    (storeAdaTags (fuel + 1) opts cid none s).2 =
      [mkTagRecord (scopeFill (s.modTok cid specTransition) ctok)] ∧
    (storeAdaTags (fuel + 1) opts cid none s).1.tok? cid =
      some (scopeFill (s.modTok cid specTransition) ctok) := by
  have h1 : (s.modTok cid specTransition).tok? cid = some (specTransition ctok) :=
    AdaState.tok?_modTok_self _ _ _ _ hc
  rw [specTransition_id ctok hcs] at h1
  have h2 : ((s.modTok cid specTransition).modTok cid
      (scopeFill (s.modTok cid specTransition))).tok? cid =
      some (scopeFill (s.modTok cid specTransition) ctok) :=
    AdaState.tok?_modTok_self _ _ _ _ h1
  obtain ⟨sfK, sfTK, sfN, sfSp, sfCh, sfFS, sfNS, sfTN⟩ :=
    scopeFill_fields (s.modTok cid specTransition) ctok
  set ctok2 := scopeFill (s.modTok cid specTransition) ctok with hctok2
  have e3 : anonName ctok2 = ctok2 := anonName_id _ (by rw [sfK, hck]; decide)
  have h3 := AdaState.tok?_modTok_self _ _ anonName _ h2
  rw [e3] at h3
  have hemit : storeEmitOk opts ctok2 = true := by
    unfold storeEmitOk
    rw [sfK, sfN, hck, hfs]
    simp [AdaKind.isReal, adaKindEnabled, hcn]
  have hch2 : ctok2.childHead = none := by rw [sfCh, hcch]
  have e4 : clearDeclareName ctok2 = ctok2 :=
    clearDeclareName_id _ (by rw [sfK, hck]; decide)
  simp only [storeAdaTags, hc, h3, Option.getD_some, hemit, if_true, hch2]
  by_cases hq : (decide (opts.qualifiedTags = true) && !limitedScopeKind ctok2.kind) = true
  · rw [if_pos hq]
    simp only [h3, Option.getD_some, hch2]
    rcases hX : storeAdaTagsChildren fuel opts none ctok2.name
        (((s.modTok cid specTransition).modTok cid
          (scopeFill (s.modTok cid specTransition))).modTok cid anonName)
      with ⟨s4, ce⟩
    have hce : ce = [] := by
      have := storeAdaTagsChildren_none fuel opts ctok2.name
        (((s.modTok cid specTransition).modTok cid
          (scopeFill (s.modTok cid specTransition))).modTok cid anonName)
      rw [hX] at this
      exact this
    have hs4 : s4.tok? cid = some ctok2 := by
      have := storeAdaTagsChildren_none_tok? fuel opts ctok2.name
        (((s.modTok cid specTransition).modTok cid
          (scopeFill (s.modTok cid specTransition))).modTok cid anonName) cid
      rw [hX] at this
      rw [this]
      exact h3
    refine ⟨by simp [hX, hce], ?_⟩
    simp only [hX]
    rw [AdaState.tok?_modTok_self _ _ _ _ hs4, e4]
  · rw [if_neg hq]
    simp only [h3, Option.getD_some, hch2]
    rcases hX : storeAdaTagsChildren fuel opts none none
        (((s.modTok cid specTransition).modTok cid
          (scopeFill (s.modTok cid specTransition))).modTok cid anonName)
      with ⟨s4, ce⟩
    have hce : ce = [] := by
      have := storeAdaTagsChildren_none fuel opts none
        (((s.modTok cid specTransition).modTok cid
          (scopeFill (s.modTok cid specTransition))).modTok cid anonName)
      rw [hX] at this
      exact this
    have hs4 : s4.tok? cid = some ctok2 := by
      have := storeAdaTagsChildren_none_tok? fuel opts none
        (((s.modTok cid specTransition).modTok cid
          (scopeFill (s.modTok cid specTransition))).modTok cid anonName) cid
      rw [hX] at this
      rw [this]
      exact h3
    refine ⟨by simp [hX, hce], ?_⟩
    simp only [hX]
    rw [AdaState.tok?_modTok_self _ _ _ _ hs4, e4]

/-- An anonymous block with exactly one child, a named leaf variable,
emits exactly one record — the variable's — and none for the block
itself. -/
theorem storeAdaTags_anon_one_var (fuel : Nat) (opts : AdaOpts) (aid cid : Nat)
    (ps : Option (List Char)) (s : AdaState) (tok ctok : AdaTokenInfo) (nm : List Char)
    (hne : cid ≠ aid)
    (h : s.tok? aid = some tok) (hk : tok.kind = AdaKind.ANONYMOUS)
    (hspec : tok.isSpec = false) (hch : tok.childHead = some cid)
    (hc : s.tok? cid = some ctok) (hck : ctok.kind = AdaKind.VARIABLE)
    (hcs : ctok.isSpec = false) (hctn : ctok.tagName = some nm)
    (hcn : ctok.name ≠ none) (hcch : ctok.childHead = none)
    (hcnext : ctok.next = none) (hfs : opts.fileScope = true) :
    ∃ r, (storeAdaTags (fuel + 3) opts aid ps s).2 = [r] ∧ r.name = nm := by
  have h1 : (s.modTok aid specTransition).tok? aid = some (specTransition tok) :=
    AdaState.tok?_modTok_self _ _ _ _ h
  rw [specTransition_id tok hspec] at h1
  have h2 : ((s.modTok aid specTransition).modTok aid
      (scopeFill (s.modTok aid specTransition))).tok? aid =
      some (scopeFill (s.modTok aid specTransition) tok) :=
    AdaState.tok?_modTok_self _ _ _ _ h1
  obtain ⟨sfK, -, -, -, sfCh, -, -, -⟩ :=
    scopeFill_fields (s.modTok aid specTransition) tok
  have h3 := AdaState.tok?_modTok_self _ _ anonName _ h2
  have hek : (anonName (scopeFill (s.modTok aid specTransition) tok)).kind =
      AdaKind.ANONYMOUS := by
    unfold anonName
    split
    · simpa [sfK] using hk
    · simpa [sfK] using hk
  have hech : (anonName (scopeFill (s.modTok aid specTransition) tok)).childHead =
      some cid := by
    unfold anonName
    split
    · simpa [sfCh] using hch
    · simpa [sfCh] using hch
  have hc3 : (((s.modTok aid specTransition).modTok aid
      (scopeFill (s.modTok aid specTransition))).modTok aid anonName).tok? cid =
      some ctok := by
    rw [AdaState.tok?_modTok_ne _ _ _ _ hne, AdaState.tok?_modTok_ne _ _ _ _ hne,
        AdaState.tok?_modTok_ne _ _ _ _ hne]
    exact hc
  obtain ⟨hL2, hL1⟩ := storeAdaTags_leaf_var fuel opts cid
    (((s.modTok aid specTransition).modTok aid
      (scopeFill (s.modTok aid specTransition))).modTok aid anonName)
    ctok hc3 hck hcs hcn hcch hfs
  obtain ⟨-, -, -, -, -, -, -, cfTN⟩ :=
    scopeFill_fields ((((s.modTok aid specTransition).modTok aid
      (scopeFill (s.modTok aid specTransition))).modTok aid anonName).modTok cid
        specTransition) ctok
  have hnext : (scopeFill ((((s.modTok aid specTransition).modTok aid
      (scopeFill (s.modTok aid specTransition))).modTok aid anonName).modTok cid
        specTransition) ctok).next = none := by
    rw [scopeFill_next, hcnext]
  simp only [storeAdaTags, h, h3, Option.getD_some,
    storeEmitOk_anonymous opts _ hek, Bool.false_eq_true, if_false, hech]
  simp only [storeAdaTagsChildren, hL2, hL1, hnext]
  refine ⟨_, rfl, ?_⟩
  simp [mkTagRecord, cfTN, hctn]

/-! ### Static-name ownership discipline of the emission pass -/

/-- Every aliased (static) name in the arena sits at an allowed id and
is resettable: an anonymous non-spec token whose name is exactly the
static `declare` keyword string. -/
def staticsOnly (A : Nat → Prop) (s : AdaState) : Prop :=
  ∀ i tokI, s.tok? i = some tokI → tokI.nameStatic = true →
    A i ∧ tokI.kind = AdaKind.ANONYMOUS ∧ tokI.isSpec = false ∧
    tokI.name = some (adaKeywords AdaKeyword.DECLARE)

theorem staticsOnly_mono (A B : Nat → Prop) (hAB : ∀ i, A i → B i)
    (s : AdaState) (h : staticsOnly A s) : staticsOnly B s := by
  intro i tokI hi hst
  obtain ⟨ha, r1, r2, r3⟩ := h i tokI hi hst
  exact ⟨hAB i ha, r1, r2, r3⟩

theorem staticsOnly_modTok (A : Nat → Prop) (s : AdaState) (id : Nat)
    (f : AdaTokenInfo → AdaTokenInfo) (hA : staticsOnly A s)
    (hf : ∀ x, s.tok? id = some x → (f x).nameStatic = true →
      A id ∧ (f x).kind = AdaKind.ANONYMOUS ∧ (f x).isSpec = false ∧
      (f x).name = some (adaKeywords AdaKeyword.DECLARE)) :
    staticsOnly A (s.modTok id f) := by
  intro i tokI hi hst
  by_cases hii : i = id
  · subst hii
    cases hx : s.tok? i with
    | none => rw [AdaState.modTok_of_dead _ _ _ hx, hx] at hi; cases hi
    | some x =>
      rw [AdaState.tok?_modTok_self _ _ _ _ hx] at hi
      cases hi
      exact hf x hx hst
  · rw [AdaState.tok?_modTok_ne _ _ _ _ hii] at hi
    exact hA i tokI hi hst

/-- The kind shift never produces the anonymous kind. -/
theorem makeSpec_ne_anon (k : AdaKind) : makeSpec k ≠ AdaKind.ANONYMOUS := by
  cases k <;> simp [makeSpec]

theorem specTransition_nameStatic (tok : AdaTokenInfo) :
    (specTransition tok).nameStatic = tok.nameStatic := by
  unfold specTransition
  split <;> rfl

/-- Clearing the declare name at any id removes that id from the
allowed-statics set, provided every static was resettable. -/
theorem staticsOnly_clear (A : Nat → Prop) (id : Nat) (s : AdaState)
    (h : staticsOnly (fun i => A i ∨ i = id) s) :
    staticsOnly A (s.modTok id clearDeclareName) := by
  have hstr : strncaseEq (adaKeywords AdaKeyword.DECLARE)
      (adaKeywords AdaKeyword.DECLARE) (adaKeywords AdaKeyword.DECLARE).length =
      true := by decide
  intro i tokI hi hst
  by_cases hii : i = id
  · subst hii
    cases hx : s.tok? i with
    | none => rw [AdaState.modTok_of_dead _ _ _ hx, hx] at hi; cases hi
    | some x =>
      rw [AdaState.tok?_modTok_self _ _ _ _ hx] at hi
      cases hi
      unfold clearDeclareName at hst
      split at hst
      · cases hst
      · rename_i hcond
        obtain ⟨-, hk, hsp, hnm⟩ := h i x hx hst
        exact absurd (by simp [hk, hnm, hstr]) hcond
  · rw [AdaState.tok?_modTok_ne _ _ _ _ hii] at hi
    obtain ⟨ha, r1, r2, r3⟩ := h i tokI hi hst
    rcases ha with ha | ha
    · exact ⟨ha, r1, r2, r3⟩
    · exact absurd ha hii

/-- A token that is still anonymous after the spec transition was not
spec-marked. -/
theorem anonName_fire_isSpec (s1 : AdaState) (tk : AdaTokenInfo)
    (hk : (scopeFill s1 (specTransition tk)).kind = AdaKind.ANONYMOUS) :
    (scopeFill s1 (specTransition tk)).isSpec = false := by
  obtain ⟨sfK, -, -, sfSp, -, -, -, -⟩ := scopeFill_fields s1 (specTransition tk)
  rw [sfK] at hk
  rw [sfSp]
  unfold specTransition at hk ⊢
  by_cases hsp : tk.isSpec = true
  · rw [if_pos hsp] at hk
    simp only at hk
    exact absurd hk (makeSpec_ne_anon _)
  · rw [if_neg hsp]
    simp only [Bool.not_eq_true] at hsp
    exact hsp

/-- The emission pass maintains the static-name discipline: every
static name it leaves in the arena was already allowed on entry and is
resettable; in particular, starting from an arena with no statics, the
walk ends with no statics. -/
theorem store_statics (fuel : Nat) :
    (∀ (opts : AdaOpts) (id : Nat) (ps : Option (List Char)) (s : AdaState)
      (A : Nat → Prop), staticsOnly A s →
      staticsOnly A (storeAdaTags fuel opts id ps s).1) ∧
    (∀ (opts : AdaOpts) (cur : Option Nat) (scope : Option (List Char)) (s : AdaState)
      (A : Nat → Prop), staticsOnly A s →
      staticsOnly A (storeAdaTagsChildren fuel opts cur scope s).1) := by
  induction fuel with
  | zero =>
    constructor
    · intro opts id ps s A hA i tokI hi hst
      exact hA i tokI hi hst
    · intro opts cur scope s A hA i tokI hi hst
      exact hA i tokI hi hst
  | succ fuel ih =>
    obtain ⟨ihT, ihC⟩ := ih
    constructor
    · intro opts id ps s A hA
      simp only [storeAdaTags]
      cases htk : s.tok? id with
      | none =>
        simp only [htk]
        exact hA
      | some tk =>
        simp only [htk]
        have h1 : (s.modTok id specTransition).tok? id = some (specTransition tk) :=
          AdaState.tok?_modTok_self _ _ _ _ htk
        have hA1 : staticsOnly A (s.modTok id specTransition) := by
          refine staticsOnly_modTok A s id specTransition hA ?_
          intro x hx hstx
          rw [specTransition_nameStatic] at hstx
          obtain ⟨ha, hk, hsp, hnm⟩ := hA id x hx hstx
          rw [specTransition_id x hsp]
          exact ⟨ha, hk, hsp, hnm⟩
        have h2 : ((s.modTok id specTransition).modTok id
            (scopeFill (s.modTok id specTransition))).tok? id =
            some (scopeFill (s.modTok id specTransition) (specTransition tk)) :=
          AdaState.tok?_modTok_self _ _ _ _ h1
        have hA2 : staticsOnly A ((s.modTok id specTransition).modTok id
            (scopeFill (s.modTok id specTransition))) := by
          refine staticsOnly_modTok A _ id _ hA1 ?_
          intro x hx hstx
          obtain ⟨sfK, -, sfN, sfSp, -, -, sfNS, -⟩ :=
            scopeFill_fields (s.modTok id specTransition) x
          rw [sfNS] at hstx
          obtain ⟨ha, hk, hsp, hnm⟩ := hA1 id x hx hstx
          exact ⟨ha, by rw [sfK, hk], by rw [sfSp, hsp], by rw [sfN, hnm]⟩
        have hA2' : staticsOnly (fun i => A i ∨ i = id)
            ((s.modTok id specTransition).modTok id
              (scopeFill (s.modTok id specTransition))) :=
          staticsOnly_mono A _ (fun i ha => Or.inl ha) _ hA2
        have hA3 : staticsOnly (fun i => A i ∨ i = id)
            (((s.modTok id specTransition).modTok id
              (scopeFill (s.modTok id specTransition))).modTok id anonName) := by
          refine staticsOnly_modTok _ _ id anonName hA2' ?_
          intro x hx hstx
          have hxe : x = scopeFill (s.modTok id specTransition) (specTransition tk) :=
            (Option.some.inj (h2.symm.trans hx)).symm
          subst hxe
          by_cases hcnd : (decide ((scopeFill (s.modTok id specTransition)
              (specTransition tk)).kind = AdaKind.ANONYMOUS) &&
              decide ((scopeFill (s.modTok id specTransition)
                (specTransition tk)).name = none)) = true
          · have hcnd' := hcnd
            simp only [Bool.and_eq_true, decide_eq_true_eq] at hcnd'
            obtain ⟨hkA, -⟩ := hcnd'
            have hfire : anonName (scopeFill (s.modTok id specTransition)
                (specTransition tk)) =
                { scopeFill (s.modTok id specTransition) (specTransition tk) with
                    name := some (adaKeywords AdaKeyword.DECLARE)
                    nameStatic := true
                    tagName := some (adaKeywords AdaKeyword.DECLARE) } := by
              unfold anonName
              rw [if_pos hcnd]
            rw [hfire]
            refine ⟨Or.inr rfl, ?_, ?_, rfl⟩
            · simpa using hkA
            · simpa using anonName_fire_isSpec (s.modTok id specTransition) tk hkA
          · have hid2 : anonName (scopeFill (s.modTok id specTransition)
                (specTransition tk)) =
                scopeFill (s.modTok id specTransition) (specTransition tk) := by
              unfold anonName
              rw [if_neg hcnd]
            rw [hid2]
            rw [hid2] at hstx
            exact hA2' id _ hx hstx
        apply staticsOnly_clear
        apply ihC
        split
        · split
          · split
            · refine staticsOnly_modTok _ _ id _ hA3 ?_
              intro x hx hstx
              obtain ⟨ha, hk, hsp, hnm⟩ := hA3 id x hx hstx
              exact ⟨ha, hk, hsp, hnm⟩
            · exact hA3
          · exact hA3
        · exact hA3
    · intro opts cur scope s A hA
      simp only [storeAdaTagsChildren]
      cases cur with
      | none => exact hA
      | some c =>
        exact ihC _ _ _ _ _ (ihT _ _ _ _ _ hA)

/-! ### Claim theorems -/

/-- A single-line cursor state over `l` with token arena `toks`. -/
def mkLineState (l : String) (toks : List (Option AdaTokenInfo)) : AdaState :=
  { input := []
    srcLine := 1
    filePosCtr := 1
    line := some l.data
    lineLen := (l.data.length : Int)
    pos := 0
    exception := false
    eofCount := 0
    aborted := false
    fuelOut := false
    matchLineNum := 0
    matchFilePos := 0
    tokens := toks }

/-- A cursor sitting on a bare `;`, two tokens live. -/
def semiLineState : AdaState := mkLineState ";" [some default, some default]

/-- A cursor sitting on `is separate;`, two tokens live. -/
def sepLineState : AdaState := mkLineState "is separate;" [some default, some default]

/-- A cursor with the line buffer already exhausted for good. -/
def noLineState : AdaState := { mkLineState "" [some default, some default] with line := none }

/-- A state in which the EOF exception is already pending. -/
def eofPendingState : AdaState :=
  { mkLineState "x" [some default, some default] with exception := true }

/-- A live spec-marked package token named `P`. -/
def pkgSpecTok : AdaTokenInfo :=
  { (default : AdaTokenInfo) with
                 kind := AdaKind.PACKAGE
                 isSpec := true
                 isPrivate := false
                 name := some "P".data
                 tagName := some "P".data
                 tagKind := some AdaKind.PACKAGE }

/-- An arena holding `pkgSpecTok` at id 1. -/
def specArena : AdaState := mkLineState "" [some default, some pkgSpecTok]

/-- An arena holding `pkgSpecTok` at id 0 (a parent for file-scope tests). -/
def pkgParentArena : AdaState := mkLineState "" [some pkgSpecTok]

/-- Claim C1: a package/task/protected/subprogram declaration with no
`body` keyword whose search loop reaches the terminating `;` (without
descending into a declarative part) returns its own token with the
`isSpec` flag set, and at emission a spec-marked token of one of those
kinds is emitted first in its subtree with its kind shifted to the
paired "-spec" variant by `makeSpec`. -/
theorem ada_c1_spec_marking :
    (∀ (fuel parent tid : Nat) (s : AdaState) (t : Option Nat) (s' : AdaState),
      adaParseBlockLoop fuel parent tid s = (t, ExitVia.viaSemi, s') →
      t = some tid ∧ ∀ tok, s'.tok? tid = some tok → tok.isSpec = true) ∧
    (∀ (fuel parent tid : Nat) (s : AdaState) (t : Option Nat) (s' : AdaState),
      adaParseSubprogramLoop fuel parent tid s = (t, ExitVia.viaSemi, s') →
      t = some tid ∧ ∀ tok, s'.tok? tid = some tok → tok.isSpec = true) ∧
    (∀ (fuel : Nat) (opts : AdaOpts) (id : Nat) (ps : Option (List Char))
      (s : AdaState) (tok : AdaTokenInfo) (nm : List Char),
      s.tok? id = some tok → tok.isSpec = true →
      (tok.kind = AdaKind.PACKAGE ∨ tok.kind = AdaKind.SUBPROGRAM ∨
       tok.kind = AdaKind.TASK ∨ tok.kind = AdaKind.PROTECTED) →
      tok.name = some nm → opts.fileScope = true →
      ∃ r rest, (storeAdaTags (fuel + 1) opts id ps s).2 = r :: rest ∧
        r.kind = some (makeSpec tok.kind)) :=
  ⟨adaParseBlockLoop_semi, adaParseSubprogramLoop_semi,
   fun fuel opts id ps s tok nm h1 h2 h3 h4 h5 =>
     storeAdaTags_spec_head fuel opts id ps s tok nm h1 h2 h3 h4 h5⟩

/-- Claim C1 witness: on a concrete cursor sitting on `;` the block
search loop returns its token, and a concrete spec-marked package token
is emitted as a package-spec. -/
theorem ada_c1_spec_marking_witness :
    (adaParseBlockLoop 2 0 1 semiLineState).1 = some 1 ∧
    (∃ r rest, (storeAdaTags 1 ⟨true, true⟩ 1 none specArena).2 = r :: rest ∧
      r.kind = some (makeSpec AdaKind.PACKAGE)) := by
  constructor
  · exact (ada_c1_spec_marking.1 2 0 1 semiLineState
      (adaParseBlockLoop 2 0 1 semiLineState).1
      (adaParseBlockLoop 2 0 1 semiLineState).2.2 (by rfl)).1
  · exact ada_c1_spec_marking.2.2 0 ⟨true, true⟩ 1 none specArena pkgSpecTok
      "P".data (by rfl) (by rfl) (Or.inl (by rfl)) (by rfl) (by rfl)

/-- A live placeholder token of kind `SEPARATE` named `O`. -/
def sepParentTok : AdaTokenInfo :=
  { (default : AdaTokenInfo) with
                 kind := AdaKind.SEPARATE
                 name := some "O".data
                 tagName := some "O".data }

/-- An arena holding `sepParentTok` at id 0. -/
def sepParentArena : AdaState := mkLineState "" [some sepParentTok]

/-- A child token parented under the separate placeholder. -/
def sepChildTok : AdaTokenInfo :=
  { (default : AdaTokenInfo) with
                 kind := AdaKind.SUBPROGRAM
                 name := some "P".data
                 tagName := some "P".data
                 parent := some 0 }

/-- Claim C2: a block or subprogram whose body reads `is separate` is
destroyed (its id is dead afterwards and `none` is returned), a dead id
yields no emitted records, and a token whose parent is a `separate`
placeholder is emitted with scope prefix `separate:<name>`; concretely,
a file `separate (O)` followed by `procedure P;` emits `P` with scope
`separate:O`. -/
theorem ada_c2_separate :
    (∀ (fuel parent tid : Nat) (s : AdaState) (t : Option Nat) (s' : AdaState),
      adaParseBlockLoop fuel parent tid s = (t, ExitVia.viaSeparate, s') →
      t = none ∧ s'.tok? tid = none) ∧
    (∀ (fuel parent tid : Nat) (s : AdaState) (t : Option Nat) (s' : AdaState),
      adaParseSubprogramLoop fuel parent tid s = (t, ExitVia.viaSeparate, s') →
      t = none ∧ s'.tok? tid = none) ∧
    (∀ (fuel : Nat) (opts : AdaOpts) (id : Nat) (ps : Option (List Char))
      (s : AdaState), s.tok? id = none → (storeAdaTags fuel opts id ps s).2 = []) ∧
    (∀ (s : AdaState) (tok : AdaTokenInfo) (p : Nat) (ptok : AdaTokenInfo),
      tok.parent = some p → s.tok? p = some ptok → ptok.kind = AdaKind.SEPARATE →
      (scopeFill s tok).scopeKind = some (adaKeywords AdaKeyword.SEPARATE) ∧
      (scopeFill s tok).scopeName = ptok.name) ∧
    ((adaTags 7 ⟨true, false⟩ ["separate (O)", "procedure P;"]).map (fun r =>
        (r.name, r.scopeKind, r.scopeName)) =
      [("P".data, some "separate".data, some "O".data)]) :=
  ⟨adaParseBlockLoop_separate, adaParseSubprogramLoop_separate, storeAdaTags_dead,
   fun s tok p ptok h1 h2 h3 => scopeFill_separate s tok p ptok h1 h2 h3,
   by decide⟩

/-- Claim C2 witness: a concrete block whose cursor reads `is separate;`
is destroyed, and a concrete child of a `separate` placeholder gets the
`separate:O` scope. -/
theorem ada_c2_separate_witness :
    (adaParseBlockLoop 6 0 1 sepLineState).1 = none ∧
    ((adaParseBlockLoop 6 0 1 sepLineState).2.2).tok? 1 = none ∧
    (scopeFill sepParentArena sepChildTok).scopeKind =
      some (adaKeywords AdaKeyword.SEPARATE) ∧
    (scopeFill sepParentArena sepChildTok).scopeName = some "O".data := by
  obtain ⟨h1, h2⟩ := ada_c2_separate.1 6 0 1 sepLineState
    (adaParseBlockLoop 6 0 1 sepLineState).1
    (adaParseBlockLoop 6 0 1 sepLineState).2.2 (by rfl)
  obtain ⟨h3, h4⟩ := ada_c2_separate.2.2.2.1 sepParentArena sepChildTok 0
    sepParentTok (by rfl) (by rfl) (by rfl)
  exact ⟨h1, h2, h3, h4⟩

/-- Claim C3: contrary to the stated property (and to the code's own
comment), the parameter-mode keyword `in` IS emitted as a name when it
is followed by a comma: in the variable list `in, X : Integer;` the
second scan's word-end test uses `cmp`, whose word-boundary set lacks
`,` and the NUL padding, so the word `in` fails the keyword test and a
node named `in` of kind variable is created alongside `X`. -/
theorem ada_c3_in_keyword_emitted :
    (((adaParseVariables 20 (mkLineState "in, X : Integer;" [some default])
        (some 0) AdaKind.VARIABLE).2.tokens.map
      (fun o => o.bind (fun t => t.name))) =
      [none, some "in".data, some "X".data]) ∧
    (((adaParseVariables 20 (mkLineState "in, X : Integer;" [some default])
        (some 0) AdaKind.VARIABLE).2.tokens.map
      (fun o => o.map (fun t => t.kind))) =
      [some AdaKind.UNDEFINED, some AdaKind.VARIABLE, some AdaKind.VARIABLE]) := by
  constructor
  · decide
  · decide

/-- Claim C4: a node's file-scope flag is computed exactly once, at
creation, from the parent's kind/spec/privacy at that moment
(`adaFileScope`); creating a node never changes the flags of existing
nodes; marking a parent private changes no existing flag; after the
parent is marked private a later-created child is file-scoped, while
under a non-private package spec it is not. -/
theorem ada_c4_file_scope :
    (∀ (s : AdaState) (name : Option (List Char)) (len : Int) (kind : AdaKind)
       (isSpec : Bool) (parent : Option Nat),
       fsAt (newAdaToken s name len kind isSpec parent).2
           (newAdaToken s name len kind isSpec parent).1 =
         some (adaFileScope s parent)) ∧
    (∀ (s : AdaState) (name : Option (List Char)) (len : Int) (kind : AdaKind)
       (isSpec : Bool) (parent : Option Nat) (j : Nat), j < s.tokens.length →
       fsAt (newAdaToken s name len kind isSpec parent).2 j = fsAt s j) ∧
    (∀ (s : AdaState) (p j : Nat),
       fsAt (s.modTok p (fun t => { t with isPrivate := true })) j = fsAt s j) ∧
    (∀ (s : AdaState) (p : Nat) (ptok : AdaTokenInfo), s.tok? p = some ptok →
       adaFileScope (s.modTok p (fun t => { t with isPrivate := true }))
         (some p) = true) ∧
    (∀ (s : AdaState) (p : Nat) (ptok : AdaTokenInfo), s.tok? p = some ptok →
       ptok.isPrivate = false → ptok.isSpec = true → ptok.kind = AdaKind.PACKAGE →
       adaFileScope s (some p) = false) :=
  ⟨newAdaToken_isFileScope, fsAt_newAdaToken_old, fsAt_setPrivate,
   adaFileScope_private, adaFileScope_packageSpec⟩

/-- Claim C4 witness: under a concrete non-private package spec a new
child is not file-scoped, creating it does not change the parent's
flag, and after marking the parent private a child would be
file-scoped. -/
theorem ada_c4_file_scope_witness :
    fsAt (newAdaToken pkgParentArena (some "X".data) 1 AdaKind.VARIABLE false
        (some 0)).2 0 = fsAt pkgParentArena 0 ∧
    adaFileScope pkgParentArena (some 0) = false ∧
    adaFileScope (pkgParentArena.modTok 0 (fun t => { t with isPrivate := true }))
      (some 0) = true := by
  refine ⟨?_, ?_, ?_⟩
  · exact ada_c4_file_scope.2.1 pkgParentArena (some "X".data) 1 AdaKind.VARIABLE
      false (some 0) 0 (by decide)
  · exact ada_c4_file_scope.2.2.2.2 pkgParentArena 0 pkgSpecTok (by rfl) (by rfl)
      (by rfl) (by rfl)
  · exact ada_c4_file_scope.2.2.2.1 pkgParentArena 0 pkgSpecTok (by rfl)

/-- A childless anonymous block token. -/
def anonTok : AdaTokenInfo :=
  { (default : AdaTokenInfo) with
                 kind := AdaKind.ANONYMOUS
                 parent := some 0 }

/-- An anonymous block token with one child at id 2. -/
def anonParentTok : AdaTokenInfo :=
  { (default : AdaTokenInfo) with
                 kind := AdaKind.ANONYMOUS
                 parent := some 0
                 childHead := some 2
                 childTail := some 2
                 numTokens := 1 }

/-- A leaf variable token named `V`, child of the anonymous block. -/
def varChildTok : AdaTokenInfo :=
  { (default : AdaTokenInfo) with
                 kind := AdaKind.VARIABLE
                 name := some "V".data
                 tagName := some "V".data
                 tagKind := some AdaKind.VARIABLE
                 parent := some 1 }

/-- Arena: root, childless anonymous block at id 1. -/
def anonEmptyArena : AdaState := mkLineState "" [some default, some anonTok]

/-- Arena: root, anonymous block at id 1, variable `V` at id 2. -/
def anonOneVarArena : AdaState :=
  mkLineState "" [some default, some anonParentTok, some varChildTok]

/-- Claim C5: an anonymous declare/begin block node with no recognized
child declarations emits no records at all; the anonymous kind never
passes the emission guard (so the block itself is never emitted); and a
block containing exactly one recognized leaf variable emits exactly one
record, the variable's. -/
theorem ada_c5_anonymous_blocks :
    (∀ (fuel : Nat) (opts : AdaOpts) (id : Nat) (ps : Option (List Char))
       (s : AdaState) (tok : AdaTokenInfo),
       s.tok? id = some tok → tok.kind = AdaKind.ANONYMOUS →
       tok.isSpec = false → tok.childHead = none →
       (storeAdaTags (fuel + 1) opts id ps s).2 = []) ∧
    (∀ (opts : AdaOpts) (tok : AdaTokenInfo),
       tok.kind = AdaKind.ANONYMOUS → storeEmitOk opts tok = false) ∧
    (∀ (fuel : Nat) (opts : AdaOpts) (aid cid : Nat) (ps : Option (List Char))
       (s : AdaState) (tok ctok : AdaTokenInfo) (nm : List Char),
       cid ≠ aid → s.tok? aid = some tok → tok.kind = AdaKind.ANONYMOUS →
       tok.isSpec = false → tok.childHead = some cid →
       s.tok? cid = some ctok → ctok.kind = AdaKind.VARIABLE →
       ctok.isSpec = false → ctok.tagName = some nm → ctok.name ≠ none →
       ctok.childHead = none → ctok.next = none → opts.fileScope = true →
       ∃ r, (storeAdaTags (fuel + 3) opts aid ps s).2 = [r] ∧ r.name = nm) :=
  ⟨fun fuel opts id ps s tok h hk hs hch =>
     storeAdaTags_anon_childless fuel opts id ps s tok h hk hs hch,
   storeEmitOk_anonymous,
   fun fuel opts aid cid ps s tok ctok nm hne h hk hs hch hc hck hcs hctn hcn
       hcch hcnext hfs =>
     storeAdaTags_anon_one_var fuel opts aid cid ps s tok ctok nm hne h hk hs
       hch hc hck hcs hctn hcn hcch hcnext hfs⟩

/-- Claim C5 witness: a concrete childless anonymous block emits
nothing, and a concrete block with one variable `V` emits exactly the
record named `V`. -/
theorem ada_c5_anonymous_blocks_witness :
    (storeAdaTags 1 ⟨true, false⟩ 1 none anonEmptyArena).2 = [] ∧
    (∃ r, (storeAdaTags 3 ⟨true, false⟩ 1 none anonOneVarArena).2 = [r] ∧
      r.name = "V".data) := by
  constructor
  · exact ada_c5_anonymous_blocks.1 0 ⟨true, false⟩ 1 none anonEmptyArena anonTok
      (by rfl) (by rfl) (by rfl) (by rfl)
  · exact ada_c5_anonymous_blocks.2.2 0 ⟨true, false⟩ 1 2 none anonOneVarArena
      anonParentTok varChildTok "V".data (by decide) (by rfl) (by rfl) (by rfl)
      (by rfl) (by rfl) (by rfl) (by rfl) (by rfl) (by decide) (by rfl) (by rfl)
      (by rfl)

/-- Claim C6 counterexample: end-of-input mid-construct does NOT
uniformly discard the node being built — with the EOF exception
pending, the subprogram search loop returns its token (not `NULL`) and
leaves the arena untouched, so the subprogram node stays in the tree. -/
theorem ada_c6_counterexample :
    adaParseSubprogramLoop 1 0 1 eofPendingState =
      (some 1, ExitVia.viaEof, eofPendingState) ∧
    eofPendingState.tok? 1 ≠ none := by
  constructor
  · rfl
  · decide

/-- Claim C6 (amended): on end-of-input, the block search loop frees
its token and returns `NULL`, but the subprogram search loop exits
returning its token with the arena unchanged — only the block parser
discards its incomplete node. -/
theorem ada_c6_eof_behavior :
    (∀ (fuel parent tid : Nat) (s : AdaState) (t : Option Nat) (s' : AdaState),
      adaParseBlockLoop fuel parent tid s = (t, ExitVia.viaEof, s') →
      t = none ∧ s'.tok? tid = none) ∧
    (∀ (fuel parent tid : Nat) (s : AdaState) (t : Option Nat) (s' : AdaState),
      adaParseSubprogramLoop fuel parent tid s = (t, ExitVia.viaEof, s') →
      t = some tid ∧ s'.tokens = s.tokens) :=
  ⟨adaParseBlockLoop_eof, adaParseSubprogramLoop_eof⟩

/-- Claim C6 witness: on concrete exhausted inputs the block loop
discards (returns `NULL`) while the subprogram loop returns its
token. -/
theorem ada_c6_eof_behavior_witness :
    (adaParseBlockLoop 4 0 1 noLineState).1 = none ∧
    (adaParseSubprogramLoop 1 0 1 eofPendingState).1 = some 1 := by
  constructor
  · exact (ada_c6_eof_behavior.1 4 0 1 noLineState
      (adaParseBlockLoop 4 0 1 noLineState).1
      (adaParseBlockLoop 4 0 1 noLineState).2.2 (by rfl)).1
  · exact (ada_c6_eof_behavior.2 1 0 1 eofPendingState
      (adaParseSubprogramLoop 1 0 1 eofPendingState).1
      (adaParseSubprogramLoop 1 0 1 eofPendingState).2.2 (by rfl)).1

/-- A state at exhausted input with 999 consecutive EOF signals
counted. -/
def almostAbortState : AdaState :=
  { mkLineState "" [some default] with
      line := none
      eofCount := 999 }

/-- A state with the abort flag raised. -/
def abortedState : AdaState := { mkLineState "" [some default] with aborted := true }

/-- Claim C7: at exhausted input `readNewLine` counts the consecutive
EOF signal, raises the persistent EOF exception, and sets the abort
flag exactly when the count reaches the fixed threshold 1000; once
aborted, the top-level tokenize loop stops in one step with the state
untouched; and the emission pass is insensitive to the abort flag, so
the tags collected before the abort are still emitted. -/
theorem ada_c7_eof_guard :
    (∀ (s : AdaState), s.aborted = false → s.fuelOut = false → s.input = [] →
      (readNewLine s).eofCount = s.eofCount + 1 ∧
      (readNewLine s).exception = true ∧
      (readNewLine s).aborted = decide (1000 ≤ s.eofCount + 1) ∧
      (readNewLine s).tokens = s.tokens) ∧
    (∀ (fuel : Nat) (s : AdaState), s.aborted = true →
      findAdaTagsLoop (fuel + 1) s = s) ∧
    (∀ (fuel : Nat) (opts : AdaOpts) (id : Nat) (ps : Option (List Char))
      (s : AdaState),
      (storeAdaTags fuel opts id ps { s with aborted := true }).2 =
        (storeAdaTags fuel opts id ps s).2) :=
  ⟨fun s hab hfo hin => readNewLine_exhausted s hab hfo hin,
   fun fuel s hab => findAdaTagsLoop_aborted fuel s hab,
   fun fuel opts id ps s => by
     rw [(store_aborted_transparent fuel).1 opts id ps s]⟩

/-- Claim C7 witness: with 999 EOF signals already counted, one more
read aborts with the counter at 1000; an aborted state stops the
tokenize loop immediately; and a concrete emission run is unchanged by
the abort flag. -/
theorem ada_c7_eof_guard_witness :
    (readNewLine almostAbortState).aborted = true ∧
    (readNewLine almostAbortState).eofCount = 1000 ∧
    findAdaTagsLoop 3 abortedState = abortedState ∧
    (storeAdaTags 1 ⟨true, false⟩ 0 none
        { specArena with aborted := true }).2 =
      (storeAdaTags 1 ⟨true, false⟩ 0 none specArena).2 := by
  have h := ada_c7_eof_guard.1 almostAbortState (by rfl) (by rfl) (by rfl)
  refine ⟨?_, ?_, ?_, ?_⟩
  · exact h.2.2.1.trans (by decide)
  · exact h.1
  · exact ada_c7_eof_guard.2.1 2 abortedState (by rfl)
  · exact ada_c7_eof_guard.2.2 1 ⟨true, false⟩ 0 none specArena

/-- The stack root with one child, the outer package. -/
def nestedRootTok : AdaTokenInfo :=
  { (default : AdaTokenInfo) with
                 childHead := some 1
                 childTail := some 1
                 numTokens := 1 }

/-- The spec-marked package token `Outer` with one child. -/
def outerPkgTok : AdaTokenInfo :=
  { (default : AdaTokenInfo) with
                 kind := AdaKind.PACKAGE
                 isSpec := true
                 name := some "Outer".data
                 tagName := some "Outer".data
                 tagKind := some AdaKind.PACKAGE
                 lineNumber := 1
                 parent := some 0
                 childHead := some 2
                 childTail := some 2
                 numTokens := 1 }

/-- The spec-marked package token `Inner`, child of `Outer`. -/
def innerPkgTok : AdaTokenInfo :=
  { (default : AdaTokenInfo) with
                 kind := AdaKind.PACKAGE
                 isSpec := true
                 name := some "Inner".data
                 tagName := some "Inner".data
                 tagKind := some AdaKind.PACKAGE
                 lineNumber := 1
                 parent := some 1 }

/-- The token tree the parse of `package Outer is package Inner is end
Inner; end Outer;` commits: root, `Outer` spec, `Inner` spec nested. -/
def nestedPkgArena : AdaState :=
  mkLineState "" [some nestedRootTok, some outerPkgTok, some innerPkgTok]

/-- Claim C8 counterexample: with qualified-name duplication enabled,
emitting the nested `Outer`/`Inner` package-spec tree produces THREE
records, not four — the top-level `Outer` has no parent scope, so it
gets no qualified duplicate. -/
theorem ada_c8_counterexample :
    (storeAdaTagsChildren 5 ⟨true, true⟩ (some 1) none nestedPkgArena).2.length =
      3 := by
  decide

/-- Claim C8 (amended): with qualified-name duplication enabled the
nested `Outer`/`Inner` package-spec tree yields exactly three tags —
`Outer` once, and for `Inner` the two tags `Inner` and `Outer.Inner`,
all package-spec at the same line; with duplication disabled only the
plain-name tags `Outer` and `Inner` are produced. -/
theorem ada_c8_nested_package_tags :
    ((storeAdaTagsChildren 5 ⟨true, true⟩ (some 1) none nestedPkgArena).2.map
      (fun r => (r.name, r.kind, r.lineNumber)) =
      [("Outer".data, some AdaKind.PACKAGE_SPEC, 1),
       ("Inner".data, some AdaKind.PACKAGE_SPEC, 1),
       ("Outer.Inner".data, some AdaKind.PACKAGE_SPEC, 1)]) ∧
    ((storeAdaTagsChildren 5 ⟨true, false⟩ (some 1) none nestedPkgArena).2.map
      (fun r => (r.name, r.kind, r.lineNumber)) =
      [("Outer".data, some AdaKind.PACKAGE_SPEC, 1),
       ("Inner".data, some AdaKind.PACKAGE_SPEC, 1)]) := by
  constructor
  · decide
  · decide

/-- Claim C10: the static `declare` placeholder name that the emission
pass gives an anonymous block is reset before the pass returns: an
arena with no static names has none after any `storeAdaTags` walk (so
the deallocator that follows never sees the static keyword string), and
the set/reset pair is exact — `anonName` marks the alias, and
`clearDeclareName` removes both the alias flag and the name. -/
theorem ada_c10_static_name_reset :
    (∀ (fuel : Nat) (opts : AdaOpts) (id : Nat) (ps : Option (List Char))
      (s : AdaState),
      (∀ i tokI, s.tok? i = some tokI → tokI.nameStatic = false) →
      ∀ i tokI, (storeAdaTags fuel opts id ps s).1.tok? i = some tokI →
        tokI.nameStatic = false) ∧
    (∀ tok : AdaTokenInfo, tok.kind = AdaKind.ANONYMOUS → tok.name = none →
      (anonName tok).nameStatic = true ∧
      (clearDeclareName (anonName tok)).nameStatic = false ∧
      (clearDeclareName (anonName tok)).name = none) := by
  constructor
  · intro fuel opts id ps s h i tokI hi
    have hS : staticsOnly (fun _ => False) s := by
      intro j tj hj hstj
      rw [h j tj hj] at hstj
      cases hstj
    have hres := (store_statics fuel).1 opts id ps s (fun _ => False) hS
    cases hb : tokI.nameStatic with
    | false => rfl
    | true => exact ((hres i tokI hi hb).1).elim
  · intro tok hk hn
    have hcnd : (decide (tok.kind = AdaKind.ANONYMOUS) &&
        decide (tok.name = none)) = true := by
      simp [hk, hn]
    have hfire : anonName tok =
        { tok with name := some (adaKeywords AdaKeyword.DECLARE)
                   nameStatic := true
                   tagName := some (adaKeywords AdaKeyword.DECLARE) } := by
      unfold anonName
      rw [if_pos hcnd]
    have hstr : strncaseEq (adaKeywords AdaKeyword.DECLARE)
        (adaKeywords AdaKeyword.DECLARE)
        (adaKeywords AdaKeyword.DECLARE).length = true := by decide
    have hclr : clearDeclareName
        { tok with name := some (adaKeywords AdaKeyword.DECLARE)
                   nameStatic := true
                   tagName := some (adaKeywords AdaKeyword.DECLARE) } =
        { tok with name := none
                   nameStatic := false
                   tagName := none } := by
      unfold clearDeclareName
      rw [if_pos (by simp [hk, hstr])]
    refine ⟨?_, ?_, ?_⟩
    · rw [hfire]
    · rw [hfire, hclr]
    · rw [hfire, hclr]

/-- Claim C10 witness: a concrete emission run over an arena with no
static names leaves none, and the concrete anonymous token's set/reset
pair behaves as stated. -/
theorem ada_c10_static_name_reset_witness :
    (((storeAdaTags 1 ⟨true, false⟩ 1 none anonEmptyArena).1.tok? 1).all
      (fun t => !t.nameStatic)) = true ∧
    (anonName anonTok).nameStatic = true ∧
    (clearDeclareName (anonName anonTok)).nameStatic = false := by
  refine ⟨?_, ?_, ?_⟩
  · have hno : ∀ i tokI, anonEmptyArena.tok? i = some tokI →
        tokI.nameStatic = false := by
      intro i tokI hi
      match i with
      | 0 => cases hi; rfl
      | 1 => cases hi; rfl
      | n + 2 => exact Option.noConfusion hi
    have H := ada_c10_static_name_reset.1 1 ⟨true, false⟩ 1 none anonEmptyArena hno
    cases hres : (storeAdaTags 1 ⟨true, false⟩ 1 none anonEmptyArena).1.tok? 1 with
    | none => rfl
    | some t => simp [H 1 t hres]
  · exact (ada_c10_static_name_reset.2 anonTok (by rfl) (by rfl)).1
  · exact (ada_c10_static_name_reset.2 anonTok (by rfl) (by rfl)).2.1

/-! ### The children-list invariant -/

/-- The sibling chain anchored at `cur` (whose back pointer must be
`prev`) consists of exactly the ids `l`, each live with its parent
back-reference at `p` and consistent prev/next links. -/
def chainIs (s : AdaState) (p : Nat) : Option Nat → Option Nat → List Nat → Prop
  | _, cur, [] => cur = none
  | prev, cur, i :: rest =>
      cur = some i ∧ ∃ tok, s.tok? i = some tok ∧ tok.parent = some p ∧
        tok.prev = prev ∧ chainIs s p (some i) tok.next rest

/-- The children-list invariant at node `p`: the child list is the
doubly-linked chain `l` from `childHead`, `childTail` is its last
element, and `numTokens` counts it. -/
def childrenAre (s : AdaState) (p : Nat) (l : List Nat) : Prop :=
  ∃ ptok, s.tok? p = some ptok ∧ chainIs s p none ptok.childHead l ∧
    ptok.childTail = l.getLast? ∧ ptok.numTokens = (l.length : Int)

/-- A chain only depends on the tokens of its members. -/
theorem chainIs_congr (s s' : AdaState) (p : Nat) :
    ∀ (l : List Nat) (prev cur : Option Nat),
    (∀ i, i ∈ l → s'.tok? i = s.tok? i) →
    chainIs s p prev cur l → chainIs s' p prev cur l := by
  intro l
  induction l with
  | nil => intro prev cur hf h; exact h
  | cons i rest ih =>
    intro prev cur hf h
    obtain ⟨hc, tok, hi, hpar, hprev, hrest⟩ := h
    exact ⟨hc, tok, by rw [hf i (List.mem_cons_self i rest)]; exact hi, hpar, hprev,
      ih (some i) tok.next (fun j hj => hf j (List.mem_cons_of_mem i hj)) hrest⟩

/-- Every member of a chain is live. -/
theorem chainIs_live (s : AdaState) (p : Nat) :
    ∀ (l : List Nat) (prev cur : Option Nat), chainIs s p prev cur l →
    ∀ i, i ∈ l → ∃ tok, s.tok? i = some tok := by
  intro l
  induction l with
  | nil => intro prev cur h i hi; cases hi
  | cons j rest ih =>
    intro prev cur h i hi
    obtain ⟨hc, tok, hj, -, -, hrest⟩ := h
    rcases List.mem_cons.mp hi with hij | hir
    · exact ⟨tok, hij ▸ hj⟩
    · exact ih (some j) tok.next hrest i hir

/-- Extending a chain by one fresh element `t` linked behind the old
last element. -/
theorem chainIs_snoc (s s' : AdaState) (p t : Nat) :
    ∀ (l : List Nat) (prev cur : Option Nat),
    chainIs s p prev cur l → l ≠ [] → l.Nodup → t ∉ l →
    (∀ tl, l.getLast? = some tl → ∃ x, s.tok? tl = some x ∧
      s'.tok? tl = some { x with next := some t }) →
    (∀ i, i ∈ l → l.getLast? ≠ some i → s'.tok? i = s.tok? i) →
    (∃ x', s'.tok? t = some x' ∧ x'.parent = some p ∧ x'.prev = l.getLast? ∧
      x'.next = none) →
    chainIs s' p prev cur (l ++ [t]) := by
  intro l
  induction l with
  | nil => intro prev cur h hne; exact absurd rfl hne
  | cons i rest ih =>
    intro prev cur h hne hnd hti hlast hmid htt
    obtain ⟨hc, tok, hi, hpar, hprev, hrest⟩ := h
    cases rest with
    | nil =>
      obtain ⟨x, hx, hx'⟩ := hlast i rfl
      rw [hi] at hx
      cases hx
      obtain ⟨x', hxt, hp', hpr', hnx'⟩ := htt
      refine ⟨hc, _, hx', hpar, hprev, ?_⟩
      simp only [List.nil_append]
      exact ⟨rfl, x', hxt, hp', by rw [hpr']; simp, hnx'⟩
    | cons j rest2 =>
      have hlast2 : (i :: j :: rest2).getLast? = (j :: rest2).getLast? := by
        simp [List.getLast?]
      have hine : (j :: rest2).getLast? ≠ some i := by
        intro hcontra
        have hmem : i ∈ j :: rest2 := by
          obtain ⟨hne2, heq⟩ := List.mem_getLast?_eq_getLast
            (l := j :: rest2) (x := i) (Option.mem_def.mpr hcontra)
          rw [heq]
          exact List.getLast_mem hne2
        exact (List.nodup_cons.mp hnd).1 hmem
      refine ⟨hc, tok, ?_, hpar, hprev, ?_⟩
      · rw [hmid i (List.mem_cons_self i _) (by rw [hlast2]; exact hine)]
        exact hi
      · refine ih (some i) tok.next hrest (by simp) (List.nodup_cons.mp hnd).2
          (fun hmem => hti (List.mem_cons_of_mem i hmem)) ?_ ?_ ?_
        · intro tl htl
          exact hlast tl (by rw [hlast2]; exact htl)
        · intro k hk hkl
          exact hmid k (List.mem_cons_of_mem i hk) (by rw [hlast2]; exact hkl)
        · obtain ⟨x', hxt, hp', hpr', hnx'⟩ := htt
          exact ⟨x', hxt, hp', by rw [hpr', hlast2], hnx'⟩

/-- `appendAdaToken` preserves the children-list invariant: appending a
fresh live token to `p`'s list extends the chain at the tail, sets the
token's parent back-reference, and bumps the count. -/
theorem appendAdaToken_children (s : AdaState) (p t : Nat) (l : List Nat)
    (ttok : AdaTokenInfo)
    (h : childrenAre s p l) (ht : s.tok? t = some ttok)
    (hfresh : t ∉ l) (htp : t ≠ p) (hpl : p ∉ l) (hnd : l.Nodup) :
    childrenAre (appendAdaToken s (some p) (some t)) p (l ++ [t]) := by
  obtain ⟨ptok, hp, hchain, htail, hnum⟩ := h
  have hplen : p < s.tokens.length := AdaState.tok?_lt_length s p ptok hp
  have htlen : t < s.tokens.length := AdaState.tok?_lt_length s t ttok ht
  unfold appendAdaToken
  simp only [hp, ht]
  rcases hct : ptok.childTail with - | tl
  · -- empty list: the chain was empty
    rw [hct] at htail
    have hlnil : l = [] := by
      cases l with
      | nil => rfl
      | cons a as => simp [List.getLast?_eq_getLast_of_ne_nil (l := a :: as)
          (by simp)] at htail
    subst hlnil
    have hhd : ptok.childHead = none := hchain
    dsimp only
    have hs1t : ((s.setTok t { ttok with parent := some p, prev := none, next := none }).tok? t) = some { ttok with parent := some p, prev := none, next := none } := AdaState.tok?_setTok_self s t _ htlen
    have hs1p : ((s.setTok t { ttok with parent := some p, prev := none, next := none }).tok? p) = some ptok := by
      rw [AdaState.tok?_setTok_ne s t p _ (Ne.symm htp)]
      exact hp
    refine ⟨_, AdaState.tok?_setTok_self _ p _ (by
      rw [AdaState.tokens_setTok_length]; exact hplen), ?_, ?_, ?_⟩
    · simp only [hs1p, Option.getD_some, hhd, List.nil_append, eq_self_iff_true,
        if_true]
      refine ⟨rfl, { ttok with parent := some p, prev := none, next := none },
        ?_, rfl, rfl, rfl⟩
      rw [AdaState.tok?_setTok_ne _ p t _ htp]
      exact hs1t
    · simp [hs1p]
    · simp [hs1p]
      rw [hnum]
      rfl
  · -- non-empty list: the old tail exists
    rw [hct] at htail
    have hlne : l ≠ [] := by
      intro hcontra
      subst hcontra
      cases htail
    have htlmem : tl ∈ l := by
      obtain ⟨hne2, heq⟩ := List.mem_getLast?_eq_getLast
        (l := l) (x := tl) (Option.mem_def.mpr htail.symm)
      rw [heq]
      exact List.getLast_mem hne2
    have htlp : tl ≠ p := fun hcontra => hpl (hcontra ▸ htlmem)
    have htlt : tl ≠ t := fun hcontra => hfresh (hcontra ▸ htlmem)
    obtain ⟨xtl, hxtl⟩ := chainIs_live s p l none ptok.childHead hchain tl htlmem
    have hhd : ptok.childHead ≠ none := by
      cases l with
      | nil => exact absurd rfl hlne
      | cons a as =>
        obtain ⟨hc, -⟩ := hchain
        rw [hc]
        simp
    dsimp only
    have hs1tl : ((s.setTok t { ttok with parent := some p, prev := some tl, next := none }).tok? tl) = some xtl := by
      rw [AdaState.tok?_setTok_ne s t tl _ htlt]
      exact hxtl
    have hs2tl : (((s.setTok t { ttok with parent := some p, prev := some tl, next := none }).modTok tl (fun x => { x with next := some t })).tok? tl) = some { xtl with next := some t } :=
      AdaState.tok?_modTok_self _ tl _ xtl hs1tl
    have hs2p : (((s.setTok t { ttok with parent := some p, prev := some tl, next := none }).modTok tl (fun x => { x with next := some t })).tok? p) = some ptok := by
      rw [AdaState.tok?_modTok_ne _ tl p _ htlp.symm,
          AdaState.tok?_setTok_ne s t p _ (Ne.symm htp)]
      exact hp
    have hs2t : (((s.setTok t { ttok with parent := some p, prev := some tl, next := none }).modTok tl (fun x => { x with next := some t })).tok? t) = some { ttok with parent := some p, prev := some tl, next := none } := by
      rw [AdaState.tok?_modTok_ne _ tl t _ (Ne.symm htlt),
          AdaState.tok?_setTok_self s t _ htlen]
    have hplen2 : p < (((s.setTok t { ttok with parent := some p, prev := some tl, next := none }).modTok tl (fun x => { x with next := some t }))).tokens.length := by
      rw [AdaState.tokens_modTok_length, AdaState.tokens_setTok_length]
      exact hplen
    refine ⟨_, AdaState.tok?_setTok_self _ p _ hplen2, ?_, ?_, ?_⟩
    · simp only [hs2p, Option.getD_some]
      rw [if_neg hhd]
      refine chainIs_snoc s _ p t l none ptok.childHead hchain hlne hnd hfresh
        ?_ ?_ ?_
      · intro tl2 htl2
        have htl2e : tl2 = tl := (Option.some.inj (htail.trans htl2)).symm
        subst htl2e
        refine ⟨xtl, hxtl, ?_⟩
        rw [AdaState.tok?_setTok_ne _ p tl2 _ htlp]
        exact hs2tl
      · intro i hi hil
        have hit : i ≠ t := fun hcontra => hfresh (hcontra ▸ hi)
        have hip : i ≠ p := fun hcontra => hpl (hcontra ▸ hi)
        have hitl : i ≠ tl := fun hcontra => hil (by rw [hcontra]; exact htail.symm)
        rw [AdaState.tok?_setTok_ne _ p i _ hip,
            AdaState.tok?_modTok_ne _ tl i _ hitl,
            AdaState.tok?_setTok_ne s t i _ hit]
      · refine ⟨{ ttok with parent := some p, prev := some tl, next := none }, ?_,
          rfl, by exact htail, rfl⟩
        rw [AdaState.tok?_setTok_ne _ p t _ htp]
        exact hs2t
    · simp [List.getLast?_concat]
    · simp [hnum]

mutual

/-- A description of a committed subtree: a node id and its children in
list order. -/
inductive TreeDesc : Type where
  | node (id : Nat) (children : TreeForest)

/-- A forest of sibling subtrees. -/
inductive TreeForest : Type where
  | nil
  | cons (t : TreeDesc) (rest : TreeForest)

end

mutual

/-- All ids of a subtree (root first). -/
def TreeDesc.tids : TreeDesc → List Nat
  | .node i cs => i :: TreeForest.fids cs

/-- All ids of a forest. -/
def TreeForest.fids : TreeForest → List Nat
  | .nil => []
  | .cons t rest => t.tids ++ TreeForest.fids rest

end

/-- The root ids of a forest. -/
def TreeForest.roots : TreeForest → List Nat
  | .nil => []
  | .cons (.node i _) rest => i :: rest.roots

mutual

/-- The arena realises the described subtree: the root's children list
is exactly the forest's roots, recursively. -/
inductive TreeOk : AdaState → TreeDesc → Prop where
  | node {s : AdaState} {i : Nat} {cs : TreeForest} :
      childrenAre s i (TreeForest.roots cs) → ForestOk s cs →
      TreeOk s (TreeDesc.node i cs)

/-- The arena realises every subtree of the forest. -/
inductive ForestOk : AdaState → TreeForest → Prop where
  | nil {s : AdaState} : ForestOk s TreeForest.nil
  | cons {s : AdaState} {t : TreeDesc} {rest : TreeForest} :
      TreeOk s t → ForestOk s rest → ForestOk s (TreeForest.cons t rest)

end

/-- Roots are ids. -/
theorem roots_sub_fids : ∀ (cs : TreeForest), ∀ i ∈ cs.roots, i ∈ cs.fids
  | TreeForest.nil => by intro i hi; cases hi
  | TreeForest.cons (TreeDesc.node j cs1) rest => by
      intro i hi
      simp only [TreeForest.roots] at hi
      simp only [TreeForest.fids, TreeDesc.tids]
      rcases List.mem_cons.mp hi with hij | hir
      · subst hij
        simp
      · simp only [List.cons_append, List.mem_cons, List.mem_append]
        exact Or.inr (Or.inr (roots_sub_fids rest i hir))

/-- A chain transfers to any state that preserves the link fields of
its members. -/
theorem chainIs_fields (s s' : AdaState) (p : Nat) :
    ∀ (l : List Nat) (prev cur : Option Nat),
    (∀ i, i ∈ l → ∃ x x', s.tok? i = some x ∧ s'.tok? i = some x' ∧
      x'.parent = x.parent ∧ x'.prev = x.prev ∧ x'.next = x.next) →
    chainIs s p prev cur l → chainIs s' p prev cur l := by
  intro l
  induction l with
  | nil => intro prev cur hf h; exact h
  | cons i rest ih =>
    intro prev cur hf h
    obtain ⟨hc, tok, hi, hpar, hprev, hrest⟩ := h
    obtain ⟨x, x', hx, hx', hp', hpr', hnx'⟩ := hf i (List.mem_cons_self i rest)
    rw [hi] at hx
    cases hx
    refine ⟨hc, x', hx', by rw [hp', hpar], by rw [hpr', hprev], ?_⟩
    rw [hnx']
    exact ih (some i) tok.next (fun j hj => hf j (List.mem_cons_of_mem i hj)) hrest

/-- The link facts at a member's position in a chain. -/
theorem chainIs_split (s : AdaState) (p t : Nat) (ttok : AdaTokenInfo)
    (ht : s.tok? t = some ttok) :
    ∀ (l₁ l₂ : List Nat) (prev cur : Option Nat),
    chainIs s p prev cur (l₁ ++ t :: l₂) →
    ttok.parent = some p ∧
    ttok.prev = (match l₁.getLast? with | some pv => some pv | none => prev) ∧
    chainIs s p (some t) ttok.next l₂ ∧
    (l₁ = [] → cur = some t) := by
  intro l₁
  induction l₁ with
  | nil =>
    intro l₂ prev cur h
    obtain ⟨hc, tok, hi, hpar, hprev, hrest⟩ := h
    rw [ht] at hi
    cases hi
    exact ⟨hpar, by simp [hprev], hrest, fun _ => hc⟩
  | cons a l₁' ih =>
    intro l₂ prev cur h
    obtain ⟨hc, tok, hi, hpar, hprev, hrest⟩ := h
    obtain ⟨h1, h2, h3, -⟩ := ih l₂ (some a) tok.next hrest
    refine ⟨h1, ?_, h3, fun hcontra => absurd hcontra (by simp)⟩
    rw [h2]
    cases l₁' with
    | nil => simp
    | cons b l₁2 =>
      have : (a :: b :: l₁2).getLast? = (b :: l₁2).getLast? := by
        simp [List.getLast?]
      rw [this]
      rcases hgl : (b :: l₁2).getLast? with - | pv
      · exact absurd hgl (by simp [List.getLast?_eq_getLast_of_ne_nil])
      · rfl


/-- Removing a member from a doubly-linked chain: with the previous
element's `next` and the following element's `prev` rewired around `t`
and the rest untouched, the chain without `t` is again consistent. -/
theorem chainIs_unlink (s s' : AdaState) (p t : Nat) (ttok : AdaTokenInfo)
    (ht : s.tok? t = some ttok) :
    ∀ (l₁ l₂ : List Nat) (prev cur : Option Nat),
    chainIs s p prev cur (l₁ ++ t :: l₂) →
    (l₁ ++ t :: l₂).Nodup →
    (∀ pv, l₁.getLast? = some pv → ∃ x, s.tok? pv = some x ∧
      s'.tok? pv = some { x with next := ttok.next }) →
    (∀ nx, l₂.head? = some nx → ∃ x, s.tok? nx = some x ∧
      s'.tok? nx = some { x with prev := ttok.prev }) →
    (∀ i, i ∈ l₁ ++ l₂ → l₁.getLast? ≠ some i → l₂.head? ≠ some i →
      s'.tok? i = s.tok? i) →
    chainIs s' p prev (if l₁ = [] then ttok.next else cur) (l₁ ++ l₂) := by
  intro l₁
  induction l₁ with
  | nil =>
    intro l₂ prev cur h hnd hpv hnx hmid
    obtain ⟨hc, tok, hi, hpar, hprev, hrest⟩ := h
    rw [ht] at hi
    cases hi
    simp only [if_pos rfl, List.nil_append]
    cases l₂ with
    | nil => exact hrest
    | cons nx l₂2 =>
      obtain ⟨hcn, xnx, hnxtok, hnpar, hnprev, hnrest⟩ := hrest
      obtain ⟨x, hx, hx2⟩ := hnx nx rfl
      rw [hnxtok] at hx
      cases hx
      refine ⟨hcn, _, hx2, hnpar, by rw [hprev], ?_⟩
      refine chainIs_congr s s' p l₂2 (some nx) xnx.next ?_ hnrest
      intro i hi2
      have hnd2 : (t :: nx :: l₂2).Nodup := by simpa using hnd
      have hinx : i ≠ nx :=
        fun hcontra => (List.nodup_cons.mp (List.nodup_cons.mp hnd2).2).1
          (hcontra ▸ hi2)
      exact hmid i (by simp [hi2]) (by simp) (by simp [Ne.symm hinx])
  | cons a l₁2 ih =>
    intro l₂ prev cur h hnd hpv hnx hmid
    obtain ⟨hc, xa, hi, hpar, hprev, hrest⟩ := h
    have hnda : a ∉ l₁2 ++ t :: l₂ := (List.nodup_cons.mp hnd).1
    have hndr : (l₁2 ++ t :: l₂).Nodup := (List.nodup_cons.mp hnd).2
    have hanl2 : a ∉ l₂ := fun hcontra =>
      hnda (List.mem_append.mpr (Or.inr (List.mem_cons_of_mem t hcontra)))
    rw [if_neg (by simp)]
    simp only [List.cons_append]
    cases l₁2 with
    | nil =>
      obtain ⟨x, hx, hx2⟩ := hpv a (by simp)
      rw [hi] at hx
      cases hx
      refine ⟨hc, _, hx2, hpar, hprev, ?_⟩
      have hih := ih l₂ (some a) xa.next hrest hndr
        (fun pv hpv2 => absurd hpv2 (by simp))
        hnx
        ?_
      · simpa using hih
      · intro i hi2 hil1 hil2
        have hia : i ≠ a := fun hcontra =>
          hanl2 (hcontra ▸ (by simpa using hi2))
        exact hmid i (by simpa using Or.inr (by simpa using hi2))
          (by simpa using Ne.symm hia) hil2
    | cons b l₁3 =>
      have hgl : (a :: b :: l₁3).getLast? = (b :: l₁3).getLast? :=
        List.getLast?_cons_cons ..
      have hana : a ∉ b :: l₁3 := fun hcontra =>
        hnda (List.mem_append.mpr (Or.inl hcontra))
      refine ⟨hc, xa, ?_, hpar, hprev, ?_⟩
      · rw [hmid a (by simp) ?_ ?_]
        · exact hi
        · rw [hgl]
          intro hcontra
          obtain ⟨hne2, heq⟩ := List.mem_getLast?_eq_getLast
            (l := b :: l₁3) (x := a) (Option.mem_def.mpr hcontra)
          exact hana (heq ▸ List.getLast_mem hne2)
        · intro hcontra
          have : a ∈ l₂ := by
            cases l₂ with
            | nil => cases hcontra
            | cons c l₂2 =>
              simp only [List.head?] at hcontra
              simp [Option.some.inj hcontra]
          exact hanl2 this
      · have hih := ih l₂ (some a) xa.next hrest hndr
          (fun pv hpv2 => hpv pv (by rw [hgl]; exact hpv2))
          hnx
          ?_
        · rw [if_neg (by simp)] at hih
          exact hih
        · intro i hi2 hil1 hil2
          refine hmid i (by simpa using Or.inr (by simpa using hi2)) ?_ hil2
          rw [hgl]
          exact hil1

theorem fuelOut_setTok (s : AdaState) (i : Nat) (t : AdaTokenInfo) :
    (s.setTok i t).fuelOut = s.fuelOut := rfl

theorem fuelOut_modTok (s : AdaState) (i : Nat) (f : AdaTokenInfo → AdaTokenInfo) :
    (s.modTok i f).fuelOut = s.fuelOut := by
  unfold AdaState.modTok
  cases s.tok? i
  · rfl
  · rfl

theorem fuelOut_delTok (s : AdaState) (i : Nat) :
    (s.delTok i).fuelOut = s.fuelOut := rfl

/-- A raised fuel flag is never cleared by the deallocators. -/
theorem free_fuelOut_absorb :
    ∀ (fuel : Nat),
    (∀ (s : AdaState) (lo t : Option Nat), s.fuelOut = true →
      (freeAdaToken fuel s lo t).fuelOut = true) ∧
    (∀ (s : AdaState) (o : Option Nat), s.fuelOut = true →
      (freeAdaTokenList fuel s o).fuelOut = true) := by
  intro fuel
  induction fuel with
  | zero => exact ⟨fun s lo t h => rfl, fun s o h => rfl⟩
  | succ fuel ih =>
    obtain ⟨ihT, ihL⟩ := ih
    constructor
    · intro s lo t h
      simp only [freeAdaToken]
      cases t with
      | none => exact h
      | some t =>
        dsimp only
        cases htk : s.tok? t with
        | none => exact h
        | some ttok =>
          dsimp only
          rw [fuelOut_delTok]
          have hb : (freeAdaTokenList fuel
              (s.setTok t { ttok with name := none, nameStatic := false })
              (some t)).fuelOut = true :=
            ihL _ _ (by rw [fuelOut_setTok]; exact h)
          repeat' split
          all_goals simp [fuelOut_modTok, fuelOut_setTok, hb]
    · intro s o h
      simp only [freeAdaTokenList]
      cases o with
      | none => exact h
      | some o =>
        dsimp only
        cases hok : s.tok? o with
        | none => exact h
        | some otok =>
          dsimp only
          cases hch : otok.childHead with
          | none => exact h
          | some hd => exact ihL _ _ (ihT _ _ _ h)

/-- The strictly-below-root ids of a forest (children of the roots and
deeper). -/
def TreeForest.innerF : TreeForest → List Nat
  | TreeForest.nil => []
  | TreeForest.cons (TreeDesc.node _ cs1) rest => cs1.fids ++ rest.innerF

theorem innerF_sub_fids : ∀ (cs : TreeForest), ∀ j ∈ cs.innerF, j ∈ cs.fids
  | TreeForest.nil => by intro j hj; cases hj
  | TreeForest.cons (TreeDesc.node i cs1) rest => by
      intro j hj
      simp only [TreeForest.innerF, List.mem_append] at hj
      simp only [TreeForest.fids, TreeDesc.tids, List.cons_append, List.mem_cons,
        List.mem_append]
      rcases hj with hj | hj
      · exact Or.inr (Or.inl hj)
      · exact Or.inr (Or.inr (innerF_sub_fids rest j hj))

mutual

/-- A described subtree survives any state change that preserves its
nodes' list fields and its strict descendants' link fields. -/
theorem TreeOk_frame (s s' : AdaState) :
    ∀ (d : TreeDesc), TreeOk s d →
    (∀ j ∈ d.tids, ∃ x x', s.tok? j = some x ∧ s'.tok? j = some x' ∧
      x'.childHead = x.childHead ∧ x'.childTail = x.childTail ∧
      x'.numTokens = x.numTokens) →
    (∀ j ∈ (match d with | TreeDesc.node _ cs => cs.fids),
      ∃ x x', s.tok? j = some x ∧ s'.tok? j = some x' ∧
      x'.parent = x.parent ∧ x'.prev = x.prev ∧ x'.next = x.next) →
    TreeOk s' d
  | TreeDesc.node i cs => by
      intro hok h3 hlink
      cases hok with
      | node hca hfok =>
        obtain ⟨ptok, hp, hchain, htail, hnum⟩ := hca
        obtain ⟨x, x', hx, hx', hch, hct, hnt⟩ := h3 i (by
          simp [TreeDesc.tids])
        rw [hp] at hx
        cases hx
        refine TreeOk.node ⟨x', hx', ?_, by rw [hct, htail], by rw [hnt, hnum]⟩ ?_
        · rw [hch]
          refine chainIs_fields s s' i (TreeForest.roots cs) none ptok.childHead
            ?_ hchain
          intro r hr
          exact hlink r (roots_sub_fids cs r hr)
        · refine ForestOk_frame s s' cs hfok ?_ ?_
          · intro j hj
            exact h3 j (by simp [TreeDesc.tids, hj])
          · intro j hj
            exact hlink j (innerF_sub_fids cs j hj)

/-- A described forest survives the same kind of state change. -/
theorem ForestOk_frame (s s' : AdaState) :
    ∀ (cs : TreeForest), ForestOk s cs →
    (∀ j ∈ cs.fids, ∃ x x', s.tok? j = some x ∧ s'.tok? j = some x' ∧
      x'.childHead = x.childHead ∧ x'.childTail = x.childTail ∧
      x'.numTokens = x.numTokens) →
    (∀ j ∈ cs.innerF, ∃ x x', s.tok? j = some x ∧ s'.tok? j = some x' ∧
      x'.parent = x.parent ∧ x'.prev = x.prev ∧ x'.next = x.next) →
    ForestOk s' cs
  | TreeForest.nil => fun _ _ _ => ForestOk.nil
  | TreeForest.cons (TreeDesc.node i cs1) rest => by
      intro hok h3 hlink
      cases hok with
      | cons ht hrest =>
        refine ForestOk.cons (TreeOk_frame s s' (TreeDesc.node i cs1) ht ?_ ?_)
          (ForestOk_frame s s' rest hrest ?_ ?_)
        · intro j hj
          exact h3 j (by
            simp only [TreeForest.fids, List.mem_append]
            exact Or.inl hj)
        · intro j hj
          exact hlink j (by
            simp only [TreeForest.innerF, List.mem_append]
            exact Or.inl hj)
        · intro j hj
          exact h3 j (by
            simp only [TreeForest.fids, List.mem_append]
            exact Or.inr hj)
        · intro j hj
          exact hlink j (by
            simp only [TreeForest.innerF, List.mem_append]
            exact Or.inr hj)

end

/-- The ids of a forest are exactly its roots and its strictly-inner
ids. -/
theorem fids_perm : ∀ (cs : TreeForest),
    List.Perm cs.fids (cs.roots ++ cs.innerF)
  | TreeForest.nil => List.Perm.refl _
  | TreeForest.cons (TreeDesc.node i cs1) rest => by
      have ih := fids_perm rest
      simp only [TreeForest.fids, TreeDesc.tids, TreeForest.roots,
        TreeForest.innerF, List.cons_append]
      refine List.Perm.cons i ?_
      have h1 : List.Perm (cs1.fids ++ rest.fids)
          (cs1.fids ++ (rest.roots ++ rest.innerF)) := ih.append_left cs1.fids
      have h2 : List.Perm (cs1.fids ++ (rest.roots ++ rest.innerF))
          (rest.roots ++ (cs1.fids ++ rest.innerF)) := by
        rw [← List.append_assoc, ← List.append_assoc]
        exact List.perm_append_comm.append_right rest.innerF
      exact h1.trans h2

/-- The unlink-and-delete tail of `freeAdaToken` for a token `t` owned
by `o`, with sibling links `pv?`/`nx?` (the freed token's `prev` and
`next`). -/
def unlinkState (s2 : AdaState) (o t : Nat) (pv? nx? : Option Nat) : AdaState :=
  let s3 := match pv? with
    | some pv => s2.modTok pv (fun x => { x with next := nx? })
    | none => s2.modTok o (fun x => { x with childHead := nx? })
  let s4 := match nx? with
    | some nx => s3.modTok nx (fun x => { x with prev := pv? })
    | none => s3.modTok o (fun x => { x with childTail := pv? })
  let s5 := s4.modTok o (fun x => { x with numTokens := x.numTokens - 1 })
  s5.delTok t

theorem fuelOut_unlinkState (s2 : AdaState) (o t : Nat) (pv? nx? : Option Nat) :
    (unlinkState s2 o t pv? nx?).fuelOut = s2.fuelOut := by
  unfold unlinkState
  cases pv? <;> cases nx? <;>
    simp only [fuelOut_delTok, fuelOut_modTok]

theorem unlinkState_tok?_t (s2 : AdaState) (o t : Nat) (pv? nx? : Option Nat) :
    (unlinkState s2 o t pv? nx?).tok? t = none := by
  unfold unlinkState
  exact AdaState.tok?_delTok_self _ t

theorem unlinkState_tok?_other (s2 : AdaState) (o t j : Nat) (pv? nx? : Option Nat)
    (hjt : j ≠ t) (hjo : j ≠ o) (hjp : pv? ≠ some j) (hjn : nx? ≠ some j) :
    (unlinkState s2 o t pv? nx?).tok? j = s2.tok? j := by
  unfold unlinkState
  cases pv? with
  | none =>
    cases nx? with
    | none =>
      rw [AdaState.tok?_delTok_ne _ t j hjt, AdaState.tok?_modTok_ne _ o j _ hjo,
        AdaState.tok?_modTok_ne _ o j _ hjo, AdaState.tok?_modTok_ne _ o j _ hjo]
    | some nx =>
      have hjnx : j ≠ nx := fun h => hjn (by rw [h])
      rw [AdaState.tok?_delTok_ne _ t j hjt, AdaState.tok?_modTok_ne _ o j _ hjo,
        AdaState.tok?_modTok_ne _ nx j _ hjnx, AdaState.tok?_modTok_ne _ o j _ hjo]
  | some pv =>
    have hjpv : j ≠ pv := fun h => hjp (by rw [h])
    cases nx? with
    | none =>
      rw [AdaState.tok?_delTok_ne _ t j hjt, AdaState.tok?_modTok_ne _ o j _ hjo,
        AdaState.tok?_modTok_ne _ o j _ hjo, AdaState.tok?_modTok_ne _ pv j _ hjpv]
    | some nx =>
      have hjnx : j ≠ nx := fun h => hjn (by rw [h])
      rw [AdaState.tok?_delTok_ne _ t j hjt, AdaState.tok?_modTok_ne _ o j _ hjo,
        AdaState.tok?_modTok_ne _ nx j _ hjnx, AdaState.tok?_modTok_ne _ pv j _ hjpv]

theorem unlinkState_tok?_o (s2 : AdaState) (o t : Nat) (pv? nx? : Option Nat)
    (x : AdaTokenInfo) (hot : o ≠ t) (h2 : s2.tok? o = some x)
    (hpo : pv? ≠ some o) (hno : nx? ≠ some o) :
    ∃ x2, (unlinkState s2 o t pv? nx?).tok? o = some x2 ∧
      x2.prev = x.prev ∧ x2.next = x.next ∧ x2.parent = x.parent ∧
      x2.childHead = (if pv? = none then nx? else x.childHead) ∧
      x2.childTail = (if nx? = none then pv? else x.childTail) ∧
      x2.numTokens = x.numTokens - 1 := by
  unfold unlinkState
  cases pv? with
  | none =>
    cases nx? with
    | none =>
      have h3 := AdaState.tok?_modTok_self s2 o
        (fun y => { y with childHead := none }) x h2
      have h4 := AdaState.tok?_modTok_self _ o
        (fun y => { y with childTail := none }) _ h3
      have h5 := AdaState.tok?_modTok_self _ o
        (fun y => { y with numTokens := y.numTokens - 1 }) _ h4
      rw [AdaState.tok?_delTok_ne _ t o hot]
      refine ⟨_, h5, rfl, rfl, rfl, ?_, ?_, rfl⟩ <;> simp
    | some nx =>
      have hnxo : o ≠ nx := fun h => hno (by rw [h])
      have h3 := AdaState.tok?_modTok_self s2 o
        (fun y => { y with childHead := some nx }) x h2
      have h4 : ((s2.modTok o (fun y => { y with childHead := some nx })).modTok nx
          (fun y => { y with prev := none })).tok? o =
          some { x with childHead := some nx } := by
        rw [AdaState.tok?_modTok_ne _ nx o _ hnxo]
        exact h3
      have h5 := AdaState.tok?_modTok_self _ o
        (fun y => { y with numTokens := y.numTokens - 1 }) _ h4
      rw [AdaState.tok?_delTok_ne _ t o hot]
      refine ⟨_, h5, rfl, rfl, rfl, ?_, ?_, rfl⟩ <;> simp
  | some pv =>
    have hpvo : o ≠ pv := fun h => hpo (by rw [h])
    cases nx? with
    | none =>
      have h3 : (s2.modTok pv (fun y => { y with next := none })).tok? o = some x := by
        rw [AdaState.tok?_modTok_ne _ pv o _ hpvo]
        exact h2
      have h4 := AdaState.tok?_modTok_self _ o
        (fun y => { y with childTail := some pv }) _ h3
      have h5 := AdaState.tok?_modTok_self _ o
        (fun y => { y with numTokens := y.numTokens - 1 }) _ h4
      rw [AdaState.tok?_delTok_ne _ t o hot]
      refine ⟨_, h5, rfl, rfl, rfl, ?_, ?_, rfl⟩ <;> simp
    | some nx =>
      have hnxo : o ≠ nx := fun h => hno (by rw [h])
      have h3 : (s2.modTok pv (fun y => { y with next := some nx })).tok? o = some x := by
        rw [AdaState.tok?_modTok_ne _ pv o _ hpvo]
        exact h2
      have h4 : ((s2.modTok pv (fun y => { y with next := some nx })).modTok nx
          (fun y => { y with prev := some pv })).tok? o = some x := by
        rw [AdaState.tok?_modTok_ne _ nx o _ hnxo]
        exact h3
      have h5 := AdaState.tok?_modTok_self _ o
        (fun y => { y with numTokens := y.numTokens - 1 }) _ h4
      rw [AdaState.tok?_delTok_ne _ t o hot]
      refine ⟨_, h5, rfl, rfl, rfl, ?_, ?_, rfl⟩ <;> simp

theorem unlinkState_tok?_pv (s2 : AdaState) (o t pv : Nat) (nx? : Option Nat)
    (x : AdaTokenInfo) (hpt : pv ≠ t) (hpo : pv ≠ o) (hnp : nx? ≠ some pv)
    (h2 : s2.tok? pv = some x) :
    (unlinkState s2 o t (some pv) nx?).tok? pv = some { x with next := nx? } := by
  unfold unlinkState
  cases nx? with
  | none =>
    rw [AdaState.tok?_delTok_ne _ t pv hpt, AdaState.tok?_modTok_ne _ o pv _ hpo,
      AdaState.tok?_modTok_ne _ o pv _ hpo]
    exact AdaState.tok?_modTok_self s2 pv _ x h2
  | some nx =>
    have hpnx : pv ≠ nx := fun h => hnp (by rw [h])
    rw [AdaState.tok?_delTok_ne _ t pv hpt, AdaState.tok?_modTok_ne _ o pv _ hpo,
      AdaState.tok?_modTok_ne _ nx pv _ hpnx]
    exact AdaState.tok?_modTok_self s2 pv _ x h2

theorem unlinkState_tok?_nx (s2 : AdaState) (o t nx : Nat) (pv? : Option Nat)
    (x : AdaTokenInfo) (hnt : nx ≠ t) (hno : nx ≠ o) (hpn : pv? ≠ some nx)
    (h2 : s2.tok? nx = some x) :
    (unlinkState s2 o t pv? (some nx)).tok? nx = some { x with prev := pv? } := by
  unfold unlinkState
  cases pv? with
  | none =>
    have h3 : (s2.modTok o (fun y => { y with childHead := some nx })).tok? nx =
        some x := by
      rw [AdaState.tok?_modTok_ne _ o nx _ hno]
      exact h2
    rw [AdaState.tok?_delTok_ne _ t nx hnt, AdaState.tok?_modTok_ne _ o nx _ hno]
    exact AdaState.tok?_modTok_self _ nx _ x h3
  | some pv =>
    have hnpv : nx ≠ pv := fun h => hpn (by rw [h])
    have h3 : (s2.modTok pv (fun y => { y with next := some nx })).tok? nx =
        some x := by
      rw [AdaState.tok?_modTok_ne _ pv nx _ hnpv]
      exact h2
    rw [AdaState.tok?_delTok_ne _ t nx hnt, AdaState.tok?_modTok_ne _ o nx _ hno]
    exact AdaState.tok?_modTok_self _ nx _ x h3

theorem freeAdaToken_succ (fuel : Nat) (s : AdaState) (o t : Nat)
    (ttok : AdaTokenInfo) (htk : s.tok? t = some ttok) :
    freeAdaToken (fuel + 1) s (some o) (some t) =
      unlinkState
        (freeAdaTokenList fuel
          (s.setTok t { ttok with name := none, nameStatic := false }) (some t))
        o t
        (((freeAdaTokenList fuel
          (s.setTok t { ttok with name := none, nameStatic := false })
          (some t)).tok? t).getD ttok).prev
        (((freeAdaTokenList fuel
          (s.setTok t { ttok with name := none, nameStatic := false })
          (some t)).tok? t).getD ttok).next := by
  conv_lhs => rw [freeAdaToken]
  simp only [htk]
  unfold unlinkState
  rfl

theorem childrenAre_congr (s s' : AdaState) (p : Nat) (l : List Nat)
    (hf : ∀ j, j = p ∨ j ∈ l → s'.tok? j = s.tok? j)
    (h : childrenAre s p l) : childrenAre s' p l := by
  obtain ⟨ptok, hp, hchain, htail, hnum⟩ := h
  exact ⟨ptok, by rw [hf p (Or.inl rfl)]; exact hp,
    chainIs_congr s s' p l none ptok.childHead (fun i hi => hf i (Or.inr hi)) hchain,
    htail, hnum⟩

mutual

/-- Every node of a realised subtree is live. -/
theorem TreeOk_live (s : AdaState) :
    ∀ (d : TreeDesc), TreeOk s d → ∀ j ∈ d.tids, ∃ x, s.tok? j = some x
  | TreeDesc.node i cs => by
      intro hok j hj
      cases hok with
      | node hca hfok =>
        obtain ⟨ptok, hp, -, -, -⟩ := hca
        simp only [TreeDesc.tids, List.mem_cons] at hj
        rcases hj with rfl | hj
        · exact ⟨ptok, hp⟩
        · exact ForestOk_live s cs hfok j hj

/-- Every node of a realised forest is live. -/
theorem ForestOk_live (s : AdaState) :
    ∀ (cs : TreeForest), ForestOk s cs → ∀ j ∈ cs.fids, ∃ x, s.tok? j = some x
  | TreeForest.nil => by
      intro hok j hj
      simp only [TreeForest.fids] at hj
      cases hj
  | TreeForest.cons d rest => by
      intro hok j hj
      cases hok with
      | cons ht hrest =>
        simp only [TreeForest.fids, List.mem_append] at hj
        rcases hj with hj | hj
        · exact TreeOk_live s d ht j hj
        · exact ForestOk_live s rest hrest j hj

end

/-- The roots of a forest are a sublist of its ids. -/
theorem roots_sublist_fids : ∀ (cs : TreeForest), cs.roots.Sublist cs.fids
  | TreeForest.nil => by
      simp only [TreeForest.roots, TreeForest.fids]
      exact List.Sublist.refl []
  | TreeForest.cons (TreeDesc.node i cs1) rest => by
      simp only [TreeForest.roots, TreeForest.fids, TreeDesc.tids, List.cons_append]
      exact List.Sublist.cons₂ i ((roots_sublist_fids rest).trans
        (List.sublist_append_right cs1.fids rest.fids))

theorem getLast?_append_mid (l₁ : List Nat) (a : Nat) (l₂ : List Nat) :
    (l₁ ++ a :: l₂).getLast? = (a :: l₂).getLast? :=
  List.getLast?_append_of_ne_nil l₁ (List.cons_ne_nil a l₂)

theorem mem_of_getLast?_eq {l : List Nat} {a : Nat} (h : l.getLast? = some a) :
    a ∈ l := by
  obtain ⟨hne, heq⟩ := List.mem_getLast?_eq_getLast (Option.mem_def.mpr h)
  rw [heq]
  exact List.getLast_mem hne

theorem mem_of_head?_eq {l : List Nat} {a : Nat} (h : l.head? = some a) : a ∈ l :=
  List.mem_of_mem_head? (Option.mem_def.mpr h)

/-- Specification of the unlink-and-delete tail of `freeAdaToken`: with
the freed subtree `D` already dead in `s2` and everything else as in
`s`, rewiring the neighbours of `t` and deleting it yields `o`'s child
list without `t`; `D` and `t` are dead, ids outside the list keep their
token, list members keep all fields except their sibling links, and `o`
keeps its own link fields. -/
theorem free_unlink_spec (s s2 : AdaState) (o t : Nat) (l₁ l₂ D : List Nat)
    (ttok otok : AdaTokenInfo)
    (htk : s.tok? t = some ttok)
    (ho : s.tok? o = some otok)
    (hchain : chainIs s o none otok.childHead (l₁ ++ t :: l₂))
    (htail : otok.childTail = (l₁ ++ t :: l₂).getLast?)
    (hnum : otok.numTokens = ((l₁ ++ t :: l₂).length : Int))
    (hnd : (l₁ ++ t :: l₂).Nodup)
    (hno : o ∉ l₁ ++ t :: l₂)
    (hsep : ∀ j ∈ D, j ∉ l₁ ++ t :: l₂)
    (hoD : o ∉ D) (htD : t ∉ D)
    (hdead2 : ∀ j ∈ D, s2.tok? j = none)
    (hframe2 : ∀ j, j ≠ t → j ∉ D → s2.tok? j = s.tok? j)
    (hpt : ttok.prev = l₁.getLast?)
    (hnt : ttok.next = l₂.head?) :
    childrenAre (unlinkState s2 o t l₁.getLast? l₂.head?) o (l₁ ++ l₂) ∧
    (∀ j, j = t ∨ j ∈ D → (unlinkState s2 o t l₁.getLast? l₂.head?).tok? j = none) ∧
    (∀ j, j ≠ o → j ≠ t → j ∉ D → j ∉ l₁ → j ∉ l₂ →
      (unlinkState s2 o t l₁.getLast? l₂.head?).tok? j = s.tok? j) ∧
    (∀ j, j ∈ l₁ ∨ j ∈ l₂ → ∃ x x2, s.tok? j = some x ∧
      (unlinkState s2 o t l₁.getLast? l₂.head?).tok? j = some x2 ∧
      x2.parent = x.parent ∧ x2.childHead = x.childHead ∧
      x2.childTail = x.childTail ∧ x2.numTokens = x.numTokens) ∧
    (∃ x2, (unlinkState s2 o t l₁.getLast? l₂.head?).tok? o = some x2 ∧
      x2.prev = otok.prev ∧ x2.next = otok.next ∧ x2.parent = otok.parent) := by
  have hot : o ≠ t := fun hc => hno (by
    rw [hc]; exact List.mem_append.mpr (Or.inr (List.mem_cons_self t l₂)))
  have honl1 : o ∉ l₁ := fun hc => hno (List.mem_append.mpr (Or.inl hc))
  have honl2 : o ∉ l₂ := fun hc =>
    hno (List.mem_append.mpr (Or.inr (List.mem_cons_of_mem t hc)))
  have hndp := List.nodup_append.mp hnd
  have hnd1 : l₁.Nodup := hndp.1
  have htnl1 : t ∉ l₁ := fun hc => hndp.2.2 hc (List.mem_cons_self t l₂)
  have htnl2 : t ∉ l₂ := (List.nodup_cons.mp hndp.2.1).1
  have hdisj12 : ∀ a, a ∈ l₁ → a ∉ l₂ := fun a ha h2 =>
    hndp.2.2 ha (List.mem_cons_of_mem t h2)
  have hs2o : s2.tok? o = some otok := by rw [hframe2 o hot hoD]; exact ho
  have hglo : l₁.getLast? ≠ some o := fun hc => honl1 (mem_of_getLast?_eq hc)
  have hhdo : l₂.head? ≠ some o := fun hc => honl2 (mem_of_head?_eq hc)
  obtain ⟨x2, hx2, hx2prev, hx2next, hx2par, hx2chH, hx2chT, hx2num⟩ :=
    unlinkState_tok?_o s2 o t l₁.getLast? l₂.head? otok hot hs2o hglo hhdo
  have hother : ∀ j, j ≠ o → j ≠ t → j ∉ l₁ → j ∉ l₂ →
      (unlinkState s2 o t l₁.getLast? l₂.head?).tok? j = s2.tok? j := by
    intro j hjo hjt hjl1 hjl2
    exact unlinkState_tok?_other s2 o t j _ _ hjt hjo
      (fun hc => hjl1 (mem_of_getLast?_eq hc))
      (fun hc => hjl2 (mem_of_head?_eq hc))
  have hchain2 : chainIs (unlinkState s2 o t l₁.getLast? l₂.head?) o none
      (if l₁ = [] then ttok.next else otok.childHead) (l₁ ++ l₂) := by
    refine chainIs_unlink s _ o t ttok htk l₁ l₂ none otok.childHead hchain hnd
      ?_ ?_ ?_
    · intro pv hpv
      have hpvm : pv ∈ l₁ := mem_of_getLast?_eq hpv
      have hpvt : pv ≠ t := fun hc => htnl1 (hc ▸ hpvm)
      have hpvo : pv ≠ o := fun hc => honl1 (hc ▸ hpvm)
      have hpvD : pv ∉ D := fun hc =>
        hsep pv hc (List.mem_append.mpr (Or.inl hpvm))
      obtain ⟨x, hx⟩ := chainIs_live s o (l₁ ++ t :: l₂) none otok.childHead
        hchain pv (List.mem_append.mpr (Or.inl hpvm))
      have hs2pv : s2.tok? pv = some x := by rw [hframe2 pv hpvt hpvD]; exact hx
      refine ⟨x, hx, ?_⟩
      rw [hnt, hpv]
      exact unlinkState_tok?_pv s2 o t pv l₂.head? x hpvt hpvo
        (fun hc => hdisj12 pv hpvm (mem_of_head?_eq hc)) hs2pv
    · intro nx hnx
      have hnxm : nx ∈ l₂ := mem_of_head?_eq hnx
      have hnxt : nx ≠ t := fun hc => htnl2 (hc ▸ hnxm)
      have hnxo : nx ≠ o := fun hc => honl2 (hc ▸ hnxm)
      have hnxD : nx ∉ D := fun hc =>
        hsep nx hc (List.mem_append.mpr (Or.inr (List.mem_cons_of_mem t hnxm)))
      obtain ⟨x, hx⟩ := chainIs_live s o (l₁ ++ t :: l₂) none otok.childHead
        hchain nx (List.mem_append.mpr (Or.inr (List.mem_cons_of_mem t hnxm)))
      have hs2nx : s2.tok? nx = some x := by rw [hframe2 nx hnxt hnxD]; exact hx
      refine ⟨x, hx, ?_⟩
      rw [hpt, hnx]
      exact unlinkState_tok?_nx s2 o t nx l₁.getLast? x hnxt hnxo
        (fun hc => hdisj12 nx (mem_of_getLast?_eq hc) hnxm) hs2nx
    · intro i hi hil1 hil2
      have him : i ∈ l₁ ∨ i ∈ l₂ := List.mem_append.mp hi
      have hit : i ≠ t := fun hc =>
        him.elim (fun h => htnl1 (hc ▸ h)) (fun h => htnl2 (hc ▸ h))
      have hio : i ≠ o := fun hc =>
        him.elim (fun h => honl1 (hc ▸ h)) (fun h => honl2 (hc ▸ h))
      have hiD : i ∉ D := fun hc => hsep i hc (him.elim
        (fun h => List.mem_append.mpr (Or.inl h))
        (fun h => List.mem_append.mpr (Or.inr (List.mem_cons_of_mem t h))))
      rw [unlinkState_tok?_other s2 o t i _ _ hit hio hil1 hil2,
        hframe2 i hit hiD]
  refine ⟨⟨x2, hx2, ?_, ?_, ?_⟩, ?_, ?_, ?_, ⟨x2, hx2, hx2prev, hx2next, hx2par⟩⟩
  · -- the chain from the updated head
    rcases hgl : l₁.getLast? with - | pv
    · have hl1 : l₁ = [] := List.getLast?_eq_none_iff.mp hgl
      subst hl1
      have hch2 : x2.childHead = l₂.head? := by simpa using hx2chH
      rw [hch2]
      rw [if_pos rfl, hnt] at hchain2
      exact hchain2
    · have hl1ne : l₁ ≠ [] := fun hc => by
        rw [hc] at hgl
        cases hgl
      rw [hgl] at hx2chH
      rw [if_neg (by simp)] at hx2chH
      rw [hx2chH]
      rw [if_neg hl1ne, hgl] at hchain2
      exact hchain2
  · -- the updated tail
    cases l₂ with
    | nil =>
      have hct : x2.childTail = l₁.getLast? := by simpa using hx2chT
      rw [hct, List.append_nil]
    | cons nx l₂2 =>
      have hct : x2.childTail = otok.childTail := by simpa using hx2chT
      rw [hct, htail, getLast?_append_mid l₁ t (nx :: l₂2),
        getLast?_append_mid l₁ nx l₂2]
      exact List.getLast?_cons_cons ..
  · -- the decremented count
    rw [hx2num, hnum]
    simp only [List.length_append, List.length_cons]
    push_cast
    ring
  · -- dead ids
    intro j hj
    rcases hj with rfl | hjD
    · exact unlinkState_tok?_t s2 o j _ _
    · have hjt : j ≠ t := fun hc => htD (hc ▸ hjD)
      have hjo : j ≠ o := fun hc => hoD (hc ▸ hjD)
      have hjl := hsep j hjD
      have hjl1 : j ∉ l₁ := fun hc => hjl (List.mem_append.mpr (Or.inl hc))
      have hjl2 : j ∉ l₂ := fun hc =>
        hjl (List.mem_append.mpr (Or.inr (List.mem_cons_of_mem t hc)))
      rw [hother j hjo hjt hjl1 hjl2]
      exact hdead2 j hjD
  · -- frame
    intro j hjo hjt hjD hjl1 hjl2
    rw [hother j hjo hjt hjl1 hjl2, hframe2 j hjt hjD]
  · -- list members keep their list fields
    intro j hj
    have hjt : j ≠ t := fun hc =>
      hj.elim (fun h => htnl1 (hc ▸ h)) (fun h => htnl2 (hc ▸ h))
    have hjo : j ≠ o := fun hc =>
      hj.elim (fun h => honl1 (hc ▸ h)) (fun h => honl2 (hc ▸ h))
    have hjD : j ∉ D := fun hc => hsep j hc (hj.elim
      (fun h => List.mem_append.mpr (Or.inl h))
      (fun h => List.mem_append.mpr (Or.inr (List.mem_cons_of_mem t h))))
    obtain ⟨x, hx⟩ := chainIs_live s o (l₁ ++ t :: l₂) none otok.childHead
      hchain j (hj.elim
        (fun h => List.mem_append.mpr (Or.inl h))
        (fun h => List.mem_append.mpr (Or.inr (List.mem_cons_of_mem t h))))
    have hs2j : s2.tok? j = some x := by rw [hframe2 j hjt hjD]; exact hx
    by_cases hjp : l₁.getLast? = some j
    · refine ⟨x, { x with next := l₂.head? }, hx, ?_, rfl, rfl, rfl, rfl⟩
      rw [hjp]
      exact unlinkState_tok?_pv s2 o t j l₂.head? x hjt hjo
        (fun hc => hdisj12 j (mem_of_getLast?_eq hjp) (mem_of_head?_eq hc)) hs2j
    · by_cases hjn : l₂.head? = some j
      · refine ⟨x, { x with prev := l₁.getLast? }, hx, ?_, rfl, rfl, rfl, rfl⟩
        rw [hjn]
        exact unlinkState_tok?_nx s2 o t j l₁.getLast? x hjt hjo hjp hs2j
      · refine ⟨x, x, hx, ?_, rfl, rfl, rfl, rfl⟩
        rw [unlinkState_tok?_other s2 o t j _ _ hjt hjo hjp hjn]
        exact hs2j

/-- The unlink tail of `freeAdaToken` specified against the state `s2`
reached after the recursive child free, whose `t`-token keeps the
original sibling links. -/
theorem free_token_step (s s2 : AdaState) (o t : Nat) (l₁ l₂ D : List Nat)
    (ttok otok xt2 : AdaTokenInfo)
    (htk : s.tok? t = some ttok)
    (ho : s.tok? o = some otok)
    (hchain : chainIs s o none otok.childHead (l₁ ++ t :: l₂))
    (htail : otok.childTail = (l₁ ++ t :: l₂).getLast?)
    (hnum : otok.numTokens = ((l₁ ++ t :: l₂).length : Int))
    (hnd : (l₁ ++ t :: l₂).Nodup)
    (hno : o ∉ l₁ ++ t :: l₂)
    (hsep : ∀ j ∈ D, j ∉ l₁ ++ t :: l₂)
    (hoD : o ∉ D) (htD : t ∉ D)
    (hs2t : s2.tok? t = some xt2)
    (hxprev : xt2.prev = ttok.prev) (hxnext : xt2.next = ttok.next)
    (hdead2 : ∀ j ∈ D, s2.tok? j = none)
    (hframe2 : ∀ j, j ≠ t → j ∉ D → s2.tok? j = s.tok? j) :
    childrenAre (unlinkState s2 o t ((s2.tok? t).getD ttok).prev
      ((s2.tok? t).getD ttok).next) o (l₁ ++ l₂) ∧
    (∀ j, j = t ∨ j ∈ D → (unlinkState s2 o t ((s2.tok? t).getD ttok).prev
      ((s2.tok? t).getD ttok).next).tok? j = none) ∧
    (∀ j, j ≠ o → j ≠ t → j ∉ D → j ∉ l₁ → j ∉ l₂ →
      (unlinkState s2 o t ((s2.tok? t).getD ttok).prev
        ((s2.tok? t).getD ttok).next).tok? j = s.tok? j) ∧
    (∀ j, j ∈ l₁ ∨ j ∈ l₂ → ∃ x x2, s.tok? j = some x ∧
      (unlinkState s2 o t ((s2.tok? t).getD ttok).prev
        ((s2.tok? t).getD ttok).next).tok? j = some x2 ∧
      x2.parent = x.parent ∧ x2.childHead = x.childHead ∧
      x2.childTail = x.childTail ∧ x2.numTokens = x.numTokens) ∧
    (∃ x2, (unlinkState s2 o t ((s2.tok? t).getD ttok).prev
        ((s2.tok? t).getD ttok).next).tok? o = some x2 ∧
      x2.prev = otok.prev ∧ x2.next = otok.next ∧ x2.parent = otok.parent) := by
  obtain ⟨hparT, hprevT, hchainL2, -⟩ :=
    chainIs_split s o t ttok htk l₁ l₂ none otok.childHead hchain
  have hpt : ttok.prev = l₁.getLast? := by
    rw [hprevT]
    rcases hgl2 : l₁.getLast? with - | pv <;> rfl
  have hnt : ttok.next = l₂.head? := by
    cases l₂ with
    | nil => exact hchainL2
    | cons nx l₂2 => exact hchainL2.1
  have hgd : ((s2.tok? t).getD ttok) = xt2 := by rw [hs2t]; rfl
  rw [hgd, hxprev, hxnext, hpt, hnt]
  exact free_unlink_spec s s2 o t l₁ l₂ D ttok otok htk ho hchain htail hnum
    hnd hno hsep hoD htD hdead2 hframe2 hpt hnt

/-- `freeAdaToken` and `freeAdaTokenList` preserve the children-list
invariant: detaching-and-destroying a child `t` of `o` (with its whole
realised subtree `cs`) leaves `o`'s list as the old list without `t`,
kills exactly the subtree, and leaves every other token's list fields
alone; emptying a list kills exactly the forest and zeroes the owner's
list fields. -/
theorem free_spec : ∀ (fuel : Nat),
    (∀ (s : AdaState) (o t : Nat) (l₁ l₂ : List Nat) (cs : TreeForest)
      (ttok otok : AdaTokenInfo),
      s.tok? t = some ttok → s.tok? o = some otok →
      chainIs s o none otok.childHead (l₁ ++ t :: l₂) →
      otok.childTail = (l₁ ++ t :: l₂).getLast? →
      otok.numTokens = ((l₁ ++ t :: l₂).length : Int) →
      TreeOk s (TreeDesc.node t cs) →
      (o :: ((l₁ ++ t :: l₂) ++ cs.fids)).Nodup →
      (freeAdaToken fuel s (some o) (some t)).fuelOut = false →
      childrenAre (freeAdaToken fuel s (some o) (some t)) o (l₁ ++ l₂) ∧
      (∀ j, j = t ∨ j ∈ cs.fids →
        (freeAdaToken fuel s (some o) (some t)).tok? j = none) ∧
      (∀ j, j ≠ o → j ≠ t → j ∉ cs.fids → j ∉ l₁ → j ∉ l₂ →
        (freeAdaToken fuel s (some o) (some t)).tok? j = s.tok? j) ∧
      (∀ j, j ∈ l₁ ∨ j ∈ l₂ → ∃ x x2, s.tok? j = some x ∧
        (freeAdaToken fuel s (some o) (some t)).tok? j = some x2 ∧
        x2.parent = x.parent ∧ x2.childHead = x.childHead ∧
        x2.childTail = x.childTail ∧ x2.numTokens = x.numTokens) ∧
      (∃ x2, (freeAdaToken fuel s (some o) (some t)).tok? o = some x2 ∧
        x2.prev = otok.prev ∧ x2.next = otok.next ∧ x2.parent = otok.parent)) ∧
    (∀ (s : AdaState) (o : Nat) (cs : TreeForest) (otok : AdaTokenInfo),
      s.tok? o = some otok →
      chainIs s o none otok.childHead cs.roots →
      otok.childTail = cs.roots.getLast? →
      otok.numTokens = (cs.roots.length : Int) →
      ForestOk s cs →
      (o :: cs.fids).Nodup →
      (freeAdaTokenList fuel s (some o)).fuelOut = false →
      (∃ x2, (freeAdaTokenList fuel s (some o)).tok? o = some x2 ∧
        x2.childHead = none ∧ x2.childTail = none ∧ x2.numTokens = 0 ∧
        x2.prev = otok.prev ∧ x2.next = otok.next ∧ x2.parent = otok.parent) ∧
      (∀ j ∈ cs.fids, (freeAdaTokenList fuel s (some o)).tok? j = none) ∧
      (∀ j, j ≠ o → j ∉ cs.fids →
        (freeAdaTokenList fuel s (some o)).tok? j = s.tok? j)) := by
  intro fuel
  induction fuel with
  | zero =>
    constructor
    · intro s o t l₁ l₂ cs ttok otok _ _ _ _ _ _ _ hfo
      exact absurd hfo (by simp [freeAdaToken])
    · intro s o cs otok _ _ _ _ _ _ hfo
      exact absurd hfo (by simp [freeAdaTokenList])
  | succ fuel ih =>
    obtain ⟨ihT, ihL⟩ := ih
    constructor
    · -- the token-level statement at fuel + 1
      intro s o t l₁ l₂ cs ttok otok htk ho hchain htail hnum htree hnd hfo
      have hnd0 := List.nodup_cons.mp hnd
      have honbig := hnd0.1
      have hndba := List.nodup_append.mp hnd0.2
      have hndlist : (l₁ ++ t :: l₂).Nodup := hndba.1
      have hndfids : cs.fids.Nodup := hndba.2.1
      have hdisjLF := hndba.2.2
      have hnolist : o ∉ l₁ ++ t :: l₂ := fun hc =>
        honbig (List.mem_append_left _ hc)
      have hnofids : o ∉ cs.fids := fun hc =>
        honbig (List.mem_append.mpr (Or.inr hc))
      have htfids : t ∉ cs.fids := fun hc =>
        hdisjLF (List.mem_append.mpr (Or.inr (List.mem_cons_self t l₂))) hc
      have hsepD : ∀ j ∈ cs.fids, j ∉ l₁ ++ t :: l₂ := fun j hj hc =>
        hdisjLF hc hj
      have htlen : t < s.tokens.length := AdaState.tok?_lt_length s t ttok htk
      have hs1t : (s.setTok t { ttok with name := none, nameStatic := false }).tok? t = some { ttok with name := none, nameStatic := false } :=
        AdaState.tok?_setTok_self s t _ htlen
      have hs1frame : ∀ j, j ≠ t → (s.setTok t { ttok with name := none, nameStatic := false }).tok? j = s.tok? j :=
        fun j hj => AdaState.tok?_setTok_ne s t j _ hj
      cases htree with
      | node hca hfok =>
        obtain ⟨ttok0, htk0, hchainT, htailT, hnumT⟩ := hca
        rw [htk] at htk0
        cases htk0
        have hchainT1 : chainIs (s.setTok t { ttok with name := none, nameStatic := false }) t none ttok.childHead cs.roots :=
          chainIs_congr s _ t cs.roots none ttok.childHead
            (fun i hi => hs1frame i
              (fun hc => htfids (hc ▸ roots_sub_fids cs i hi))) hchainT
        have hlive := ForestOk_live s cs hfok
        have hfok1 : ForestOk (s.setTok t { ttok with name := none, nameStatic := false }) cs := by
          refine ForestOk_frame s _ cs hfok (fun j hj => ?_) (fun j hj => ?_)
          · obtain ⟨x, hx⟩ := hlive j hj
            have he := hs1frame j (fun hc => htfids (hc ▸ hj))
            exact ⟨x, x, hx, by rw [he]; exact hx, rfl, rfl, rfl⟩
          · obtain ⟨x, hx⟩ := hlive j (innerF_sub_fids cs j hj)
            have he := hs1frame j
              (fun hc => htfids (hc ▸ innerF_sub_fids cs j hj))
            exact ⟨x, x, hx, by rw [he]; exact hx, rfl, rfl, rfl⟩
        have hndT : (t :: cs.fids).Nodup := List.nodup_cons.mpr ⟨htfids, hndfids⟩
        rw [freeAdaToken_succ fuel s o t ttok htk] at hfo
        rw [fuelOut_unlinkState] at hfo
        have ihLres := ihL (s.setTok t { ttok with name := none, nameStatic := false }) t cs
          { ttok with name := none, nameStatic := false }
          hs1t hchainT1 htailT hnumT hfok1 hndT hfo
        obtain ⟨⟨xt2, hxt2, hxt2ch, hxt2ct, hxt2num, hxt2prev, hxt2next,
          hxt2par⟩, hdeadF, hframeF⟩ := ihLres
        have hframe2 : ∀ j, j ≠ t → j ∉ cs.fids →
            (freeAdaTokenList fuel (s.setTok t { ttok with name := none, nameStatic := false }) (some t)).tok? j = s.tok? j :=
          fun j hjt hjf => by rw [hframeF j hjt hjf, hs1frame j hjt]
        rw [freeAdaToken_succ fuel s o t ttok htk]
        exact free_token_step s _ o t l₁ l₂ cs.fids ttok otok xt2 htk ho
          hchain htail hnum hndlist hnolist hsepD hnofids htfids hxt2
          hxt2prev hxt2next hdeadF hframe2
    · -- the list-level statement at fuel + 1
      intro s o cs otok ho hchain htail hnum hfok hnd hfo
      cases cs with
      | nil =>
        have hch : otok.childHead = none := hchain
        have hres : freeAdaTokenList (fuel + 1) s (some o) = s := by
          conv_lhs => rw [freeAdaTokenList]
          simp only [ho, hch]
        rw [hres]
        refine ⟨⟨otok, ho, hch, htail, ?_, rfl, rfl, rfl⟩, ?_, ?_⟩
        · rw [hnum]
          simp [TreeForest.roots]
        · intro j hj
          simp only [TreeForest.fids] at hj
          exact absurd hj (List.not_mem_nil j)
        · intro j hjo hjf
          rfl
      | cons d rest =>
        cases d with
        | node h cs₁ =>
          cases hfok with
          | cons htOk hrestOk =>
            simp only [TreeForest.roots] at hchain htail hnum
            simp only [TreeForest.fids, TreeDesc.tids] at hnd ⊢
            have hchainC := hchain
            obtain ⟨hcur, ttokh, htkh, hparh, hprevh, hrestch⟩ := hchainC
            have hres : freeAdaTokenList (fuel + 1) s (some o) =
                freeAdaTokenList fuel
                  (freeAdaToken fuel s (some o) (some h)) (some o) := by
              conv_lhs => rw [freeAdaTokenList]
              simp only [ho, hcur]
            rw [hres] at hfo ⊢
            have hfo1 : (freeAdaToken fuel s (some o) (some h)).fuelOut =
                false := by
              cases hx : (freeAdaToken fuel s (some o) (some h)).fuelOut
              · rfl
              · have h2 := (free_fuelOut_absorb fuel).2
                  (freeAdaToken fuel s (some o) (some h)) (some o) hx
                rw [hfo] at h2
                cases h2
            have hno2 : o ∉ (h :: cs₁.fids) ++ rest.fids :=
              (List.nodup_cons.mp hnd).1
            have hnd2a := List.nodup_append.mp (List.nodup_cons.mp hnd).2
            have hhcs1 : h ∉ cs₁.fids := (List.nodup_cons.mp hnd2a.1).1
            have hcs1nd : cs₁.fids.Nodup := (List.nodup_cons.mp hnd2a.1).2
            have hrfnd : rest.fids.Nodup := hnd2a.2.1
            have hdisjHR := hnd2a.2.2
            have hrsub : rest.roots ⊆ rest.fids :=
              (roots_sublist_fids rest).subset
            have hrrnd : rest.roots.Nodup :=
              List.Nodup.sublist (roots_sublist_fids rest) hrfnd
            have hhrf : h ∉ rest.fids := fun hc =>
              hdisjHR (List.mem_cons_self h cs₁.fids) hc
            have hhrr : h ∉ rest.roots := fun hc => hhrf (hrsub hc)
            have hdisjC1R : ∀ a, a ∈ cs₁.fids → a ∉ rest.fids :=
              fun a ha hc => hdisjHR (List.mem_cons_of_mem h ha) hc
            have hoh : o ≠ h := fun hc => hno2 (by
              rw [hc]
              exact List.mem_append_left _ (List.mem_cons_self h cs₁.fids))
            have hocs1 : o ∉ cs₁.fids := fun hc =>
              hno2 (List.mem_append_left _ (List.mem_cons_of_mem h hc))
            have horf : o ∉ rest.fids := fun hc =>
              hno2 (List.mem_append.mpr (Or.inr hc))
            have horr : o ∉ rest.roots := fun hc => horf (hrsub hc)
            have hndT : (o :: (([] ++ h :: rest.roots) ++ cs₁.fids)).Nodup := by
              simp only [List.nil_append, List.cons_append]
              refine List.nodup_cons.mpr ⟨?_, List.nodup_cons.mpr ⟨?_, ?_⟩⟩
              · intro hc
                rcases List.mem_cons.mp hc with hc1 | hc2
                · exact hoh hc1
                · rcases List.mem_append.mp hc2 with hc3 | hc4
                  · exact horr hc3
                  · exact hocs1 hc4
              · intro hc
                rcases List.mem_append.mp hc with hc1 | hc2
                · exact hhrr hc1
                · exact hhcs1 hc2
              · exact List.nodup_append.mpr ⟨hrrnd, hcs1nd,
                  fun {a} ha hc => hdisjC1R a hc (hrsub ha)⟩
            have ihTres := ihT s o h [] rest.roots cs₁ ttokh otok htkh ho
              hchain htail hnum htOk hndT hfo1
            obtain ⟨hc1, hc2, hc3, hc4, hc5⟩ := ihTres
            obtain ⟨ptok2, hp2, hchain2, htail2b, hnum2b⟩ := hc1
            obtain ⟨x5, hx5, hx5p, hx5n, hx5par⟩ := hc5
            rw [hp2] at hx5
            cases hx5
            have hpermR := fids_perm rest
            have hndRI : (rest.roots ++ rest.innerF).Nodup := hpermR.nodup hrfnd
            have hdisjRI : ∀ a, a ∈ rest.innerF → a ∉ rest.roots :=
              fun a ha hc => (List.nodup_append.mp hndRI).2.2 hc ha
            have hliveR := ForestOk_live s rest hrestOk
            have hfokR : ForestOk (freeAdaToken fuel s (some o) (some h))
                rest := by
              refine ForestOk_frame s _ rest hrestOk (fun j hj => ?_)
                (fun j hj => ?_)
              · rcases List.mem_append.mp (hpermR.mem_iff.mp hj) with hjr | hji
                · obtain ⟨x, x2, hx, hx2, hxp, hxch, hxct, hxnum⟩ :=
                    hc4 j (Or.inr hjr)
                  exact ⟨x, x2, hx, hx2, hxch, hxct, hxnum⟩
                · obtain ⟨x, hx⟩ := hliveR j hj
                  have hjo : j ≠ o := fun hc => horf (hc ▸ hj)
                  have hjh : j ≠ h := fun hc => hhrf (hc ▸ hj)
                  have hjc1 : j ∉ cs₁.fids := fun hc => hdisjC1R j hc hj
                  have hjrr : j ∉ rest.roots := hdisjRI j hji
                  have he := hc3 j hjo hjh hjc1 (List.not_mem_nil j) hjrr
                  exact ⟨x, x, hx, by rw [he]; exact hx, rfl, rfl, rfl⟩
              · obtain ⟨x, hx⟩ := hliveR j (innerF_sub_fids rest j hj)
                have hjo : j ≠ o := fun hc =>
                  horf (hc ▸ innerF_sub_fids rest j hj)
                have hjh : j ≠ h := fun hc =>
                  hhrf (hc ▸ innerF_sub_fids rest j hj)
                have hjc1 : j ∉ cs₁.fids := fun hc =>
                  hdisjC1R j hc (innerF_sub_fids rest j hj)
                have hjrr : j ∉ rest.roots := hdisjRI j hj
                have he := hc3 j hjo hjh hjc1 (List.not_mem_nil j) hjrr
                exact ⟨x, x, hx, by rw [he]; exact hx, rfl, rfl, rfl⟩
            have hndR2 : (o :: rest.fids).Nodup :=
              List.nodup_cons.mpr ⟨horf, hrfnd⟩
            have ihLres := ihL (freeAdaToken fuel s (some o) (some h)) o rest
              ptok2 hp2 hchain2 htail2b hnum2b hfokR hndR2 hfo
            obtain ⟨⟨xo, hxo, hxoch, hxoct, hxonum, hxoprev, hxonext,
              hxopar⟩, hdeadR, hframeR⟩ := ihLres
            refine ⟨⟨xo, hxo, hxoch, hxoct, hxonum, ?_, ?_, ?_⟩, ?_, ?_⟩
            · rw [hxoprev, hx5p]
            · rw [hxonext, hx5n]
            · rw [hxopar, hx5par]
            · intro j hj
              rcases List.mem_append.mp hj with hj1 | hj2
              · have hdead1 : (freeAdaToken fuel s (some o) (some h)).tok? j =
                    none := by
                  rcases List.mem_cons.mp hj1 with rfl | hjc
                  · exact hc2 j (Or.inl rfl)
                  · exact hc2 j (Or.inr hjc)
                have hjo : j ≠ o := fun hc => by
                  rw [hc] at hj1
                  rcases List.mem_cons.mp hj1 with hc1 | hc2b
                  · exact hoh hc1
                  · exact hocs1 hc2b
                have hjrf : j ∉ rest.fids := fun hc => by
                  rcases List.mem_cons.mp hj1 with rfl | hjc
                  · exact hhrf hc
                  · exact hdisjC1R j hjc hc
                rw [hframeR j hjo hjrf]
                exact hdead1
              · exact hdeadR j hj2
            · intro j hjo hjf
              have hjh : j ≠ h := fun hc => hjf (by
                rw [hc]
                exact List.mem_append_left _ (List.mem_cons_self h cs₁.fids))
              have hjc1 : j ∉ cs₁.fids := fun hc =>
                hjf (List.mem_append_left _ (List.mem_cons_of_mem h hc))
              have hjrf : j ∉ rest.fids := fun hc =>
                hjf (List.mem_append.mpr (Or.inr hc))
              have hjrr : j ∉ rest.roots := fun hc => hjrf (hrsub hc)
              rw [hframeR j hjo hjrf,
                hc3 j hjo hjh hjc1 (List.not_mem_nil j) hjrr]

/-- A forward-linked suffix of a child list: only the head pointer and
the `next` links are required (the loop in `appendAdaTokenList` reads
nothing else of the source list). -/
def looseChain (s : AdaState) : Option Nat → List Nat → Prop
  | cur, [] => cur = none
  | cur, i :: rest => cur = some i ∧ ∃ tok, s.tok? i = some tok ∧
      looseChain s tok.next rest

theorem chainIs_looseChain (s : AdaState) (p : Nat) :
    ∀ (l : List Nat) (prev cur : Option Nat),
    chainIs s p prev cur l → looseChain s cur l := by
  intro l
  induction l with
  | nil => intro prev cur h; exact h
  | cons i rest ih =>
    intro prev cur h
    obtain ⟨hc, tok, hi, -, -, hrest⟩ := h
    exact ⟨hc, tok, hi, ih (some i) tok.next hrest⟩

theorem looseChain_congr (s s' : AdaState) :
    ∀ (l : List Nat) (cur : Option Nat),
    (∀ i, i ∈ l → s'.tok? i = s.tok? i) →
    looseChain s cur l → looseChain s' cur l := by
  intro l
  induction l with
  | nil => intro cur hf h; exact h
  | cons i rest ih =>
    intro cur hf h
    obtain ⟨hc, tok, hi, hrest⟩ := h
    exact ⟨hc, tok, by rw [hf i (List.mem_cons_self i rest)]; exact hi,
      ih tok.next (fun j hj => hf j (List.mem_cons_of_mem i hj)) hrest⟩

theorem appendAdaToken_frame (s : AdaState) (p t : Nat)
    (ptok ttok : AdaTokenInfo)
    (hp : s.tok? p = some ptok) (ht : s.tok? t = some ttok) (j : Nat)
    (hjp : j ≠ p) (hjt : j ≠ t) (hjtl : ptok.childTail ≠ some j) :
    (appendAdaToken s (some p) (some t)).tok? j = s.tok? j := by
  unfold appendAdaToken
  simp only [hp, ht]
  rcases hct : ptok.childTail with - | tl
  · dsimp only
    rw [AdaState.tok?_setTok_ne _ p j _ hjp, AdaState.tok?_setTok_ne _ t j _ hjt]
  · dsimp only
    have hjtl2 : j ≠ tl := fun hc => hjtl (by rw [hct, hc])
    rw [AdaState.tok?_setTok_ne _ p j _ hjp,
      AdaState.tok?_modTok_ne _ tl j _ hjtl2,
      AdaState.tok?_setTok_ne _ t j _ hjt]

theorem nodup_live_length_le (s : AdaState) (l : List Nat) (hnd : l.Nodup)
    (hlive : ∀ j ∈ l, ∃ x, s.tok? j = some x) :
    l.length ≤ s.tokens.length := by
  have hsub : ∀ j ∈ l, j ∈ List.range s.tokens.length := by
    intro j hj
    obtain ⟨x, hx⟩ := hlive j hj
    exact List.mem_range.mpr (AdaState.tok?_lt_length s j x hx)
  calc l.length = l.toFinset.card := (List.toFinset_card_of_nodup hnd).symm
    _ ≤ (List.range s.tokens.length).toFinset.card :=
      Finset.card_le_card (fun j hj =>
        List.mem_toFinset.mpr (hsub j (List.mem_toFinset.mp hj)))
    _ = (List.range s.tokens.length).length :=
      List.toFinset_card_of_nodup (List.nodup_range _)
    _ = s.tokens.length := List.length_range _

/-- The splice loop of `appendAdaTokenList`: it moves the whole loose
suffix `ls` hanging from `src`'s head onto the back of `p`'s child
list, leaves `src` live with an emptied head pointer, and touches no
other token. -/
theorem appendAdaTokenListLoop_spec :
    ∀ (ls : List Nat) (fuel : Nat) (s : AdaState) (p src : Nat)
      (lp : List Nat) (stok : AdaTokenInfo),
    s.tok? src = some stok →
    looseChain s stok.childHead ls →
    childrenAre s p lp →
    ls.length < fuel →
    ((p :: src :: lp) ++ ls).Nodup →
    childrenAre (appendAdaTokenListLoop fuel s p src) p (lp ++ ls) ∧
    (∃ stok2, (appendAdaTokenListLoop fuel s p src).tok? src = some stok2 ∧
      stok2.childHead = none) ∧
    (∀ j, j ≠ p → j ≠ src → j ∉ lp → j ∉ ls →
      (appendAdaTokenListLoop fuel s p src).tok? j = s.tok? j) := by
  intro ls
  induction ls with
  | nil =>
    intro fuel s p src lp stok hs hloose hcp hfuel hnd
    cases fuel with
    | zero => exact absurd hfuel (by simp)
    | succ fuel =>
      have hch : stok.childHead = none := hloose
      have hres : appendAdaTokenListLoop (fuel + 1) s p src = s := by
        conv_lhs => rw [appendAdaTokenListLoop]
        simp only [hs, hch]
      rw [hres]
      exact ⟨by simpa using hcp, ⟨stok, hs, hch⟩, fun j _ _ _ _ => rfl⟩
  | cons h ls' ih =>
    intro fuel s p src lp stok hs hloose hcp hfuel hnd
    cases fuel with
    | zero => exact absurd hfuel (by simp)
    | succ fuel =>
      obtain ⟨hch, htokh, hth, hlrest⟩ := hloose
      have hnda := List.nodup_append.mp hnd
      have hp1 := List.nodup_cons.mp hnda.1
      have hp2 := List.nodup_cons.mp hp1.2
      have hh1 := List.nodup_cons.mp hnda.2.1
      have hdisj := hnda.2.2
      have hpsrc : p ≠ src := fun hc => hp1.1 (hc ▸ List.mem_cons_self src lp)
      have hplp : p ∉ lp := fun hc => hp1.1 (List.mem_cons_of_mem src hc)
      have hsrclp : src ∉ lp := hp2.1
      have hlpnd : lp.Nodup := hp2.2
      have hph : p ≠ h := fun hc => hdisj (List.mem_cons_self p _)
        (hc ▸ List.mem_cons_self h ls')
      have hsrch : src ≠ h := fun hc => hdisj
        (List.mem_cons_of_mem p (List.mem_cons_self src lp))
        (hc ▸ List.mem_cons_self h ls')
      have hpls : p ∉ ls' := fun hc => hdisj (List.mem_cons_self p _)
        (List.mem_cons_of_mem h hc)
      have hsrcls : src ∉ ls' := fun hc => hdisj
        (List.mem_cons_of_mem p (List.mem_cons_self src lp))
        (List.mem_cons_of_mem h hc)
      have hhlp : h ∉ lp := fun hc => hdisj
        (List.mem_cons_of_mem p (List.mem_cons_of_mem src hc))
        (List.mem_cons_self h ls')
      have hlpls : ∀ a, a ∈ lp → a ∉ ls' := fun a ha hc => hdisj
        (List.mem_cons_of_mem p (List.mem_cons_of_mem src ha))
        (List.mem_cons_of_mem h hc)
      have hres : appendAdaTokenListLoop (fuel + 1) s p src =
          appendAdaTokenListLoop fuel
            ((appendAdaToken s (some p) (some h)).modTok src
              (fun x => { x with childHead := htokh.next })) p src := by
        conv_lhs => rw [appendAdaTokenListLoop]
        simp only [hs, hch, hth]
      have hcpA : childrenAre (appendAdaToken s (some p) (some h)) p
          (lp ++ [h]) :=
        appendAdaToken_children s p h lp htokh hcp hth hhlp (Ne.symm hph)
          hplp hlpnd
      obtain ⟨ptok, hptok, hchainP, htailP, hnumP⟩ := hcp
      have htailmem : ∀ tl, ptok.childTail = some tl → tl ∈ lp := by
        intro tl htl
        rw [htailP] at htl
        exact mem_of_getLast?_eq htl
      have hframeA : ∀ j, j ≠ p → j ≠ h → j ∉ lp →
          (appendAdaToken s (some p) (some h)).tok? j = s.tok? j :=
        fun j h1 h2 h3 => appendAdaToken_frame s p h ptok htokh hptok hth j
          h1 h2 (fun hc => h3 (htailmem j hc))
      have hsA_src : (appendAdaToken s (some p) (some h)).tok? src =
          some stok := by
        rw [hframeA src (Ne.symm hpsrc) hsrch hsrclp]
        exact hs
      have hsB_src : ((appendAdaToken s (some p) (some h)).modTok src
          (fun x => { x with childHead := htokh.next })).tok? src =
          some { stok with childHead := htokh.next } :=
        AdaState.tok?_modTok_self _ src _ stok hsA_src
      have hstep_frame : ∀ j, j ≠ p → j ≠ src → j ∉ lp → j ≠ h →
          ((appendAdaToken s (some p) (some h)).modTok src
            (fun x => { x with childHead := htokh.next })).tok? j =
          s.tok? j := by
        intro j h1 h2 h3 h4
        rw [AdaState.tok?_modTok_ne _ src j _ h2]
        exact hframeA j h1 h4 h3
      have hcpB : childrenAre ((appendAdaToken s (some p) (some h)).modTok src
          (fun x => { x with childHead := htokh.next })) p (lp ++ [h]) := by
        refine childrenAre_congr _ _ p (lp ++ [h]) (fun j hj => ?_) hcpA
        refine AdaState.tok?_modTok_ne _ src j _ ?_
        rcases hj with rfl | hj2
        · exact hpsrc
        · rcases List.mem_append.mp hj2 with hj3 | hj4
          · exact fun hc => hsrclp (hc ▸ hj3)
          · have : j = h := by simpa using hj4
            rw [this]
            exact Ne.symm hsrch
      have hlooseB : looseChain ((appendAdaToken s (some p) (some h)).modTok
          src (fun x => { x with childHead := htokh.next })) htokh.next ls' := by
        refine looseChain_congr s _ ls' htokh.next (fun i hi => ?_) hlrest
        have hih : i ≠ h := fun hc => hh1.1 (hc ▸ hi)
        exact hstep_frame i (fun hc => hpls (hc ▸ hi))
          (fun hc => hsrcls (hc ▸ hi)) (fun hc => hlpls i hc hi) hih
      have hndB : ((p :: src :: (lp ++ [h])) ++ ls').Nodup := by
        have heq : (p :: src :: (lp ++ [h])) ++ ls' =
            (p :: src :: lp) ++ h :: ls' := by simp
        rw [heq]
        exact hnd
      have hfuelB : ls'.length < fuel := by
        simp only [List.length_cons] at hfuel
        omega
      obtain ⟨ihc1, ihc2, ihc3⟩ := ih fuel
        ((appendAdaToken s (some p) (some h)).modTok src
          (fun x => { x with childHead := htokh.next })) p src (lp ++ [h])
        { stok with childHead := htokh.next } hsB_src hlooseB hcpB hfuelB hndB
      rw [hres]
      refine ⟨?_, ihc2, ?_⟩
      · have heq : (lp ++ [h]) ++ ls' = lp ++ h :: ls' := by simp
        rw [← heq]
        exact ihc1
      · intro j h1 h2 h3 h4
        have hjh : j ≠ h := fun hc => h4 (hc ▸ List.mem_cons_self h ls')
        have hjls : j ∉ ls' := fun hc => h4 (List.mem_cons_of_mem h hc)
        have hjlph : j ∉ lp ++ [h] := fun hc => by
          rcases List.mem_append.mp hc with hc1 | hc2
          · exact h3 hc1
          · exact hjh (by simpa using hc2)
        rw [ihc3 j h1 h2 hjlph hjls, hstep_frame j h1 h2 h3 hjh]

/-- `appendAdaTokenList(parent, &src->children)`: the whole source list
is spliced onto the back of `parent`'s list and the source list is
zeroed out. -/
theorem appendAdaTokenList_spec (s : AdaState) (p src : Nat)
    (lp ls : List Nat)
    (hcp : childrenAre s p lp) (hcs : childrenAre s src ls)
    (hnd : ((p :: src :: lp) ++ ls).Nodup) :
    childrenAre (appendAdaTokenList s (some p) src) p (lp ++ ls) ∧
    childrenAre (appendAdaTokenList s (some p) src) src [] := by
  obtain ⟨stok, hst, hchainS, htailS, hnumS⟩ := hcs
  have hloose : looseChain s stok.childHead ls :=
    chainIs_looseChain s src ls none stok.childHead hchainS
  have hlive : ∀ j ∈ ls, ∃ x, s.tok? j = some x :=
    chainIs_live s src ls none stok.childHead hchainS
  have hlsnd : ls.Nodup := (List.nodup_append.mp hnd).2.1
  have hfuel : ls.length < s.tokens.length + 1 :=
    Nat.lt_succ_of_le (nodup_live_length_le s ls hlsnd hlive)
  obtain ⟨hc1, ⟨stok2, hstok2, hch2⟩, hc3⟩ :=
    appendAdaTokenListLoop_spec ls (s.tokens.length + 1) s p src lp stok
      hst hloose hcp hfuel hnd
  have hres : appendAdaTokenList s (some p) src =
      initAdaTokenList
        (appendAdaTokenListLoop (s.tokens.length + 1) s p src) src := rfl
  rw [hres]
  unfold initAdaTokenList
  have hnda := List.nodup_append.mp hnd
  have hp1 := List.nodup_cons.mp hnda.1
  have hp2 := List.nodup_cons.mp hp1.2
  have hpsrc : p ≠ src := fun hc => hp1.1 (hc ▸ List.mem_cons_self src lp)
  have hsrclp : src ∉ lp := hp2.1
  have hsrcls : src ∉ ls := fun hc => hnda.2.2
    (List.mem_cons_of_mem p (List.mem_cons_self src lp)) hc
  constructor
  · refine childrenAre_congr _ _ p (lp ++ ls) (fun j hj => ?_) hc1
    refine AdaState.tok?_modTok_ne _ src j _ ?_
    rcases hj with rfl | hj2
    · exact hpsrc
    · rcases List.mem_append.mp hj2 with hj3 | hj4
      · exact fun hc => hsrclp (hc ▸ hj3)
      · exact fun hc => hsrcls (hc ▸ hj4)
  · refine ⟨{ stok2 with childHead := none, childTail := none, numTokens := 0 }, ?_, rfl, rfl, ?_⟩
    · exact AdaState.tok?_modTok_self _ src _ stok2 hstok2
    · simp

/-- C9: every operation on the entity tree preserves the children-list
invariant.  (a) `appendAdaToken` extends the parent's consistent
doubly-linked child list at the tail (insertion order), with the new
child's parent back-reference set and `numTokens` counting the list.
(b) `freeAdaToken` on a child `t` of `o` (with `t`'s realised subtree
`cs`) detaches and destroys it: `o`'s list is again consistent without
`t`, and `t` and its whole subtree are gone from the arena.  (c)
`appendAdaTokenList` splices the whole source list onto the new parent
in order and leaves the source list empty. -/
theorem ada_c9_children_invariant :
    (∀ (s : AdaState) (p t : Nat) (l : List Nat) (ttok : AdaTokenInfo),
      childrenAre s p l → s.tok? t = some ttok → t ∉ l → t ≠ p → p ∉ l →
      l.Nodup →
      childrenAre (appendAdaToken s (some p) (some t)) p (l ++ [t])) ∧
    (∀ (fuel : Nat) (s : AdaState) (o t : Nat) (l₁ l₂ : List Nat)
      (cs : TreeForest) (ttok : AdaTokenInfo),
      childrenAre s o (l₁ ++ t :: l₂) → s.tok? t = some ttok →
      TreeOk s (TreeDesc.node t cs) →
      (o :: ((l₁ ++ t :: l₂) ++ cs.fids)).Nodup →
      (freeAdaToken fuel s (some o) (some t)).fuelOut = false →
      childrenAre (freeAdaToken fuel s (some o) (some t)) o (l₁ ++ l₂) ∧
      (∀ j, j = t ∨ j ∈ cs.fids →
        (freeAdaToken fuel s (some o) (some t)).tok? j = none)) ∧
    (∀ (s : AdaState) (p src : Nat) (lp ls : List Nat),
      childrenAre s p lp → childrenAre s src ls →
      ((p :: src :: lp) ++ ls).Nodup →
      childrenAre (appendAdaTokenList s (some p) src) p (lp ++ ls) ∧
      childrenAre (appendAdaTokenList s (some p) src) src []) := by
  refine ⟨?_, ?_, ?_⟩
  · intro s p t l ttok hcp htk h1 h2 h3 h4
    exact appendAdaToken_children s p t l ttok hcp htk h1 h2 h3 h4
  · intro fuel s o t l₁ l₂ cs ttok hco htk htree hnd hfo
    obtain ⟨otok, ho, hchain, htail, hnum⟩ := hco
    obtain ⟨hc1, hc2, -, -, -⟩ := (free_spec fuel).1 s o t l₁ l₂ cs ttok otok
      htk ho hchain htail hnum htree hnd hfo
    exact ⟨hc1, hc2⟩
  · intro s p src lp ls hcp hcs hnd
    exact appendAdaTokenList_spec s p src lp ls hcp hcs hnd

def c9AppendArena : AdaState := mkLineState "" [some default, some default]

def c9OwnerTok : AdaTokenInfo := { (default : AdaTokenInfo) with childHead := some 1, childTail := some 1, numTokens := 1 }

def c9ChildTok : AdaTokenInfo := { (default : AdaTokenInfo) with parent := some 0 }

def c9FreeArena : AdaState := mkLineState "" [some c9OwnerTok, some c9ChildTok]

def c9SrcTok : AdaTokenInfo := { (default : AdaTokenInfo) with childHead := some 2, childTail := some 2, numTokens := 1 }

def c9MovedTok : AdaTokenInfo := { (default : AdaTokenInfo) with parent := some 1 }

def c9SpliceArena : AdaState :=
  mkLineState "" [some default, some c9SrcTok, some c9MovedTok]

theorem ada_c9_children_invariant_witness :
    childrenAre (appendAdaToken c9AppendArena (some 0) (some 1)) 0 [1] ∧
    ((freeAdaToken 3 c9FreeArena (some 0) (some 1)).fuelOut = false ∧
      childrenAre (freeAdaToken 3 c9FreeArena (some 0) (some 1)) 0 [] ∧
      (freeAdaToken 3 c9FreeArena (some 0) (some 1)).tok? 1 = none) ∧
    (childrenAre (appendAdaTokenList c9SpliceArena (some 0) 1) 0 [2] ∧
      childrenAre (appendAdaTokenList c9SpliceArena (some 0) 1) 1 []) := by
  have hmain := ada_c9_children_invariant
  refine ⟨?_, ?_, ?_⟩
  · have hcp : childrenAre c9AppendArena 0 [] := ⟨default, rfl, rfl, rfl, rfl⟩
    exact hmain.1 c9AppendArena 0 1 [] default hcp rfl (List.not_mem_nil 1)
      (by decide) (List.not_mem_nil 0) List.nodup_nil
  · have hchain : chainIs c9FreeArena 0 none c9OwnerTok.childHead [1] :=
      ⟨rfl, c9ChildTok, rfl, rfl, rfl, rfl⟩
    have hco : childrenAre c9FreeArena 0 ([] ++ 1 :: []) :=
      ⟨c9OwnerTok, rfl, hchain, rfl, rfl⟩
    have htree : TreeOk c9FreeArena (TreeDesc.node 1 TreeForest.nil) :=
      TreeOk.node ⟨c9ChildTok, rfl, rfl, rfl, rfl⟩ ForestOk.nil
    have hnd : (0 :: (([] ++ 1 :: []) ++ TreeForest.nil.fids)).Nodup := by
      simp [TreeForest.fids]
    have hfo : (freeAdaToken 3 c9FreeArena (some 0) (some 1)).fuelOut =
        false := rfl
    have hb := hmain.2.1 3 c9FreeArena 0 1 [] [] TreeForest.nil c9ChildTok
      hco rfl htree hnd hfo
    exact ⟨hfo, hb.1, hb.2 1 (Or.inl rfl)⟩
  · have hcp : childrenAre c9SpliceArena 0 [] := ⟨default, rfl, rfl, rfl, rfl⟩
    have hchainS : chainIs c9SpliceArena 1 none c9SrcTok.childHead [2] :=
      ⟨rfl, c9MovedTok, rfl, rfl, rfl, rfl⟩
    have hcs : childrenAre c9SpliceArena 1 [2] :=
      ⟨c9SrcTok, rfl, hchainS, rfl, rfl⟩
    have hnd : ((0 :: 1 :: []) ++ [2]).Nodup := by decide
    exact hmain.2.2 c9SpliceArena 0 1 [] [2] hcp hcs hnd
